import Mathlib

/-!
# clusterix: login automaton and spot parser

A shallow embedding of `loop.go`, `parse.go` and the dispatch part of
`clusterix.go`.

Go strings are modelled by the list of their runes (`Str`); all inputs are
taken to be valid UTF-8.  The library code the program calls (package
`regexp`, `strings`, `strconv`, `time`) is modelled below as far as the
program uses it; the two validation libraries `callsign` and `locator` are
external to the repository and enter as parameters (`Lib`).
-/

namespace Clusterix

/-- A Go string, as the list of its runes. -/
abbrev Str := List Char

/-! ## package `unicode` / `strings` -/

/-- Go `unicode.IsSpace`: the Latin-1 spaces and the `White_Space` table. -/
def isSpace (c : Char) : Bool :=
  let n := c.toNat
  (9 ≤ n && n ≤ 13) || n == 32 || n == 0x85 || n == 0xA0 || n == 0x1680 ||
  (0x2000 ≤ n && n ≤ 0x200A) || n == 0x2028 || n == 0x2029 || n == 0x202F ||
  n == 0x205F || n == 0x3000

/-- Go `strings.TrimLeft` with the white-space predicate. -/
def trimLeft (s : Str) : Str := s.dropWhile isSpace

/-- Go `strings.TrimRight` with the white-space predicate. -/
def trimRight (s : Str) : Str := (s.reverse.dropWhile isSpace).reverse

/-- Go `strings.TrimSpace`: all leading and trailing white space removed. -/
def TrimSpace (s : Str) : Str := trimRight (trimLeft s)

/-- Go `strings.HasSuffix`. -/
def HasSuffix (s suffix : Str) : Bool := suffix.isSuffixOf s

/-! ## package `regexp` (the fragment used by the spot pattern)

Leftmost-first matching, i.e. the match a backtracking search finds first.
The pattern of the program repeats one-character classes only, so `plus`
takes a class. -/

/-- Syntax of the regular expressions used. -/
inductive Re where
  | eps : Re
  | chr (c : Char) : Re
  | cls (p : Char → Bool) : Re
  | seq (a b : Re) : Re
  | plus (p : Char → Bool) : Re
  | opt (r : Re) : Re
  | grp (i : Nat) (r : Re) : Re

/-- Capture slots: for each group the start and end offset, if it took part. -/
abbrev Caps := List (Option (Nat × Nat))

/-- Continuation of a match: current offset, remaining input, slots. -/
abbrev Cont := Nat → Str → Caps → Option (Nat × Caps)

/-- Greedy `p+` followed by `k`: longer runs are tried first. -/
def plusRun (p : Char → Bool) (k : Cont) : Nat → Str → Caps → Option (Nat × Caps)
  | _, [], _ => none
  | pos, c :: cs, caps =>
    if p c then
      match plusRun p k (pos + 1) cs caps with
      | some r => some r
      | none => k (pos + 1) cs caps
    else none

/-- Backtracking matcher in continuation-passing style. -/
def Re.run : Re → Cont → Nat → Str → Caps → Option (Nat × Caps)
  | .eps, k, pos, cs, caps => k pos cs caps
  | .chr c, k, pos, cs, caps =>
    match cs with
    | [] => none
    | d :: ds => if d = c then k (pos + 1) ds caps else none
  | .cls p, k, pos, cs, caps =>
    match cs with
    | [] => none
    | d :: ds => if p d then k (pos + 1) ds caps else none
  | .seq a b, k, pos, cs, caps =>
    a.run (fun pos1 cs1 caps1 => b.run k pos1 cs1 caps1) pos cs caps
  | .plus p, k, pos, cs, caps => plusRun p k pos cs caps
  | .opt r, k, pos, cs, caps =>
    match r.run k pos cs caps with
    | some x => some x
    | none => k pos cs caps
  | .grp i r, k, pos, cs, caps =>
    r.run (fun pos1 cs1 caps1 => k pos1 cs1 (caps1.set i (some (pos, pos1)))) pos cs caps

/-- Number of capture groups (Go `NumSubexp`). -/
def Re.numSubexp : Re → Nat
  | .eps => 0
  | .chr _ => 0
  | .cls _ => 0
  | .seq a b => a.numSubexp + b.numSubexp
  | .plus _ => 0
  | .opt r => r.numSubexp
  | .grp _ r => r.numSubexp + 1

/-- A literal string. -/
def Re.str : Str → Re
  | [] => .eps
  | c :: cs => .seq (.chr c) (Re.str cs)

/-- Counted repetition `r{n}`, expanded as the Go parser does. -/
def Re.times : Nat → Re → Re
  | 0, _ => .eps
  | n + 1, r => .seq r (Re.times n r)

/-- An anchored attempt at offset `pos`: the end offset and the slots, slot 0
being the whole match. -/
def Re.matchAt (re : Re) (pos : Nat) (cs : Str) : Option (Nat × Caps) :=
  re.run (fun e _ caps => some (e, caps.set 0 (some (pos, e)))) pos cs
    (List.replicate (re.numSubexp + 1) none)

/-- Go `s[a:b]` on runes. -/
def slice (s : Str) (a b : Nat) : Str := (s.drop a).take (b - a)

/-- The strings of one match, as `FindAllStringSubmatch` delivers them: a
group that took no part gives the empty string. -/
def submatch (s : Str) (caps : Caps) : List Str :=
  caps.map fun
    | some (a, b) => slice s a b
    | none => []

/-- The loop of Go `allMatches`, one rune per step.  `skip` runes are still
covered by the previous match; `prevEnd` is where the previous match ended,
so that an empty match right after it is ignored. -/
def allMatches (re : Re) (s : Str) : Nat → Option Nat → Nat → Str → List (List Str)
  | _, prevEnd, pos, [] =>
    match re.matchAt pos [] with
    | some (_, caps) => if prevEnd = some pos then [] else [submatch s caps]
    | none => []
  | skip + 1, prevEnd, pos, _ :: cs => allMatches re s skip prevEnd (pos + 1) cs
  | 0, prevEnd, pos, c :: cs =>
    match re.matchAt pos (c :: cs) with
    | none => allMatches re s 0 prevEnd (pos + 1) cs
    | some (e, caps) =>
      if e = pos then
        if prevEnd = some pos then allMatches re s 0 (some e) (pos + 1) cs
        else submatch s caps :: allMatches re s 0 (some e) (pos + 1) cs
      else submatch s caps :: allMatches re s (e - pos - 1) (some e) (pos + 1) cs

/-- Go `(*Regexp).FindAllStringSubmatch(s, -1)`. -/
def FindAllStringSubmatch (re : Re) (s : Str) : List (List Str) :=
  allMatches re s 0 none 0 s

/-! ## `parse.go`: the spot pattern -/

/-- Class `.`: any rune but newline. -/
def dot (c : Char) : Bool := c != '\n'

/-- Class `\s`, that is `[\t\n\f\r ]`. -/
def ws (c : Char) : Bool :=
  c == '\t' || c == '\n' || c == Char.ofNat 12 || c == '\r' || c == ' '

/-- Class `[0-9]`. -/
def digit (c : Char) : Bool := '0' ≤ c && c ≤ '9'

/-- Class `[a-z]`. -/
def lowerAZ (c : Char) : Bool := 'a' ≤ c && c ≤ 'z'

/-- Class `[0-9a-z/]`. -/
def callChar (c : Char) : Bool := digit c || lowerAZ c || c == '/'

/-- The pattern
`dx de (.+):\s+([0-9]+\.[0-9]+)\s+([0-9a-z/]+)\s+(.+)\s+([0-9]{4})z( [a-z]{2}[0-9]{2})?`. -/
def dxMessageExpression : Re :=
  .seq (Re.str "dx de ".toList) <|
  .seq (.grp 1 (.plus dot)) <|
  .seq (.chr ':') <|
  .seq (.plus ws) <|
  .seq (.grp 2 (.seq (.plus digit) (.seq (.chr '.') (.plus digit)))) <|
  .seq (.plus ws) <|
  .seq (.grp 3 (.plus callChar)) <|
  .seq (.plus ws) <|
  .seq (.grp 4 (.plus dot)) <|
  .seq (.plus ws) <|
  .seq (.grp 5 (Re.times 4 (.cls digit))) <|
  .seq (.chr 'z') <|
  .opt (.grp 6 (.seq (.chr ' ') (.seq (Re.times 2 (.cls lowerAZ)) (Re.times 2 (.cls digit)))))


/-! ## IEEE 754 binary64, as far as the parser needs it -/

/-- A `float64` of the kind the parser can produce: a finite value that is not
negative (given exactly, as a rational number), `+Inf`, or `NaN`. -/
inductive F64 where
  | fin (q : ℚ) : F64
  | inf : F64
  | nan : F64
  deriving DecidableEq

/-- Whether `2 ^ l ≤ num / den`, for an integer `l`. -/
def pow2Le (l : Int) (num den : Nat) : Bool :=
  match l with
  | Int.ofNat k => decide (den * 2 ^ k ≤ num)
  | Int.negSucc k => decide (den ≤ num * 2 ^ (k + 1))

/-- Binary logarithm by halving, at most `fuel` times. -/
def log2Fuel : Nat → Nat → Nat
  | 0, _ => 0
  | fuel + 1, n => if 2 ≤ n then log2Fuel fuel (n / 2) + 1 else 0

/-- The integer `⌊log₂ n⌋` for `n > 0`. -/
def log2 (n : Nat) : Nat := log2Fuel n n

/-- The integer `⌊log₂ (num / den)⌋`, for `num, den > 0`. -/
def floorLog2 (num den : Nat) : Int :=
  let l : Int := (log2 num : Int) - (log2 den : Int)
  if pow2Le l num den then l else l - 1

/-- The exponent of the unit in the last place of the binary64 nearest to
`num / den`: 52 below the leading bit, and `-1074` in the subnormal range. -/
def ulpExp (num den : Nat) : Int := max (floorLog2 num den - 52) (-1074)

/-- The quotient `n / d` rounded to the nearest integer, ties to even. -/
def roundHalfEven (n d : Nat) : Nat :=
  let q := n / d
  let r := n % d
  if d < 2 * r then q + 1
  else if 2 * r = d ∧ q % 2 = 1 then q + 1
  else q

/-- The binary64 nearest to the rational `num / den ≥ 0` (round to nearest,
ties to even); `+Inf` from `2 ^ 1024` on. -/
def roundF64 (num den : Nat) : F64 :=
  if num = 0 then .fin 0
  else
    match ulpExp num den with
    | Int.ofNat k =>
      let m := roundHalfEven num (den * 2 ^ k)
      if 2 ^ 1024 ≤ m * 2 ^ k then .inf else .fin (mkRat ((m * 2 ^ k : Nat) : Int) 1)
    | Int.negSucc k =>
      .fin (mkRat ((roundHalfEven (num * 2 ^ (k + 1)) den : Nat) : Int) (2 ^ (k + 1)))

/-- Go `a * b` on `float64`, for operands that are not negative: the binary64
nearest to the exact product. -/
def F64.mul : F64 → F64 → F64
  | .fin a, .fin b => roundF64 (a.num.toNat * b.num.toNat) (a.den * b.den)
  | .fin a, .inf => if a = 0 then .nan else .inf
  | .inf, .fin b => if b = 0 then .nan else .inf
  | .inf, .inf => .inf
  | _, _ => .nan

/-! ## package `strconv` -/

deriving instance DecidableEq for Except

/-- The value of a decimal digit. -/
def digitVal (c : Char) : Nat := c.toNat - 48

/-- The number written by a string of decimal digits. -/
def digitsVal (s : Str) : Nat := s.foldl (fun n c => 10 * n + digitVal c) 0

/-- A plain decimal numeral `digits`, `digits.`, `.digits` or `digits.digits`:
the number written by all its digits, and how many of them follow the
point. -/
def readDecimal (s : Str) : Option (Nat × Nat) :=
  let ip := s.takeWhile digit
  match s.dropWhile digit with
  | [] => if ip = [] then none else some (digitsVal ip, 0)
  | c :: fp =>
    if c = '.' ∧ fp.all digit = true ∧ (ip ≠ [] ∨ fp ≠ []) then
      some (digitsVal (ip ++ fp), fp.length)
    else none

/-- Go `strconv.ParseFloat(s, 64)` on plain unsigned decimal numerals, the
only ones group 2 of the pattern can hold: the nearest binary64, or a range
error when that is `+Inf`.  Signs, exponents, hexadecimal numerals,
underscores and the spellings of infinity and NaN, which the Go function also
reads, are outside this embedding and are rejected here. -/
def ParseFloat (s : Str) : Except String F64 :=
  match readDecimal s with
  | none => .error "invalid syntax"
  | some (n, k) =>
    match roundF64 n (10 ^ k) with
    | .fin q => .ok (.fin q)
    | _ => .error "value out of range"

/-- Go `strconv.Atoi` on strings of fewer than 19 bytes (its fast path): an
optional sign and decimal digits. -/
def Atoi (s : Str) : Except String Int :=
  let body := if s.head? = some '-' ∨ s.head? = some '+' then s.tail else s
  if body = [] ∨ body.all digit = false then .error "invalid syntax"
  else if s.head? = some '-' then .ok (-(digitsVal body : Int))
  else .ok (digitsVal body : Int)

/-! ## package `time`

An instant is the number of nanoseconds since the zero time
(1 January of year 1, 00:00 UTC); the bounds of the Go representation are not
modelled. -/

/-- An instant: nanoseconds since the zero time. -/
abbrev Time := Int

/-- Go `time.Minute` as a `Duration` in nanoseconds. -/
def Minute : Int := 60 * 1000000000

/-- Go `time.Hour`. -/
def Hour : Int := 60 * Minute

/-- Go `t.Truncate(d)` for `d > 0`: `t` rounded down to a multiple of `d`
since the zero time. -/
def Truncate (t : Time) (d : Int) : Time := t - t % d

/-- The number of the UTC day an instant falls on, counted from the zero
time; the calendar date is a function of it. -/
def utcDay (t : Time) : Int := t / (24 * Hour)

/-- The hour within the UTC day (Go `t.UTC().Hour()`). -/
def utcHour (t : Time) : Int := t % (24 * Hour) / Hour

/-- The minute within the hour (Go `t.Minute()`). -/
def utcMinute (t : Time) : Int := t % Hour / Minute

/-- The nanoseconds within the minute: seconds and their fraction. -/
def utcNanosOfMinute (t : Time) : Int := t % Minute

/-! ## The validation libraries -/

/-- What the program takes from outside the repository: the parsers of
`github.com/ftl/hamradio/callsign` and `.../locator` with their result types,
and the Unicode lower-case mapping beyond ASCII. -/
structure Lib where
  /-- Type `callsign.Callsign`. -/
  Callsign : Type
  /-- Type `locator.Locator`. -/
  Locator : Type
  /-- Function `callsign.Parse`; `none` is its error. -/
  callsignParse : Str → Option Callsign
  /-- Function `locator.Parse`; `none` is its error. -/
  locatorParse : Str → Option Locator
  /-- The zero value `locator.Locator{}`. -/
  zeroLocator : Locator
  /-- Go `unicode.To(unicode.LowerCase, r)` for runes beyond ASCII. -/
  lowerTable : Char → Char

/-- Go `unicode.ToLower`. -/
def unicodeToLower (L : Lib) (r : Char) : Char :=
  if r.toNat ≤ 127 then
    if 'A' ≤ r ∧ r ≤ 'Z' then Char.ofNat (r.toNat + 32) else r
  else L.lowerTable r

/-- Go `strings.ToLower`. -/
def ToLower (L : Lib) (s : Str) : Str := s.map (unicodeToLower L)

/-! ## `parse.go` -/

/-- Type `DXMessage`. -/
structure DXMessage (L : Lib) where
  Call : L.Callsign
  Frequency : F64
  Time : Time
  Locator : L.Locator
  Text : Str
  Spotter : Str

/-- Function `parseDXFrequency`. -/
def parseDXFrequency (s : Str) : Except String F64 :=
  match ParseFloat s with
  | .error err => .error err
  | .ok kHz => .ok (kHz.mul (.fin 1000))

/-- Function `parseDXTimestamp`.  The Go code measures and cuts the string in
bytes; on runes the outcome is the same, since a string with a rune beyond
ASCII is rejected either way. -/
def parseDXTimestamp (now : Time) (timestamp : Str) : Except String Time :=
  if timestamp.length ≠ 4 then .error "invalid timestamp"
  else
    match Atoi (timestamp.take 2) with
    | .error _ => .error "invalid timestamp"
    | .ok hours =>
      match Atoi (timestamp.drop 2) with
      | .error _ => .error "invalid timestamp"
      | .ok minutes =>
        let today := Truncate now (Hour * 24)
        .ok (today + hours * Hour + minutes * Minute)

/-- Function `parseDXLocator`. -/
def parseDXLocator (L : Lib) (s : Str) : Option L.Locator :=
  L.locatorParse (TrimSpace s)

/-- The loop body of `ExtractDXMessages` over the remaining matches; `i` is
the index of the iteration and `clock i` what `time.Now()` returns in it. -/
def extractLoop (L : Lib) (clock : Nat → Time) :
    Nat → List (List Str) → List (DXMessage L) → Except String (List (DXMessage L))
  | _, [], result => .ok result
  | i, m :: ms, result =>
    if m.length ≠ 7 then .error "invalid match count"
    else
      match L.callsignParse (m.getD 3 []) with
      | none => extractLoop L clock (i + 1) ms result
      | some call =>
        match parseDXFrequency (m.getD 2 []) with
        | .error _ => extractLoop L clock (i + 1) ms result
        | .ok frequency =>
          match parseDXTimestamp (clock i) (m.getD 5 []) with
          | .error _ => extractLoop L clock (i + 1) ms result
          | .ok timestamp =>
            let loc := match parseDXLocator L (m.getD 6 []) with
              | some l => l
              | none => L.zeroLocator
            extractLoop L clock (i + 1) ms
              (result ++ [{ Call := call, Frequency := frequency, Time := timestamp,
                            Locator := loc, Text := TrimSpace (m.getD 4 []),
                            Spotter := m.getD 1 [] }])

/-- Function `ExtractDXMessages`; `clock i` is the reading of `time.Now()` in
the `i`-th iteration of its loop. -/
def ExtractDXMessages (L : Lib) (clock : Nat → Time) (s : Str) :
    Except String (List (DXMessage L)) :=
  extractLoop L clock 0 (FindAllStringSubmatch dxMessageExpression s) []

/-! ## `clusterix.go`: the observers -/

/-- An observer handle of the registry: its identity and which of the four
listener interfaces its dynamic type implements. -/
structure Listener where
  handle : Nat
  isConnectionListener : Bool
  isDXListener : Bool
  isWWVListener : Bool
  isTextListener : Bool
  deriving DecidableEq

/-- A method invoked on an observer. -/
inductive Notification (L : Lib) where
  | Connected (connected : Bool) : Notification L
  | DX (message : DXMessage L) : Notification L
  | WWV : Notification L
  | Text : Notification L

/-- One invocation: the observer and the method with its argument. -/
structure Invocation (L : Lib) where
  listener : Listener
  call : Notification L

/-- The part of type `Client` that the login automaton uses. -/
structure Client where
  username : Str
  password : Str
  loggedIn : Bool
  listeners : List Listener

/-- Method `emitDX`: the invocations it makes, in order. -/
def emitDX (L : Lib) (message : DXMessage L) : List Listener → List (Invocation L)
  | [] => []
  | listener :: rest =>
    if listener.isDXListener then ⟨listener, .DX message⟩ :: emitDX L message rest
    else emitDX L message rest

/-- The loop `for _, msg := range dxMessages { c.emitDX(msg) }`. -/
def emitAllDX (L : Lib) (listeners : List Listener) : List (DXMessage L) → List (Invocation L)
  | [] => []
  | msg :: rest => emitDX L msg listeners ++ emitAllDX L listeners rest

/-! ## `loop.go` -/

/-- Function `hasAnySuffix`. -/
def hasAnySuffix (s : Str) : List Str → Bool
  | [] => false
  | suffix :: suffixes => if HasSuffix s suffix then true else hasAnySuffix s suffixes

/-- What a call of `handleIncomingText` does: the string returned, the client
afterwards and the observer methods invoked. -/
structure Handled (L : Lib) where
  response : Str
  client : Client
  invoked : List (Invocation L)

/-- Method `handleIncomingText` (tracing left out). -/
def handleIncomingText (L : Lib) (clock : Nat → Time) (c : Client) (text : Str) : Handled L :=
  let text := ToLower L (TrimSpace text)
  if text = [] then ⟨[], c, []⟩
  else if !c.loggedIn && hasAnySuffix text ["callsign:".toList, "call:".toList, "login:".toList] then
    ⟨c.username ++ "\r\n".toList, c, []⟩
  else if !c.loggedIn && hasAnySuffix text ["password:".toList] then
    ⟨c.password ++ "\r\n".toList, c, []⟩
  else if !c.loggedIn && hasAnySuffix text
      ["z cwskimmer >".toList, "z dxspider >".toList, "z arc6>".toList, "ccc >".toList] then
    ⟨[], { c with loggedIn := true }, []⟩
  else
    match ExtractDXMessages L clock text with
    | .error _ => ⟨[], c, []⟩
    | .ok dxMessages => ⟨[], c, emitAllDX L c.listeners dxMessages⟩

/-! ## The words of the specification -/

/-- The user-name prompts of the login automaton. -/
def usernamePrompts : List Str := ["callsign:".toList, "call:".toList, "login:".toList]

/-- The password prompt. -/
def passwordPrompts : List Str := ["password:".toList]

/-- The ready banners that end the login. -/
def readyBanners : List Str :=
  ["z cwskimmer >".toList, "z dxspider >".toList, "z arc6>".toList, "ccc >".toList]

/-- The record that one structural match yields, if its callsign, frequency
and time fields are all accepted. -/
def spotRecord (L : Lib) (now : Time) (m : List Str) : Option (DXMessage L) :=
  match L.callsignParse (m.getD 3 []), parseDXFrequency (m.getD 2 []),
      parseDXTimestamp now (m.getD 5 []) with
  | some call, .ok frequency, .ok timestamp =>
    some { Call := call, Frequency := frequency, Time := timestamp,
           Locator := (parseDXLocator L (m.getD 6 [])).getD L.zeroLocator,
           Text := TrimSpace (m.getD 4 []), Spotter := m.getD 1 [] }
  | _, _, _ => none

/-- Whether a structural match has a callsign rejected by the callsign parser
or an unparseable frequency or time field. -/
def rejected (L : Lib) (now : Time) (m : List Str) : Bool :=
  (L.callsignParse (m.getD 3 [])).isNone ||
  !(parseDXFrequency (m.getD 2 [])).toBool ||
  !(parseDXTimestamp now (m.getD 5 [])).toBool

/-- A continuation that returns as many capture slots as it is given. -/
def KeepsLength (k : Cont) : Prop :=
  ∀ pos cs caps r, k pos cs caps = some r → r.2.length = caps.length

/-- A binary64 number that is finite and not negative: `M * 2 ^ E` with
`M < 2 ^ 53` and `-1074 ≤ E ≤ 971`. -/
def IsBinary64 (x : ℚ) : Prop :=
  ∃ (M : Nat) (E : Int), M < 2 ^ 53 ∧ -1074 ≤ E ∧ E ≤ 971 ∧ x = (M : ℚ) * (2 : ℚ) ^ E

/-- The decimal value written by the frequency field `ip.fp`. -/
def decimalValue (ip fp : Str) : ℚ := (digitsVal (ip ++ fp) : ℚ) / (10 : ℚ) ^ fp.length

/-! ## The spot pattern, stage by stage -/

/-- The pattern from the optional locator on. -/
def tailLocator : Re :=
  .opt (.grp 6 (.seq (.chr ' ') (.seq (Re.times 2 (.cls lowerAZ)) (Re.times 2 (.cls digit)))))

/-- The pattern from the letter `z` on. -/
def tailZ : Re := .seq (.chr 'z') tailLocator

/-- The pattern from the time group on. -/
def tailTime : Re := .seq (.grp 5 (Re.times 4 (.cls digit))) tailZ

/-- The pattern from the white space before the time on. -/
def tailWs4 : Re := .seq (.plus ws) tailTime

/-- The pattern from the comment group on. -/
def tailComment : Re := .seq (.grp 4 (.plus dot)) tailWs4

/-- The pattern from the white space before the comment on. -/
def tailWs3 : Re := .seq (.plus ws) tailComment

/-- The pattern from the callsign group on. -/
def tailCall : Re := .seq (.grp 3 (.plus callChar)) tailWs3

/-- The pattern from the white space before the callsign on. -/
def tailWs2 : Re := .seq (.plus ws) tailCall

/-- The pattern from the frequency group on. -/
def tailFreq : Re := .seq (.grp 2 (.seq (.plus digit) (.seq (.chr '.') (.plus digit)))) tailWs2

/-- The pattern from the white space before the frequency on. -/
def tailWs1 : Re := .seq (.plus ws) tailFreq

/-- The pattern from the colon on. -/
def tailColon : Re := .seq (.chr ':') tailWs1

/-- The pattern from the spotter group on. -/
def tailSpotter : Re := .seq (.grp 1 (.plus dot)) tailColon

/-- A non-empty run of characters of a class. -/
def IsRun (p : Char → Bool) (s : Str) : Prop := s ≠ [] ∧ ∀ c ∈ s, p c = true

/-- The string does not begin with a character of the class. -/
def NotHead (p : Char → Bool) (s : Str) : Prop := ∀ c ∈ s.head?, p c = false

/-- The text after the time of a spot: nothing, or a blank and a locator of
two letters and two digits. -/
def IsLocatorTail (s : Str) : Prop :=
  s = [] ∨ ∃ a b c d, lowerAZ a = true ∧ lowerAZ b = true ∧ digit c = true ∧ digit d = true ∧
    s = [' ', a, b, c, d]

/-- The spot line in the form in which the pattern reads it. -/
def spotLine (spotter w1 ip fp w2 call w3 g4 w4 hhmm locTail : Str) : Str :=
  "dx de ".toList ++ (spotter ++ ':' :: (w1 ++ (ip ++ '.' :: (fp ++ (w2 ++ (call ++ (w3 ++
    (g4 ++ (w4 ++ (hhmm ++ 'z' :: locTail))))))))))

/-- The capture slots of the match of a spot line, from the lengths of its
parts. -/
def spotCaps (ls lw1 lip lfp lw2 lcall lw3 lg4 lw4 lloc : Nat) : Caps :=
  let e1 := 6 + ls
  let p2 := e1 + 1 + lw1
  let e2 := p2 + lip + 1 + lfp
  let p3 := e2 + lw2
  let e3 := p3 + lcall
  let p4 := e3 + lw3
  let e4 := p4 + lg4
  let p5 := e4 + lw4
  [some (0, p5 + 5 + lloc), some (6, e1), some (p2, e2), some (p3, e3), some (p4, e4),
    some (p5, p5 + 4), if lloc = 0 then none else some (p5 + 5, p5 + 5 + lloc)]

/-- Whether a text begins with a match of the pattern from the white space
after the colon on, that is of
`\s+([0-9]+\.[0-9]+)\s+([0-9a-z/]+)\s+(.+)\s+([0-9]{4})z( [a-z]{2}[0-9]{2})?`. -/
def restMatches (s : Str) : Bool :=
  (tailWs1.run (fun e _ caps => some (e, caps)) 0 s (List.replicate 7 none)).isSome

/-- Whether no `:` of `comment` is followed, in `comment ++ rest`, by a text
that `restMatches` accepts. -/
def colonsBenign : Str → Str → Bool
  | [], _ => true
  | c :: t, rest => (c != ':' || !restMatches (t ++ rest)) && colonsBenign t rest

/-! ## A sample instance of the libraries, for evaluation -/

/-- A sample library: every non-empty string over `[0-9a-z/]` is a callsign,
every string of two letters and two digits a locator, both kept as the
string; no lower-casing beyond ASCII. -/
def sampleLib : Lib where
  Callsign := Str
  Locator := Str
  callsignParse := fun s => if s ≠ [] ∧ s.all callChar = true then some s else none
  locatorParse := fun s =>
    if s.length = 4 ∧ (s.take 2).all lowerAZ = true ∧ (s.drop 2).all digit = true then some s
    else none
  zeroLocator := []
  lowerTable := id


/-- A record of the sample library with its fields as plain values, in the
order call, frequency, time, locator, text, spotter. -/
structure Fields where
  call : Str
  frequency : F64
  time : Time
  locator : Str
  text : Str
  spotter : Str
  deriving DecidableEq

/-- The fields of the records of a result; none for an error. -/
def recordFields (r : Except String (List (DXMessage sampleLib))) : List Fields :=
  match r with
  | .ok ms => ms.map (fun m => ⟨m.Call, m.Frequency, m.Time, m.Locator, m.Text, m.Spotter⟩)
  | .error _ => []

/-! ## `clusterix.go`: the registry -/

/-- Method `Notify`. -/
def Notify (c : Client) (listener : Listener) : Client :=
  { c with listeners := c.listeners ++ [listener] }

/-- Method `emitConnected`: the invocations it makes, in order. -/
def emitConnected (L : Lib) (connected : Bool) : List Listener → List (Invocation L)
  | [] => []
  | l :: rest =>
    if l.isConnectionListener then ⟨l, .Connected connected⟩ :: emitConnected L connected rest
    else emitConnected L connected rest

/-- Method `emitWWV`. -/
def emitWWV (L : Lib) : List Listener → List (Invocation L)
  | [] => []
  | listener :: rest =>
    if listener.isWWVListener then ⟨listener, .WWV⟩ :: emitWWV L rest
    else emitWWV L rest

/-- Method `emitText`. -/
def emitText (L : Lib) : List Listener → List (Invocation L)
  | [] => []
  | listener :: rest =>
    if listener.isTextListener then ⟨listener, .Text⟩ :: emitText L rest
    else emitText L rest

/-- The numbers of the capture groups of an expression. -/
def Re.groups : Re → List Nat
  | .eps => []
  | .chr _ => []
  | .cls _ => []
  | .seq a b => a.groups ++ b.groups
  | .plus _ => []
  | .opt r => r.groups
  | .grp i r => i :: r.groups

/-- A continuation that leaves capture slot `i` as it is given. -/
def KeepsSlot (i : Nat) (k : Cont) : Prop :=
  ∀ pos cs caps r, k pos cs caps = some r → r.2.get? i = caps.get? i

/-! ## `clusterix.go`: the life cycle

Channels carry no values here: a receive is ready exactly when the channel is
closed.  A `close` of a closed channel panics; a panic is the error of
`Except`. -/

/-- The state of a `Client`: the fields of the login automaton and its two
channels.  `closed` tells whether channel `closed` is closed; `chans` holds the
channels made for `disconnectChan` so far, `true` for a closed one, and
`disconnectChan` is `nil` or one of them. -/
structure Session where
  client : Client
  closed : Bool
  chans : List Bool
  disconnectChan : Option Nat

/-- Function `newClient`. -/
def newClient (username password : Str) : Session where
  client := { username := username, password := password, loggedIn := false, listeners := [] }
  closed := false
  chans := []
  disconnectChan := none

/-- Whether a channel made for `disconnectChan` is closed. -/
def Session.isClosed (s : Session) (ch : Nat) : Bool := s.chans.getD ch false

/-- Go `close(c.closed)`. -/
def Session.closeClosed (s : Session) : Except String Session :=
  if s.closed then .error "close of closed channel" else .ok { s with closed := true }

/-- Go `close(ch)` for a channel made for `disconnectChan`. -/
def Session.closeChan (s : Session) (ch : Nat) : Except String Session :=
  if s.isClosed ch then .error "close of closed channel"
  else .ok { s with chans := s.chans.set ch true }

/-- Method `Connected`. -/
def Connected (s : Session) : Bool :=
  match s.disconnectChan with
  | none => false
  | some ch => if s.isClosed ch then false else true

/-- Method `Disconnect`. -/
def Disconnect (s : Session) : Except String Session :=
  match (if s.closed then .ok s else s.closeClosed) with
  | .error e => .error e
  | .ok s1 =>
    match s1.disconnectChan with
    | none => .ok s1
    | some ch => if s1.isClosed ch then .ok s1 else s1.closeChan ch

/-- A goroutine started by `WhenDisconnected`: it has not yet run, or it waits
on the channel it found in `disconnectChan`, or it has called `f` and ended. -/
inductive Waiter where
  | fresh : Waiter
  | blocked (ch : Option Nat) : Waiter
  | done : Waiter
  deriving DecidableEq

/-- What a call of `WhenDisconnected(f)` does before it returns: how often it
calls `f` itself and the goroutine it starts, if any. -/
structure Registered where
  calls : Nat
  waiter : Option Waiter
  deriving DecidableEq

/-- Method `WhenDisconnected`. -/
def WhenDisconnected (s : Session) : Registered :=
  match s.disconnectChan with
  | none => ⟨1, none⟩
  | some _ => ⟨0, some .fresh⟩

/-- One step of the goroutine `<-c.disconnectChan; f()`: the goroutine
afterwards and how often the step calls `f`; `none` when it cannot move.  A
receive from a nil channel blocks for ever. -/
def Waiter.step (s : Session) : Waiter → Option (Waiter × Nat)
  | .fresh => some (.blocked s.disconnectChan, 0)
  | .blocked none => none
  | .blocked (some ch) => if s.isClosed ch then some (.done, 1) else none
  | .done => none

/-- What a call of `connect` does: the client afterwards, whether it returns
an error, whether it dials, the observer methods it invokes, and whether it
starts `readWriteLoop` and the goroutine of `WhenDisconnected`. -/
structure Connecting (L : Lib) where
  session : Session
  failed : Bool
  dialled : Bool
  invoked : List (Invocation L)
  started : Bool

/-- Method `connect`; `dial` tells whether `net.Dial` succeeds. -/
def connect (L : Lib) (s : Session) (dial : Bool) : Connecting L :=
  if Connected s then ⟨s, false, false, [], false⟩
  else if !dial then ⟨s, true, true, [], false⟩
  else
    let s1 : Session :=
      { s with chans := s.chans ++ [false], disconnectChan := some s.chans.length }
    ⟨s1, false, true, emitConnected L true s1.client.listeners, true⟩

/-- The channel in `disconnectChan`, if any, is one of the channels made. -/
def Session.WF (s : Session) : Prop := ∀ ch, s.disconnectChan = some ch → ch < s.chans.length

/-- Modelled from the spec: the state that `disconnect()` is to leave, with the
permanent-close signal fired and the per-connection signal fired if there is
one; the rest of the state as before. -/
def Session.fired (s : Session) : Session :=
  { s with
    closed := true
    chans := match s.disconnectChan with
      | none => s.chans
      | some ch => s.chans.set ch true }

/-! ### Goroutines -/

/-- Where a goroutine `readWriteLoop` stands: before its `select`, inside
`reader.read()`, or returned. -/
inductive LoopPc where
  | atSelect : LoopPc
  | reading : LoopPc
  | exited : LoopPc
  deriving DecidableEq

/-- Where the goroutine of `KeepOpen` stands: before `client.connect()`, in the
`select` on `disconnected` and `closed`, in the `select` on the retry timer and
`closed`, or returned. -/
inductive SupPc where
  | atConnect : SupPc
  | waitDisconnected : SupPc
  | waitRetry : SupPc
  | exited : SupPc
  deriving DecidableEq

/-- A client with its goroutines: the loops started so far, the goroutine of
`KeepOpen` if the client was made by it, and the number of calls of `net.Dial`
so far.  The calls of observers are left out. -/
structure System where
  session : Session
  loops : List LoopPc
  sup : Option SupPc
  dials : Nat

/-- The steps that can be interleaved: a call of `Disconnect()` by the user;
loop `i` evaluating its `select`; `reader.read()` returning in loop `i`, with a
text or (`none`) with an error; the goroutine of `KeepOpen` calling `connect`,
`dial` telling whether the dial succeeds; that goroutine receiving from
`disconnected`, receiving from `closed`, or receiving from the retry timer. -/
inductive Action where
  | disconnect : Action
  | loopSelect (i : Nat) : Action
  | loopRead (i : Nat) (text : Option Str) : Action
  | supConnect (dial : Bool) : Action
  | supDisconnected : Action
  | supClosed : Action
  | supTimer : Action

/-- One step of the system; `none` when the step is not enabled, and the error
of `Except` when it panics.  The callback that `KeepOpen` registers with
`WhenDisconnected` is folded into the step `supDisconnected`, which is enabled
once the channel in `disconnectChan` is closed. -/
def System.step (L : Lib) (clock : Nat → Time) (sys : System) :
    Action → Option (Except String System)
  | .disconnect =>
    match Disconnect sys.session with
    | .error e => some (.error e)
    | .ok s => some (.ok { sys with session := s })
  | .loopSelect i =>
    match sys.loops.get? i with
    | some .atSelect =>
      match sys.session.disconnectChan with
      | some ch =>
        if sys.session.isClosed ch then some (.ok { sys with loops := sys.loops.set i .exited })
        else some (.ok { sys with loops := sys.loops.set i .reading })
      | none => some (.ok { sys with loops := sys.loops.set i .reading })
    | _ => none
  | .loopRead i text =>
    match sys.loops.get? i with
    | some .reading =>
      match text with
      | none =>
        match sys.session.disconnectChan with
        | none => some (.error "close of nil channel")
        | some ch =>
          match sys.session.closeChan ch with
          | .error e => some (.error e)
          | .ok s => some (.ok { sys with session := s, loops := sys.loops.set i .exited })
      | some t =>
        some (.ok { sys with
          session := { sys.session with
            client := (handleIncomingText L clock sys.session.client t).client }
          loops := sys.loops.set i .atSelect })
    | _ => none
  | .supConnect dial =>
    match sys.sup with
    | some .atConnect =>
      let c := connect L sys.session dial
      some (.ok
        { session := c.session
          loops := if c.started then sys.loops ++ [.atSelect] else sys.loops
          sup := some (if c.failed then .waitRetry else .waitDisconnected)
          dials := if c.dialled then sys.dials + 1 else sys.dials })
    | _ => none
  | .supDisconnected =>
    match sys.sup with
    | some .waitDisconnected =>
      match sys.session.disconnectChan with
      | some ch =>
        if sys.session.isClosed ch then some (.ok { sys with sup := some .waitRetry }) else none
      | none => none
    | _ => none
  | .supClosed =>
    match sys.sup with
    | some .waitDisconnected =>
      if sys.session.closed then some (.ok { sys with sup := some .exited }) else none
    | some .waitRetry =>
      if sys.session.closed then some (.ok { sys with sup := some .exited }) else none
    | _ => none
  | .supTimer =>
    match sys.sup with
    | some .waitRetry => some (.ok { sys with sup := some .atConnect })
    | _ => none

/-- An execution: the steps one after the other; it ends with the first
panic. -/
def System.run (L : Lib) (clock : Nat → Time) : System → List Action →
    Option (Except String System)
  | sys, [] => some (.ok sys)
  | sys, a :: rest =>
    match sys.step L clock a with
    | none => none
    | some (.error e) => some (.error e)
    | some (.ok sys1) => System.run L clock sys1 rest

/-- Function `KeepOpen` at its return: a new client and its goroutine about to
call `connect`. -/
def KeepOpen (username password : Str) : System :=
  { session := newClient username password, loops := [], sup := some .atConnect, dials := 0 }

/-- Function `Open` with a dial that succeeds: a new client, connected, and its
loop. -/
def Open (L : Lib) (username password : Str) : System :=
  { session := (connect L (newClient username password) true).session
    loops := [.atSelect], sup := none, dials := 1 }

/-- What is observed of a run: whether it panicked, and if not whether
`closed` is closed, what `Connected()` returns, and the number of dials. -/
def observe (r : Option (Except String System)) : Option (Except String (Bool × Bool × Nat)) :=
  match r with
  | none => none
  | some (.error e) => some (.error e)
  | some (.ok sys) => some (.ok (sys.session.closed, Connected sys.session, sys.dials))

/-! ## `loop.go`: the reader -/

/-- A string as the bytes of the wire. -/
abbrev Bytes := List UInt8

/-- The error of a `conn.Read`, as far as `read` tells errors apart. -/
inductive ReadError where
  | deadlineExceeded : ReadError
  | eof : ReadError
  | other (msg : String) : ReadError
  deriving DecidableEq

/-- What one call of `conn.Read` returns: the bytes put into the buffer and
the error, if any. -/
structure ReadOutcome where
  data : Bytes
  err : Option ReadError
  deriving DecidableEq

/-- What `read` returns: the string and the error, if any. -/
structure ReadResult where
  text : Bytes
  err : Option ReadError
  deriving DecidableEq

/-- The loop of method `connReader.read` with `result` as accumulated so far,
over the outcomes of the coming calls of `conn.Read`.  It gives what `read`
returns and the outcomes left for later calls; `none` when the outcomes given
end before `read` returns. -/
def readLoop : List ReadOutcome → Bytes → Option (ReadResult × List ReadOutcome)
  | [], _ => none
  | o :: rest, result =>
    match o.err with
    | some .deadlineExceeded => some (⟨result, none⟩, rest)
    | some err => some (⟨[], some err⟩, rest)
    | none => readLoop rest (result ++ o.data)

/-- Method `connReader.read`. -/
def connReader_read (outcomes : List ReadOutcome) : Option (ReadResult × List ReadOutcome) :=
  readLoop outcomes []

/-! ### A callback of `WhenDisconnected` -/

/-- A client with its goroutines and one callback `f`: whether
`WhenDisconnected(f)` has been called, the goroutine that the call started, if
any, and how often `f` has been called so far. -/
structure Watch where
  sys : System
  registered : Bool
  waiter : Option Waiter
  calls : Nat

/-- The steps of a client with a callback: a step of the client or of its
goroutines, the call `WhenDisconnected(f)`, and a step of the goroutine that
this call started. -/
inductive WatchAction where
  | env (a : Action) : WatchAction
  | register : WatchAction
  | wake : WatchAction

/-- One step; `none` when it is not enabled.  The callback is registered
once. -/
def Watch.step (L : Lib) (clock : Nat → Time) (w : Watch) :
    WatchAction → Option (Except String Watch)
  | .env a =>
    match w.sys.step L clock a with
    | none => none
    | some (.error e) => some (.error e)
    | some (.ok sys1) => some (.ok { w with sys := sys1 })
  | .register =>
    if w.registered then none
    else
      let r := WhenDisconnected w.sys.session
      some (.ok { w with registered := true, waiter := r.waiter, calls := w.calls + r.calls })
  | .wake =>
    match w.waiter with
    | none => none
    | some g =>
      match g.step w.sys.session with
      | none => none
      | some (g1, n) => some (.ok { w with waiter := some g1, calls := w.calls + n })

/-- An execution with a callback; it ends with the first panic. -/
def Watch.run (L : Lib) (clock : Nat → Time) : Watch → List WatchAction →
    Option (Except String Watch)
  | w, [] => some (.ok w)
  | w, a :: rest =>
    match w.step L clock a with
    | none => none
    | some (.error e) => some (.error e)
    | some (.ok w1) => Watch.run L clock w1 rest

/-- A client before `WhenDisconnected(f)` is called. -/
def Watch.init (sys : System) : Watch := ⟨sys, false, none, 0⟩

/-- What is observed of a client with a callback: how often `f` was called,
the goroutine of the call, and what `Connected()` returns. -/
structure Observed where
  calls : Nat
  waiter : Option Waiter
  connected : Bool
  deriving DecidableEq

/-- What is observed of a run with a callback. -/
def observeCalls (r : Option (Except String Watch)) : Option (Except String Observed) :=
  match r with
  | none => none
  | some (.error e) => some (.error e)
  | some (.ok w) => some (.ok ⟨w.calls, w.waiter, Connected w.sys.session⟩)

/-- The channel in `disconnectChan`, if any, is one of the channels made, and
every other channel made is closed. -/
def Session.Sound (s : Session) : Prop :=
  s.WF ∧ ∀ i, i < s.chans.length → s.disconnectChan ≠ some i → s.isClosed i = true

/-- What holds of a client with a callback after `WhenDisconnected(f)` was
called while `disconnectChan` held `cur`. -/
def Watch.Inv (cur : Option Nat) (w : Watch) : Prop :=
  w.sys.session.Sound ∧ w.registered = true ∧
  match cur with
  | none => w.waiter = none ∧ w.calls = 1
  | some ch => ch < w.sys.session.chans.length ∧
    match w.waiter with
    | none => False
    | some .fresh => w.calls = 0
    | some (.blocked none) => w.calls = 0
    | some (.blocked (some c)) => w.calls = 0 ∧ (c = ch ∨ w.sys.session.isClosed ch = true)
    | some .done => w.calls = 1 ∧ w.sys.session.isClosed ch = true

/-! ## The login automaton -/

theorem hasSuffix_iff (s suffix : Str) : HasSuffix s suffix = true ↔ suffix <:+ s := by
  simp [HasSuffix]

theorem hasAnySuffix_iff (s : Str) (l : List Str) :
    hasAnySuffix s l = true ↔ ∃ x ∈ l, x <:+ s := by
  induction l with
  | nil => simp [hasAnySuffix]
  | cons a l ih =>
    by_cases h : HasSuffix s a = true
    · simp [hasAnySuffix, h, (hasSuffix_iff s a).1 h]
    · have h2 : ¬ a <:+ s := fun hh => h ((hasSuffix_iff s a).2 hh)
      simp [hasAnySuffix, h, ih, h2]

theorem suffix_excl (t a b : Str) (ha : a <:+ t) (hb : b <:+ t)
    (hab : ¬ a <:+ b) (hba : ¬ b <:+ a) : False := by
  rcases List.suffix_or_suffix_of_suffix ha hb with h | h
  · exact hab h
  · exact hba h

theorem not_both (t : Str) (l1 l2 : List Str)
    (hex : ∀ a ∈ l1, ∀ b ∈ l2, ¬ a <:+ b ∧ ¬ b <:+ a)
    (h1 : hasAnySuffix t l1 = true) : hasAnySuffix t l2 = false := by
  by_contra h2
  rw [Bool.not_eq_false] at h2
  obtain ⟨a, ha, hat⟩ := (hasAnySuffix_iff t l1).1 h1
  obtain ⟨b, hb, hbt⟩ := (hasAnySuffix_iff t l2).1 h2
  exact suffix_excl t a b hat hbt (hex a ha b hb).1 (hex a ha b hb).2

theorem excl_user_pass : ∀ a ∈ usernamePrompts, ∀ b ∈ passwordPrompts, ¬ a <:+ b ∧ ¬ b <:+ a := by
  decide
theorem excl_user_banner : ∀ a ∈ usernamePrompts, ∀ b ∈ readyBanners, ¬ a <:+ b ∧ ¬ b <:+ a := by
  decide
theorem excl_pass_banner : ∀ a ∈ passwordPrompts, ∀ b ∈ readyBanners, ¬ a <:+ b ∧ ¬ b <:+ a := by
  decide

theorem hasAnySuffix_nil (l : List Str) (h : ∀ x ∈ l, x ≠ []) : hasAnySuffix [] l = false := by
  by_contra h2
  rw [Bool.not_eq_false] at h2
  obtain ⟨a, ha, hat⟩ := (hasAnySuffix_iff [] l).1 h2
  exact h a ha (List.suffix_nil.1 hat)


theorem handle_eq (L : Lib) (clock : Nat → Time) (c : Client) (text : Str) :
    handleIncomingText L clock c text =
      if ToLower L (TrimSpace text) = [] then ⟨[], c, []⟩
      else if (!c.loggedIn && hasAnySuffix (ToLower L (TrimSpace text)) usernamePrompts) = true then
        ⟨c.username ++ "\r\n".toList, c, []⟩
      else if (!c.loggedIn && hasAnySuffix (ToLower L (TrimSpace text)) passwordPrompts) = true then
        ⟨c.password ++ "\r\n".toList, c, []⟩
      else if (!c.loggedIn && hasAnySuffix (ToLower L (TrimSpace text)) readyBanners) = true then
        ⟨[], { c with loggedIn := true }, []⟩
      else
        match ExtractDXMessages L clock (ToLower L (TrimSpace text)) with
        | .error _ => ⟨[], c, []⟩
        | .ok dxMessages => ⟨[], c, emitAllDX L c.listeners dxMessages⟩ := rfl

/-- Claim C1: while not logged in, a text whose trimmed, lower-cased form ends
with "callsign:", "call:" or "login:" is answered with the user name and a
CR LF; the client is unchanged and no observer is invoked. -/
theorem handleIncomingText_username_prompt (L : Lib) (clock : Nat → Time) (c : Client)
    (text : Str) (hlog : c.loggedIn = false)
    (h : "callsign:".toList <:+ ToLower L (TrimSpace text) ∨
         "call:".toList <:+ ToLower L (TrimSpace text) ∨
         "login:".toList <:+ ToLower L (TrimSpace text)) :
    handleIncomingText L clock c text = ⟨c.username ++ "\r\n".toList, c, []⟩ ∧
    (handleIncomingText L clock c text).client.loggedIn = false := by
  have hs : hasAnySuffix (ToLower L (TrimSpace text)) usernamePrompts = true := by
    rw [hasAnySuffix_iff]
    rcases h with h | h | h
    · exact ⟨_, by simp [usernamePrompts], h⟩
    · exact ⟨_, by simp [usernamePrompts], h⟩
    · exact ⟨_, by simp [usernamePrompts], h⟩
  have hne : ToLower L (TrimSpace text) ≠ [] := by
    intro h0
    rw [h0, hasAnySuffix_nil _ (by decide)] at hs
    exact Bool.noConfusion hs
  have key : handleIncomingText L clock c text = ⟨c.username ++ "\r\n".toList, c, []⟩ := by
    rw [handle_eq, if_neg hne, hlog, hs]
    rfl
  exact ⟨key, by rw [key]; exact hlog⟩

/-- Witness of C1: the prompt "Please enter your Call: " with user name
"dl1abc". -/
theorem handleIncomingText_username_prompt_witness :
    handleIncomingText sampleLib (fun _ => 0)
        ⟨"dl1abc".toList, "secret".toList, false, []⟩ "Please enter your Call: \r\n".toList =
      ⟨"dl1abc\r\n".toList, ⟨"dl1abc".toList, "secret".toList, false, []⟩, []⟩ ∧
    (handleIncomingText sampleLib (fun _ => 0)
        ⟨"dl1abc".toList, "secret".toList, false, []⟩
        "Please enter your Call: \r\n".toList).client.loggedIn = false :=
  handleIncomingText_username_prompt sampleLib (fun _ => 0)
    ⟨"dl1abc".toList, "secret".toList, false, []⟩ "Please enter your Call: \r\n".toList rfl
    (by decide)

/-- Claim C2: while not logged in, a text whose trimmed, lower-cased form ends
with "password:" is answered with the password as configured and a CR LF; the
client is unchanged and no observer is invoked. -/
theorem handleIncomingText_password_prompt (L : Lib) (clock : Nat → Time) (c : Client)
    (text : Str) (hlog : c.loggedIn = false)
    (h : "password:".toList <:+ ToLower L (TrimSpace text)) :
    handleIncomingText L clock c text = ⟨c.password ++ "\r\n".toList, c, []⟩ ∧
    (handleIncomingText L clock c text).client.loggedIn = false := by
  have hs : hasAnySuffix (ToLower L (TrimSpace text)) passwordPrompts = true := by
    rw [hasAnySuffix_iff]
    exact ⟨_, by simp [passwordPrompts], h⟩
  have hu : hasAnySuffix (ToLower L (TrimSpace text)) usernamePrompts = false :=
    not_both _ passwordPrompts usernamePrompts
      (fun a ha b hb => ⟨(excl_user_pass b hb a ha).2, (excl_user_pass b hb a ha).1⟩) hs
  have hne : ToLower L (TrimSpace text) ≠ [] := by
    intro h0
    rw [h0, hasAnySuffix_nil _ (by decide)] at hs
    exact Bool.noConfusion hs
  have key : handleIncomingText L clock c text = ⟨c.password ++ "\r\n".toList, c, []⟩ := by
    rw [handle_eq, if_neg hne, hlog, hs, hu]
    rfl
  exact ⟨key, by rw [key]; exact hlog⟩

/-- Witness of C2: the prompt "Password:" with a password of mixed case. -/
theorem handleIncomingText_password_prompt_witness :
    handleIncomingText sampleLib (fun _ => 0)
        ⟨"dl1abc".toList, "SeCret".toList, false, []⟩ "Password:".toList =
      ⟨"SeCret\r\n".toList, ⟨"dl1abc".toList, "SeCret".toList, false, []⟩, []⟩ ∧
    (handleIncomingText sampleLib (fun _ => 0)
        ⟨"dl1abc".toList, "SeCret".toList, false, []⟩ "Password:".toList).client.loggedIn
      = false :=
  handleIncomingText_password_prompt sampleLib (fun _ => 0)
    ⟨"dl1abc".toList, "SeCret".toList, false, []⟩ "Password:".toList rfl (by decide)

/-- Claim C3: for a client that is not logged in, the call sets `loggedIn`
exactly when the trimmed, lower-cased text ends with one of the ready banners
"z cwskimmer >", "z dxspider >", "z arc6>", "ccc >"; then the reply is empty
(and no observer is invoked); for every other text the flag stays false. -/
theorem handleIncomingText_ready_banner (L : Lib) (clock : Nat → Time) (c : Client)
    (text : Str) (hlog : c.loggedIn = false) :
    ((handleIncomingText L clock c text).client.loggedIn = true ↔
      ("z cwskimmer >".toList <:+ ToLower L (TrimSpace text) ∨
       "z dxspider >".toList <:+ ToLower L (TrimSpace text) ∨
       "z arc6>".toList <:+ ToLower L (TrimSpace text) ∨
       "ccc >".toList <:+ ToLower L (TrimSpace text))) ∧
    ((handleIncomingText L clock c text).client.loggedIn = true →
      (handleIncomingText L clock c text).response = [] ∧
      (handleIncomingText L clock c text).invoked = []) ∧
    ((¬ ∃ b ∈ readyBanners, b <:+ ToLower L (TrimSpace text)) →
      (handleIncomingText L clock c text).client.loggedIn = false) := by
  have hiff : ("z cwskimmer >".toList <:+ ToLower L (TrimSpace text) ∨
       "z dxspider >".toList <:+ ToLower L (TrimSpace text) ∨
       "z arc6>".toList <:+ ToLower L (TrimSpace text) ∨
       "ccc >".toList <:+ ToLower L (TrimSpace text)) ↔
      ∃ b ∈ readyBanners, b <:+ ToLower L (TrimSpace text) := by
    simp only [readyBanners, List.mem_cons, List.mem_singleton, List.not_mem_nil, or_false,
      exists_eq_or_imp, exists_eq_left]
  have key :
      ((∃ b ∈ readyBanners, b <:+ ToLower L (TrimSpace text)) →
        handleIncomingText L clock c text = ⟨[], { c with loggedIn := true }, []⟩) ∧
      ((¬ ∃ b ∈ readyBanners, b <:+ ToLower L (TrimSpace text)) →
        (handleIncomingText L clock c text).client = c) := by
    rw [← hasAnySuffix_iff]
    constructor
    · intro hb
      have hu := not_both _ readyBanners usernamePrompts
        (fun a ha b hb => ⟨(excl_user_banner b hb a ha).2, (excl_user_banner b hb a ha).1⟩) hb
      have hp := not_both _ readyBanners passwordPrompts
        (fun a ha b hb => ⟨(excl_pass_banner b hb a ha).2, (excl_pass_banner b hb a ha).1⟩) hb
      have hne : ToLower L (TrimSpace text) ≠ [] := by
        intro h0
        rw [h0, hasAnySuffix_nil _ (by decide)] at hb
        exact Bool.noConfusion hb
      rw [handle_eq, if_neg hne, hlog, hu, hp, hb]
      rfl
    · intro hb
      rw [Bool.not_eq_true] at hb
      rw [handle_eq, hb]
      split_ifs <;> first | rfl | (split <;> rfl) | simp_all
  have hback : (handleIncomingText L clock c text).client.loggedIn = true →
      ∃ b ∈ readyBanners, b <:+ ToLower L (TrimSpace text) := by
    intro h
    by_contra hb
    rw [key.2 hb, hlog] at h
    exact Bool.noConfusion h
  refine ⟨?_, ?_, ?_⟩
  · rw [hiff]
    exact ⟨hback, fun hb => by rw [key.1 hb]⟩
  · intro h
    rw [key.1 (hback h)]
    exact ⟨rfl, rfl⟩
  · intro hb
    rw [key.2 hb, hlog]

/-- Witness of C3: the banner of an AR-Cluster node sets the flag. -/
theorem handleIncomingText_ready_banner_witness :
    (handleIncomingText sampleLib (fun _ => 0)
        ⟨"dl1abc".toList, "secret".toList, false, []⟩
        "dl1abc de k1ttt 04-nov-2026 1015z CCC >\r\n".toList).client.loggedIn = true ∧
    (handleIncomingText sampleLib (fun _ => 0)
        ⟨"dl1abc".toList, "secret".toList, false, []⟩
        "dl1abc de k1ttt 04-nov-2026 1015z CCC >\r\n".toList).response = [] :=
  have h := handleIncomingText_ready_banner sampleLib (fun _ => 0)
    ⟨"dl1abc".toList, "secret".toList, false, []⟩
    "dl1abc de k1ttt 04-nov-2026 1015z CCC >\r\n".toList rfl
  ⟨h.1.2 (by decide), (h.2.1 (h.1.2 (by decide))).1⟩

theorem toLower_eq_nil (L : Lib) (s : Str) : ToLower L s = [] ↔ s = [] := by
  simp [ToLower]

/-- Claim C4: the reply is empty whenever the client is already logged in, or
the trimmed text is empty, or the trimmed, lower-cased text ends with none of
"callsign:", "call:", "login:", "password:"; and a client that is logged in
before the call is logged in after it. -/
theorem handleIncomingText_no_reply (L : Lib) (clock : Nat → Time) (c : Client) (text : Str) :
    ((c.loggedIn = true ∨ TrimSpace text = [] ∨
        ¬ ("callsign:".toList <:+ ToLower L (TrimSpace text) ∨
           "call:".toList <:+ ToLower L (TrimSpace text) ∨
           "login:".toList <:+ ToLower L (TrimSpace text) ∨
           "password:".toList <:+ ToLower L (TrimSpace text))) →
      (handleIncomingText L clock c text).response = []) ∧
    (c.loggedIn = true → (handleIncomingText L clock c text).client.loggedIn = true) := by
  constructor
  · intro h
    rw [handle_eq]
    by_cases hne : ToLower L (TrimSpace text) = []
    · rw [if_pos hne]
    · rw [if_neg hne]
      have hcase : c.loggedIn = true ∨
          (hasAnySuffix (ToLower L (TrimSpace text)) usernamePrompts = false ∧
           hasAnySuffix (ToLower L (TrimSpace text)) passwordPrompts = false) := by
        rcases h with h | h | h
        · exact Or.inl h
        · exact absurd ((toLower_eq_nil L _).2 h) hne
        · right
          constructor
          · by_contra hu
            rw [Bool.not_eq_false, hasAnySuffix_iff] at hu
            apply h
            simp only [usernamePrompts, List.mem_cons, List.mem_singleton, List.not_mem_nil,
              or_false, exists_eq_or_imp, exists_eq_left] at hu
            tauto
          · by_contra hu
            rw [Bool.not_eq_false, hasAnySuffix_iff] at hu
            apply h
            simp only [passwordPrompts, List.mem_cons, List.mem_singleton, List.not_mem_nil,
              or_false, exists_eq_or_imp, exists_eq_left] at hu
            tauto
      rcases hcase with hl | ⟨hu, hp⟩
      · rw [hl]
        simp only [Bool.not_true, Bool.false_and, Bool.false_eq_true, if_false]
        split <;> rfl
      · rw [hu, hp]
        simp only [Bool.and_false, Bool.false_eq_true, if_false]
        split_ifs <;> first | rfl | (split <;> rfl)
  · intro hl
    rw [handle_eq, hl]
    simp only [Bool.not_true, Bool.false_and, Bool.false_eq_true, if_false]
    split_ifs <;> first | exact hl | (split <;> exact hl)

/-- Witness of C4: a logged-in client does not answer a late "login:" prompt
and stays logged in. -/
theorem handleIncomingText_no_reply_witness :
    (handleIncomingText sampleLib (fun _ => 0)
        ⟨"dl1abc".toList, "secret".toList, true, []⟩ "login:".toList).response = [] ∧
    (handleIncomingText sampleLib (fun _ => 0)
        ⟨"dl1abc".toList, "secret".toList, true, []⟩ "login:".toList).client.loggedIn = true :=
  ⟨(handleIncomingText_no_reply sampleLib (fun _ => 0)
      ⟨"dl1abc".toList, "secret".toList, true, []⟩ "login:".toList).1 (Or.inl rfl),
   (handleIncomingText_no_reply sampleLib (fun _ => 0)
      ⟨"dl1abc".toList, "secret".toList, true, []⟩ "login:".toList).2 rfl⟩

/-! ## The spot parser: matches and records -/

theorem plusRun_length (p : Char → Bool) (k : Cont) (hk : KeepsLength k) :
    KeepsLength (plusRun p k) := by
  intro pos cs
  induction cs generalizing pos with
  | nil => intro caps r h; simp [plusRun] at h
  | cons c cs ih =>
    intro caps r h
    unfold plusRun at h
    split_ifs at h with hp
    cases hrec : plusRun p k (pos + 1) cs caps with
    | some r1 =>
      rw [hrec] at h
      simp only [Option.some.injEq] at h
      subst h
      exact ih _ _ _ hrec
    | none =>
      rw [hrec] at h
      exact hk _ _ _ _ h

theorem run_length (re : Re) : ∀ (k : Cont), KeepsLength k → KeepsLength (re.run k) := by
  induction re with
  | eps => intro k hk pos cs caps r h; exact hk _ _ _ _ h
  | chr c =>
    intro k hk pos cs caps r h
    cases cs with
    | nil => simp [Re.run] at h
    | cons d ds =>
      simp only [Re.run] at h
      split_ifs at h
      exact hk _ _ _ _ h
  | cls p =>
    intro k hk pos cs caps r h
    cases cs with
    | nil => simp [Re.run] at h
    | cons d ds =>
      simp only [Re.run] at h
      split_ifs at h
      exact hk _ _ _ _ h
  | seq a b iha ihb =>
    intro k hk pos cs caps r h
    simp only [Re.run] at h
    exact iha _ (ihb k hk) _ _ _ _ h
  | plus p =>
    intro k hk pos cs caps r h
    simp only [Re.run] at h
    exact plusRun_length p k hk _ _ _ _ h
  | opt r0 ih =>
    intro k hk pos cs caps r h
    simp only [Re.run] at h
    cases hrec : r0.run k pos cs caps with
    | some r1 =>
      rw [hrec] at h
      simp only [Option.some.injEq] at h
      subst h
      exact ih k hk _ _ _ _ hrec
    | none =>
      rw [hrec] at h
      exact hk _ _ _ _ h
  | grp i r0 ih =>
    intro k hk pos cs caps r h
    simp only [Re.run] at h
    have hk2 : KeepsLength (fun pos1 cs1 caps1 => k pos1 cs1 (caps1.set i (some (pos, pos1)))) := by
      intro pos1 cs1 caps1 r1 h1
      have := hk _ _ _ _ h1
      simpa using this
    exact ih _ hk2 _ _ _ _ h

theorem matchAt_length (re : Re) (pos : Nat) (cs : Str) (e : Nat) (caps : Caps)
    (h : re.matchAt pos cs = some (e, caps)) : caps.length = re.numSubexp + 1 := by
  unfold Re.matchAt at h
  have hk : KeepsLength (fun e _ caps => some (e, caps.set 0 (some (pos, e)))) := by
    intro pos1 cs1 caps1 r1 h1
    simp only [Option.some.injEq] at h1
    subst h1
    simp
  have := run_length re _ hk _ _ _ _ h
  simpa using this

theorem submatch_length (s : Str) (caps : Caps) : (submatch s caps).length = caps.length := by
  simp [submatch]

theorem allMatches_nil (re : Re) (s : Str) (skip : Nat) (prevEnd : Option Nat) (pos : Nat) :
    allMatches re s skip prevEnd pos [] =
      match re.matchAt pos [] with
      | some (_, caps) => if prevEnd = some pos then [] else [submatch s caps]
      | none => [] := by
  cases skip <;> rfl

theorem allMatches_skip (re : Re) (s : Str) (skip : Nat) (prevEnd : Option Nat) (pos : Nat)
    (c : Char) (cs : Str) :
    allMatches re s (skip + 1) prevEnd pos (c :: cs) = allMatches re s skip prevEnd (pos + 1) cs :=
  rfl

theorem allMatches_zero (re : Re) (s : Str) (prevEnd : Option Nat) (pos : Nat)
    (c : Char) (cs : Str) :
    allMatches re s 0 prevEnd pos (c :: cs) =
      match re.matchAt pos (c :: cs) with
      | none => allMatches re s 0 prevEnd (pos + 1) cs
      | some (e, caps) =>
        if e = pos then
          if prevEnd = some pos then allMatches re s 0 (some e) (pos + 1) cs
          else submatch s caps :: allMatches re s 0 (some e) (pos + 1) cs
        else submatch s caps :: allMatches re s (e - pos - 1) (some e) (pos + 1) cs :=
  rfl

theorem allMatches_length (re : Re) (s : Str) (cs : Str) :
    ∀ (skip : Nat) (prevEnd : Option Nat) (pos : Nat),
      ∀ m ∈ allMatches re s skip prevEnd pos cs, m.length = re.numSubexp + 1 := by
  induction cs with
  | nil =>
    intro skip prevEnd pos m hm
    rw [allMatches_nil] at hm
    cases hrec : re.matchAt pos [] with
    | none => rw [hrec] at hm; simp at hm
    | some r =>
      obtain ⟨e, caps⟩ := r
      rw [hrec] at hm
      simp only at hm
      split_ifs at hm
      · simp at hm
      · simp only [List.mem_singleton] at hm
        rw [hm, submatch_length]
        exact matchAt_length _ _ _ _ _ hrec
  | cons c cs ih =>
    intro skip prevEnd pos m hm
    cases skip with
    | succ n =>
      rw [allMatches_skip] at hm
      exact ih _ _ _ m hm
    | zero =>
      rw [allMatches_zero] at hm
      cases hrec : re.matchAt pos (c :: cs) with
      | none => rw [hrec] at hm; exact ih _ _ _ m hm
      | some r =>
        obtain ⟨e, caps⟩ := r
        rw [hrec] at hm
        simp only at hm
        have hsub : (submatch s caps).length = re.numSubexp + 1 := by
          rw [submatch_length]; exact matchAt_length _ _ _ _ _ hrec
        split_ifs at hm
        · exact ih _ _ _ m hm
        · rcases List.mem_cons.1 hm with h | h
          · rw [h]; exact hsub
          · exact ih _ _ _ m h
        · rcases List.mem_cons.1 hm with h | h
          · rw [h]; exact hsub
          · exact ih _ _ _ m h

theorem numSubexp_dx : dxMessageExpression.numSubexp = 6 := by decide

theorem findAll_length (s : Str) :
    ∀ m ∈ FindAllStringSubmatch dxMessageExpression s, m.length = 7 := by
  intro m hm
  have := allMatches_length dxMessageExpression s s 0 none 0 m hm
  rw [numSubexp_dx] at this
  exact this

theorem extractLoop_eq (L : Lib) (clock : Nat → Time) (ms : List (List Str)) :
    ∀ (i : Nat) (result : List (DXMessage L)), (∀ m ∈ ms, m.length = 7) →
      extractLoop L clock i ms result =
        .ok (result ++ (ms.enumFrom i).filterMap (fun im => spotRecord L (clock im.1) im.2)) := by
  induction ms with
  | nil => intro i result _; simp [extractLoop]
  | cons m ms ih =>
    intro i result hlen
    have hm : m.length = 7 := hlen m (List.mem_cons_self _ _)
    have hms : ∀ m ∈ ms, m.length = 7 := fun x hx => hlen x (List.mem_cons_of_mem _ hx)
    unfold extractLoop
    rw [if_neg (by simp [hm])]
    simp only [List.enumFrom_cons, List.filterMap_cons]
    cases h1 : L.callsignParse (m.getD 3 []) with
    | none =>
      have hs : spotRecord L (clock i) m = none := by simp only [spotRecord, h1]
      simp only [ih _ _ hms, hs]
    | some call =>
      cases h2 : parseDXFrequency (m.getD 2 []) with
      | error e =>
        have hs : spotRecord L (clock i) m = none := by simp only [spotRecord, h1, h2]
        simp only [ih _ _ hms, hs]
      | ok f =>
        cases h3 : parseDXTimestamp (clock i) (m.getD 5 []) with
        | error e =>
          have hs : spotRecord L (clock i) m = none := by simp only [spotRecord, h1, h2, h3]
          simp only [ih _ _ hms, hs]
        | ok t =>
          have hs : spotRecord L (clock i) m = some
              { Call := call, Frequency := f, Time := t,
                Locator := (parseDXLocator L (m.getD 6 [])).getD L.zeroLocator,
                Text := TrimSpace (m.getD 4 []), Spotter := m.getD 1 [] } := by
            simp only [spotRecord, h1, h2, h3]
          simp only [ih _ _ hms, hs, List.append_assoc, List.singleton_append]
          congr 3
          cases h4 : parseDXLocator L (m.getD 6 []) <;> rfl

theorem spotRecord_isNone (L : Lib) (now : Time) (m : List Str) :
    (spotRecord L now m).isNone = rejected L now m := by
  unfold spotRecord rejected
  cases L.callsignParse (m.getD 3 []) <;> cases parseDXFrequency (m.getD 2 []) <;>
    cases parseDXTimestamp now (m.getD 5 []) <;> rfl

theorem filterMap_length_countP {α β : Type} (f : α → Option β) (l : List α) :
    (l.filterMap f).length = l.length - l.countP (fun a => (f a).isNone) := by
  induction l with
  | nil => rfl
  | cons a l ih =>
    have hle : l.countP (fun a => (f a).isNone) ≤ l.length := List.countP_le_length _
    cases h : f a with
    | none =>
      rw [List.filterMap_cons_none h, List.countP_cons_of_pos _ _ (by simp [h]), ih]
      simp
    | some b =>
      rw [List.filterMap_cons_some h, List.countP_cons_of_neg _ _ (by simp [h])]
      simp only [List.length_cons, ih]
      omega

theorem extract_ok (L : Lib) (clock : Nat → Time) (s : Str) :
    ∃ result, ExtractDXMessages L clock s = .ok result :=
  ⟨_, extractLoop_eq L clock _ 0 [] (findAll_length s)⟩

/-- Claim C8: for every input, every match of the six-group pattern has
exactly 7 entries and `ExtractDXMessages` returns a result with a nil error. -/
theorem ExtractDXMessages_no_error (L : Lib) (clock : Nat → Time) (s : Str) :
    (∀ m ∈ FindAllStringSubmatch dxMessageExpression s, m.length = 7) ∧
    ∃ result, ExtractDXMessages L clock s = .ok result :=
  ⟨findAll_length s, extract_ok L clock s⟩

/-- Claim C6: `ExtractDXMessages` returns no error and the records of the
matches that are not rejected, in the order of the matches; with `N` matches of
which `K` are rejected these are `N - K` records. -/
theorem ExtractDXMessages_drops_rejected (L : Lib) (clock : Nat → Time) (s : Str) :
    ExtractDXMessages L clock s =
      .ok (((FindAllStringSubmatch dxMessageExpression s).enum).filterMap
        (fun im => spotRecord L (clock im.1) im.2)) ∧
    ((((FindAllStringSubmatch dxMessageExpression s).enum).filterMap
        (fun im => spotRecord L (clock im.1) im.2)).length =
      (FindAllStringSubmatch dxMessageExpression s).length -
        ((FindAllStringSubmatch dxMessageExpression s).enum).countP
          (fun im => rejected L (clock im.1) im.2)) := by
  constructor
  · have := extractLoop_eq L clock _ 0 [] (findAll_length s)
    simpa [ExtractDXMessages, List.enum] using this
  · rw [filterMap_length_countP]
    simp only [spotRecord_isNone, List.enum_length]

/-! ## The time of a spot -/

theorem digit_ne_sign (c : Char) (h : digit c = true) : c ≠ '-' ∧ c ≠ '+' := by
  constructor <;> rintro rfl <;> revert h <;> decide

theorem Atoi_digits (s : Str) (hne : s ≠ []) (hd : ∀ c ∈ s, digit c = true) :
    Atoi s = .ok (digitsVal s : Int) := by
  cases s with
  | nil => exact absurd rfl hne
  | cons c t =>
    have hc := digit_ne_sign c (hd c (List.mem_cons_self _ _))
    have hall : (c :: t).all digit = true := by
      rw [List.all_eq_true]; exact hd
    simp only [Atoi, List.head?_cons, Option.some.injEq, hc.1, hc.2, or_self, if_false, hall,
      Bool.true_eq_false, or_false, reduceCtorEq]

theorem parseDXTimestamp_digits (now : Time) (ts : Str) (hlen : ts.length = 4)
    (hd : ∀ c ∈ ts, digit c = true) :
    parseDXTimestamp now ts =
      .ok (Truncate now (Hour * 24) + (digitsVal (ts.take 2) : Int) * Hour
            + (digitsVal (ts.drop 2) : Int) * Minute) := by
  have h1 : Atoi (ts.take 2) = .ok (digitsVal (ts.take 2) : Int) :=
    Atoi_digits _ (by intro h; have := congrArg List.length h; simp [hlen] at this)
      (fun c hc => hd c (List.mem_of_mem_take hc))
  have h2 : Atoi (ts.drop 2) = .ok (digitsVal (ts.drop 2) : Int) :=
    Atoi_digits _ (by intro h; have := congrArg List.length h; simp [hlen] at this)
      (fun c hc => hd c (List.mem_of_mem_drop hc))
  unfold parseDXTimestamp
  rw [if_neg (by simp [hlen]), h1, h2]

/-- Claim C9, as amended: for every instant `now` and every string of four
decimal digits, `parseDXTimestamp` succeeds and returns the UTC midnight before
`now` plus `HH` hours and `MM` minutes; when `HH < 24` and `MM < 60` that time
lies on the UTC day of `now`, at hour `HH`, minute `MM`, second zero. -/
theorem parseDXTimestamp_valid (now : Time) (ts : Str) (hlen : ts.length = 4)
    (hd : ∀ c ∈ ts, digit c = true) :
    ∃ t, parseDXTimestamp now ts = .ok t ∧
      t = Truncate now (24 * Hour) + (digitsVal (ts.take 2) : Int) * Hour
            + (digitsVal (ts.drop 2) : Int) * Minute ∧
      (digitsVal (ts.take 2) < 24 → digitsVal (ts.drop 2) < 60 →
        utcDay t = utcDay now ∧ utcHour t = digitsVal (ts.take 2) ∧
        utcMinute t = digitsVal (ts.drop 2) ∧ utcNanosOfMinute t = 0) := by
  refine ⟨_, parseDXTimestamp_digits now ts hlen hd, ?_, ?_⟩
  · rw [mul_comm Hour 24]
  · intro hh hm
    generalize digitsVal (ts.take 2) = H at hh ⊢
    generalize digitsVal (ts.drop 2) = M at hm ⊢
    simp only [Truncate, utcDay, utcHour, utcMinute, utcNanosOfMinute, Hour, Minute]
    norm_num
    omega

/-- Witness of C9: "1650" read at 19:44:12 UTC of some day (day 738608 after
the zero time) gives 16:50 of that day. -/
theorem parseDXTimestamp_valid_witness :
    ∃ t, parseDXTimestamp (738608 * (24 * Hour) + 19 * Hour + 44 * Minute + 12000000000)
          "1650".toList = .ok t ∧
      t = Truncate (738608 * (24 * Hour) + 19 * Hour + 44 * Minute + 12000000000) (24 * Hour)
            + (digitsVal ("1650".toList.take 2) : Int) * Hour
            + (digitsVal ("1650".toList.drop 2) : Int) * Minute ∧
      (digitsVal ("1650".toList.take 2) < 24 → digitsVal ("1650".toList.drop 2) < 60 →
        utcDay t = utcDay (738608 * (24 * Hour) + 19 * Hour + 44 * Minute + 12000000000) ∧
        utcHour t = digitsVal ("1650".toList.take 2) ∧
        utcMinute t = digitsVal ("1650".toList.drop 2) ∧ utcNanosOfMinute t = 0) :=
  parseDXTimestamp_valid _ "1650".toList (by decide) (by decide)

/-- Counterexample to C9 as stated: the four digits "2400", read at the zero
time, give 00:00 of the next UTC day, not a time on the day of `now` with
hour 24. -/
theorem parseDXTimestamp_2400 :
    parseDXTimestamp 0 "2400".toList = .ok (24 * Hour) ∧
    utcDay (24 * Hour) ≠ utcDay 0 ∧ utcHour (24 * Hour) ≠ 24 := by
  decide

/-! ## Spots while not logged in -/

/-- Claim C5, as amended: while the client is not logged in, no observer is
invoked for a text that is blank or whose trimmed, lower-cased form ends with a
user-name prompt, the password prompt or a ready banner; every other text is
passed to `ExtractDXMessages` all the same, and each record it returns is
delivered to the DX observers, the flag staying false. -/
theorem handleIncomingText_spots_before_login (L : Lib) (clock : Nat → Time) (c : Client) (text : Str)
    (hlog : c.loggedIn = false) :
    ((ToLower L (TrimSpace text) = [] ∨
      (∃ p ∈ usernamePrompts ++ passwordPrompts ++ readyBanners,
        p <:+ ToLower L (TrimSpace text))) →
      (handleIncomingText L clock c text).invoked = []) ∧
    (¬ (ToLower L (TrimSpace text) = [] ∨
      (∃ p ∈ usernamePrompts ++ passwordPrompts ++ readyBanners,
        p <:+ ToLower L (TrimSpace text))) →
      ∃ records, ExtractDXMessages L clock (ToLower L (TrimSpace text)) = .ok records ∧
        (handleIncomingText L clock c text).invoked = emitAllDX L c.listeners records ∧
        (handleIncomingText L clock c text).client.loggedIn = false) := by
  have hsplit : (∃ p ∈ usernamePrompts ++ passwordPrompts ++ readyBanners,
        p <:+ ToLower L (TrimSpace text)) ↔
      (hasAnySuffix (ToLower L (TrimSpace text)) usernamePrompts = true ∨
       hasAnySuffix (ToLower L (TrimSpace text)) passwordPrompts = true ∨
       hasAnySuffix (ToLower L (TrimSpace text)) readyBanners = true) := by
    simp only [hasAnySuffix_iff, List.mem_append]
    constructor
    · rintro ⟨p, (⟨hp | hp⟩ | hp), h⟩
      · exact Or.inl ⟨p, hp, h⟩
      · exact Or.inr (Or.inl ⟨p, hp, h⟩)
      · exact Or.inr (Or.inr ⟨p, hp, h⟩)
    · rintro (⟨p, hp, h⟩ | ⟨p, hp, h⟩ | ⟨p, hp, h⟩)
      · exact ⟨p, Or.inl (Or.inl hp), h⟩
      · exact ⟨p, Or.inl (Or.inr hp), h⟩
      · exact ⟨p, Or.inr hp, h⟩
  rw [hsplit]
  constructor
  · intro h
    rw [handle_eq, hlog]
    by_cases h0 : ToLower L (TrimSpace text) = []
    · rw [if_pos h0]
    · rw [if_neg h0]
      rcases h with h | h | h | h
      · exact absurd h h0
      · rw [h]; rfl
      · rw [h]; split_ifs <;> first | rfl | simp_all
      · rw [h]; split_ifs <;> first | rfl | simp_all
  · intro h
    push_neg at h
    obtain ⟨h0, hu, hp, hb⟩ := h
    rw [ne_eq, Bool.not_eq_true] at hu hp hb
    obtain ⟨records, hrec⟩ := extract_ok L clock (ToLower L (TrimSpace text))
    refine ⟨records, hrec, ?_, ?_⟩
    · rw [handle_eq, if_neg h0, hu, hp, hb, hrec]
      simp
    · rw [handle_eq, if_neg h0, hu, hp, hb, hrec]
      simpa using hlog


/-- Witness of C5 (amended): a "login:" prompt in a text that also holds a
spot line delivers nothing. -/
theorem handleIncomingText_spots_before_login_witness :
    (handleIncomingText sampleLib (fun _ => 0)
      ⟨"dl1abc".toList, "secret".toList, false, [⟨1, false, true, false, false⟩]⟩
      "dx de rx7k: 7154.0 rk7r cq 1650z\r\nlogin: ".toList).invoked = [] :=
  (handleIncomingText_spots_before_login sampleLib (fun _ => 0)
    ⟨"dl1abc".toList, "secret".toList, false, [⟨1, false, true, false, false⟩]⟩
    "dx de rx7k: 7154.0 rk7r cq 1650z\r\nlogin: ".toList rfl).1
    (Or.inr ⟨"login:".toList, by decide, by decide⟩)

/-- Counterexample to C5 as stated: a client that is not logged in and has one
DX observer (handle 1) receives the text "dx de rx7k: 7154.0 rk7r cq 1650z"; it
stays not logged in and the observer is invoked once with the spot. -/
theorem handleIncomingText_dx_before_login :
    (handleIncomingText sampleLib (fun _ => 0)
      ⟨"dl1abc".toList, "secret".toList, false, [⟨1, false, true, false, false⟩]⟩
      "dx de rx7k: 7154.0 rk7r cq 1650z".toList).client.loggedIn = false ∧
    ((handleIncomingText sampleLib (fun _ => 0)
      ⟨"dl1abc".toList, "secret".toList, false, [⟨1, false, true, false, false⟩]⟩
      "dx de rx7k: 7154.0 rk7r cq 1650z".toList).invoked.map
        (fun i => (i.listener.handle, match i.call with
          | .DX m => (m.Spotter, m.Call, m.Frequency)
          | _ => ([], [], F64.nan)))) =
      [(1, "rx7k".toList, "rk7r".toList, F64.fin 7154000)] := by
  decide

/-! ## The frequency of a spot -/

theorem log2Fuel_spec : ∀ (fuel n : Nat), n ≤ fuel → 0 < n →
    2 ^ log2Fuel fuel n ≤ n ∧ n < 2 ^ (log2Fuel fuel n + 1) := by
  intro fuel
  induction fuel with
  | zero => intro n h1 h2; omega
  | succ fuel ih =>
    intro n h1 h2
    unfold log2Fuel
    by_cases h : 2 ≤ n
    · rw [if_pos h]
      have := ih (n / 2) (by omega) (by omega)
      obtain ⟨ha, hb⟩ := this
      rw [pow_succ] at hb ⊢
      rw [pow_succ (2) (log2Fuel fuel (n / 2) + 1), pow_succ]
      generalize 2 ^ log2Fuel fuel (n / 2) = a at *
      omega
    · rw [if_neg h]
      simp
      omega

theorem log2_spec (n : Nat) (h : 0 < n) : 2 ^ log2 n ≤ n ∧ n < 2 ^ (log2 n + 1) :=
  log2Fuel_spec n n (le_refl _) h

theorem pow2Le_iff (l : Int) (num den : Nat) (hden : 0 < den) :
    pow2Le l num den = true ↔ (2 : ℚ) ^ l ≤ (num : ℚ) / den := by
  have hd : (0 : ℚ) < den := by exact_mod_cast hden
  cases l with
  | ofNat k =>
    simp only [pow2Le, decide_eq_true_eq, Int.ofNat_eq_coe, zpow_natCast]
    rw [le_div_iff₀ hd]
    constructor
    · intro h
      have : ((den * 2 ^ k : Nat) : ℚ) ≤ num := by exact_mod_cast h
      push_cast at this
      linarith
    · intro h
      have : ((den * 2 ^ k : Nat) : ℚ) ≤ num := by push_cast; linarith
      exact_mod_cast this
  | negSucc k =>
    simp only [pow2Le, decide_eq_true_eq, zpow_negSucc]
    have h2 : (0 : ℚ) < 2 ^ (k + 1) := by positivity
    rw [le_div_iff₀ hd, inv_mul_le_iff₀ h2]
    constructor
    · intro h
      have : ((den : Nat) : ℚ) ≤ ((num * 2 ^ (k + 1) : Nat) : ℚ) := by exact_mod_cast h
      push_cast at this
      linarith
    · intro h
      have : ((den : Nat) : ℚ) ≤ ((num * 2 ^ (k + 1) : Nat) : ℚ) := by push_cast; linarith
      exact_mod_cast this

theorem floorLog2_le (num den : Nat) (hnum : 0 < num) (hden : 0 < den) :
    (2 : ℚ) ^ floorLog2 num den ≤ (num : ℚ) / den := by
  unfold floorLog2
  simp only
  by_cases h : pow2Le ((log2 num : Int) - (log2 den : Int)) num den = true
  · rw [if_pos h]
    exact (pow2Le_iff _ _ _ hden).1 h
  · rw [if_neg h]
    have hd : (0 : ℚ) < den := by exact_mod_cast hden
    have h1 : ((2 ^ log2 num : Nat) : ℚ) ≤ num := by exact_mod_cast (log2_spec num hnum).1
    have h2 : ((den : Nat) : ℚ) < ((2 ^ (log2 den + 1) : Nat) : ℚ) := by
      exact_mod_cast (log2_spec den hden).2
    push_cast at h1 h2
    rw [le_div_iff₀ hd]
    have e1 : (2 : ℚ) ^ ((log2 num : Int) - (log2 den : Int) - 1) =
        (2 : ℚ) ^ (log2 num) / (2 : ℚ) ^ (log2 den + 1) := by
      rw [show ((log2 num : Int) - (log2 den : Int) - 1) = (log2 num : Int) - ((log2 den + 1 : Nat) : Int) by push_cast; ring]
      rw [zpow_sub₀ (by norm_num), zpow_natCast, zpow_natCast]
    rw [e1, div_mul_eq_mul_div, div_le_iff₀ (by positivity)]
    have h3 : (0 : ℚ) < 2 ^ log2 num := by positivity
    nlinarith

theorem roundHalfEven_exact (Q d : Nat) (hd : 0 < d) : roundHalfEven (Q * d) d = Q := by
  unfold roundHalfEven
  simp only [Nat.mul_div_cancel _ hd, Nat.mul_mod_left]
  rw [if_neg (by omega), if_neg (by omega)]

theorem ulpExp_le (num den : Nat) (hnum : 0 < num) (hden : 0 < den) (M : Nat) (E : Int)
    (hM : M < 2 ^ 53) (hE : -1074 ≤ E) (hx : (num : ℚ) / den = (M : ℚ) * (2 : ℚ) ^ E) :
    ulpExp num den ≤ E := by
  unfold ulpExp
  apply max_le _ hE
  have h1 := floorLog2_le num den hnum hden
  rw [hx] at h1
  have h2 : (M : ℚ) * (2 : ℚ) ^ E < (2 : ℚ) ^ (53 + E) := by
    rw [zpow_add₀ (by norm_num)]
    have : (M : ℚ) < ((2 ^ 53 : Nat) : ℚ) := by exact_mod_cast hM
    push_cast at this
    have hp : (0 : ℚ) < 2 ^ E := by positivity
    have e53 : (2 : ℚ) ^ (53 : Int) = 2 ^ 53 := by norm_num
    rw [e53]
    exact mul_lt_mul_of_pos_right this hp
  have h3 : (2 : ℚ) ^ floorLog2 num den < (2 : ℚ) ^ (53 + E) := lt_of_le_of_lt h1 h2
  have h4 := (zpow_lt_zpow_iff_right₀ (by norm_num : (1 : ℚ) < 2)).1 h3
  omega

theorem roundF64_exact (num den : Nat) (hden : 0 < den) (hb : IsBinary64 ((num : ℚ) / den)) :
    roundF64 num den = .fin ((num : ℚ) / den) := by
  by_cases hnum : num = 0
  · subst hnum
    simp [roundF64]
  have hnum' : 0 < num := Nat.pos_of_ne_zero hnum
  obtain ⟨M, E, hM, hE1, hE2, hx⟩ := hb
  have he := ulpExp_le num den hnum' hden M E hM hE1 hx
  have hd : (0 : ℚ) < den := by exact_mod_cast hden
  -- the value as a multiple of the unit in the last place
  obtain ⟨j, hj⟩ : ∃ j : Nat, E = ulpExp num den + j := ⟨(E - ulpExp num den).toNat, by omega⟩
  have hxQ : (num : ℚ) / den = ((M * 2 ^ j : Nat) : ℚ) * (2 : ℚ) ^ (ulpExp num den) := by
    rw [hx, hj, zpow_add₀ (by norm_num), zpow_natCast]
    push_cast
    ring
  have hlt : (num : ℚ) / den < (2 : ℚ) ^ (1024 : Nat) := by
    rw [hx]
    have h1 : (M : ℚ) < ((2 ^ 53 : Nat) : ℚ) := by exact_mod_cast hM
    push_cast at h1
    have h2 : (2 : ℚ) ^ E ≤ (2 : ℚ) ^ (971 : Int) :=
      (zpow_le_zpow_iff_right₀ (by norm_num : (1 : ℚ) < 2)).2 hE2
    have hp : (0 : ℚ) < 2 ^ E := by positivity
    calc (M : ℚ) * 2 ^ E < 2 ^ 53 * 2 ^ E := mul_lt_mul_of_pos_right h1 hp
      _ ≤ 2 ^ 53 * (2 : ℚ) ^ (971 : Int) := by
          apply mul_le_mul_of_nonneg_left h2; positivity
      _ = (2 : ℚ) ^ (1024 : Nat) := by norm_num
  unfold roundF64
  rw [if_neg hnum]
  generalize ulpExp num den = e at *
  generalize M * 2 ^ j = Q at *
  cases e with
  | ofNat k =>
    simp only [Int.ofNat_eq_coe, zpow_natCast] at hxQ
    have hn : num = Q * (den * 2 ^ k) := by
      have : (num : ℚ) = ((Q * (den * 2 ^ k) : Nat) : ℚ) := by
        rw [div_eq_iff (ne_of_gt hd)] at hxQ
        rw [hxQ]; push_cast; ring
      exact_mod_cast this
    simp only
    rw [hn, roundHalfEven_exact _ _ (by positivity)]
    have hval : ((Q * 2 ^ k : Nat) : ℚ) = ((Q * (den * 2 ^ k) : Nat) : ℚ) / den := by
      push_cast; field_simp; ring
    have hnot : ¬ 2 ^ 1024 ≤ Q * 2 ^ k := by
      intro hcon
      have : ((2 ^ 1024 : Nat) : ℚ) ≤ ((Q * 2 ^ k : Nat) : ℚ) := by exact_mod_cast hcon
      rw [hval, ← hn] at this
      push_cast at this
      linarith
    rw [if_neg hnot]
    congr 1
    rw [Rat.mkRat_one, ← hval]
    push_cast
    rfl
  | negSucc k =>
    simp only [zpow_negSucc] at hxQ
    have hn : num * 2 ^ (k + 1) = Q * den := by
      have : ((num * 2 ^ (k + 1) : Nat) : ℚ) = ((Q * den : Nat) : ℚ) := by
        rw [div_eq_iff (ne_of_gt hd)] at hxQ
        push_cast
        rw [hxQ]
        field_simp
      exact_mod_cast this
    simp only
    rw [hn, roundHalfEven_exact _ _ hden, hxQ, Rat.mkRat_eq_div]
    push_cast
    rfl

theorem digit_dot : digit '.' = false := by decide

theorem readDecimal_field (ip fp : Str) (hip : ip ≠ []) (h1 : ∀ c ∈ ip, digit c = true)
    (h2 : ∀ c ∈ fp, digit c = true) :
    readDecimal (ip ++ '.' :: fp) = some (digitsVal (ip ++ fp), fp.length) := by
  have ht : (ip ++ '.' :: fp).takeWhile digit = ip := by
    rw [List.takeWhile_append_of_pos h1]
    simp [List.takeWhile, digit_dot]
  have hdw : (ip ++ '.' :: fp).dropWhile digit = '.' :: fp := by
    rw [List.dropWhile_append_of_pos h1]
    simp [List.dropWhile, digit_dot]
  have hall : fp.all digit = true := by rw [List.all_eq_true]; exact h2
  unfold readDecimal
  simp only [ht, hdw, hall, hip, ne_eq, not_false_eq_true, true_or, and_self, if_true]

theorem roundF64_nonneg (num den : Nat) :
    roundF64 num den = .inf ∨ ∃ q, roundF64 num den = .fin q ∧ 0 ≤ q := by
  unfold roundF64
  split_ifs with h
  · exact Or.inr ⟨0, rfl, le_refl _⟩
  · split
    · simp only
      split_ifs
      · exact Or.inl rfl
      · refine Or.inr ⟨_, rfl, ?_⟩
        rw [Rat.mkRat_one]
        exact_mod_cast Nat.zero_le _
    · refine Or.inr ⟨_, rfl, ?_⟩
      rw [Rat.mkRat_eq_div]
      positivity

theorem parseDXFrequency_nonneg (s : Str) (f : F64) (h : parseDXFrequency s = .ok f) :
    f = .inf ∨ ∃ q, f = .fin q ∧ 0 ≤ q := by
  unfold parseDXFrequency at h
  cases hp : ParseFloat s with
  | error e => rw [hp] at h; cases h
  | ok kHz =>
    rw [hp] at h
    simp only [Except.ok.injEq] at h
    subst h
    unfold ParseFloat at hp
    split at hp
    · cases hp
    · split at hp
      · cases hp
        exact roundF64_nonneg _ _
      · cases hp

/-- Rounding a quotient to the nearest integer moves it by at most one half. -/
theorem roundHalfEven_near (n d : Nat) (hd : 0 < d) :
    |((roundHalfEven n d : Nat) : ℚ) - (n : ℚ) / d| ≤ 1 / 2 := by
  have hdq : (0 : ℚ) < d := by exact_mod_cast hd
  have hn : (n : ℚ) = (d : ℚ) * ((n / d : Nat) : ℚ) + ((n % d : Nat) : ℚ) := by
    exact_mod_cast (Nat.div_add_mod n d).symm
  have hr : ((n % d : Nat) : ℚ) < d := by exact_mod_cast Nat.mod_lt n hd
  have hr0 : (0 : ℚ) ≤ ((n % d : Nat) : ℚ) := by positivity
  have hx : (n : ℚ) / d = ((n / d : Nat) : ℚ) + ((n % d : Nat) : ℚ) / d := by
    rw [hn]; field_simp; ring
  unfold roundHalfEven
  simp only
  rw [hx]
  split_ifs with h1 h2
  · have : (d : ℚ) < 2 * ((n % d : Nat) : ℚ) := by exact_mod_cast h1
    push_cast
    rw [abs_le]
    constructor
    · have : ((n % d : Nat) : ℚ) / d ≤ 1 := by rw [div_le_one hdq]; exact le_of_lt hr
      linarith
    · have : (1 : ℚ) / 2 ≤ ((n % d : Nat) : ℚ) / d := by
        rw [le_div_iff₀ hdq]; linarith
      linarith
  · have : (2 : ℚ) * ((n % d : Nat) : ℚ) = d := by exact_mod_cast h2.1
    have e : ((n % d : Nat) : ℚ) / d = 1 / 2 := by
      rw [div_eq_iff (ne_of_gt hdq)]; linarith
    push_cast
    rw [e, abs_le]
    constructor <;> linarith
  · have : (2 : ℚ) * ((n % d : Nat) : ℚ) ≤ d := by
      have : 2 * (n % d) ≤ d := by omega
      exact_mod_cast this
    have e : ((n % d : Nat) : ℚ) / d ≤ 1 / 2 := by
      rw [div_le_iff₀ hdq]; linarith
    have e0 : 0 ≤ ((n % d : Nat) : ℚ) / d := by positivity
    rw [abs_le]
    constructor <;> linarith

/-- The unit in the last place is at most `2 ^ -52` of the value, or the
smallest subnormal. -/
theorem ulpExp_bound (num den : Nat) (hnum : 0 < num) (hden : 0 < den) :
    (2 : ℚ) ^ ulpExp num den ≤ (num : ℚ) / den / 2 ^ 52 + 1 / 2 ^ 1074 := by
  have hx : (0 : ℚ) ≤ (num : ℚ) / den := by positivity
  have hfl := floorLog2_le num den hnum hden
  unfold ulpExp
  rcases le_total (floorLog2 num den - 52) (-1074) with h | h
  · rw [max_eq_right h]
    have e : (2 : ℚ) ^ (-1074 : Int) = 1 / 2 ^ 1074 := by
      rw [show (-1074 : Int) = -((1074 : Nat) : Int) by norm_num, zpow_neg, zpow_natCast, one_div]
    rw [e]
    have : (0 : ℚ) ≤ (num : ℚ) / den / 2 ^ 52 := by positivity
    linarith
  · rw [max_eq_left h]
    have e : (2 : ℚ) ^ (floorLog2 num den - 52) = (2 : ℚ) ^ floorLog2 num den / 2 ^ 52 := by
      rw [zpow_sub₀ (by norm_num)]
      norm_num
    rw [e]
    have h1 : (2 : ℚ) ^ floorLog2 num den / 2 ^ 52 ≤ (num : ℚ) / den / 2 ^ 52 :=
      div_le_div_of_nonneg_right hfl (by positivity)
    have : (0 : ℚ) ≤ 1 / 2 ^ 1074 := by positivity
    linarith

/-- The binary64 nearest to `num / den` lies within half a unit in the last
place of it: within `2 ^ -53` of the value, relatively, and `2 ^ -1075` more
in the subnormal range. -/
theorem roundF64_near (num den : Nat) (hden : 0 < den) (q : ℚ)
    (h : roundF64 num den = .fin q) :
    |q - (num : ℚ) / den| ≤ (num : ℚ) / den / 2 ^ 53 + 1 / 2 ^ 1075 := by
  have hd : (0 : ℚ) < den := by exact_mod_cast hden
  by_cases hnum : num = 0
  · subst hnum
    simp only [roundF64, if_true, F64.fin.injEq] at h
    subst h
    simp
  have hnum' : 0 < num := Nat.pos_of_ne_zero hnum
  have he := ulpExp_bound num den hnum' hden
  have hhalf : (2 : ℚ) ^ ulpExp num den / 2 ≤ (num : ℚ) / den / 2 ^ 53 + 1 / 2 ^ 1075 := by
    have e1 : (num : ℚ) / den / 2 ^ 53 = (num : ℚ) / den / 2 ^ 52 / 2 := by
      rw [pow_succ, ← div_div]
    have e2 : (1 : ℚ) / 2 ^ 1075 = 1 / 2 ^ 1074 / 2 := by
      rw [pow_succ, ← div_div]
    rw [e1, e2]
    linarith
  refine le_trans ?_ hhalf
  unfold roundF64 at h
  rw [if_neg hnum] at h
  generalize ulpExp num den = e at *
  cases e with
  | ofNat k =>
    simp only at h
    split_ifs at h
    simp only [F64.fin.injEq] at h
    subst h
    have hk : (0 : ℚ) < 2 ^ k := by positivity
    have hr := roundHalfEven_near num (den * 2 ^ k) (by positivity)
    rw [Rat.mkRat_one]
    simp only [Int.ofNat_eq_coe, zpow_natCast]
    push_cast at hr ⊢
    have e : ((roundHalfEven num (den * 2 ^ k) : Nat) : ℚ) * 2 ^ k - (num : ℚ) / den =
        (((roundHalfEven num (den * 2 ^ k) : Nat) : ℚ) - (num : ℚ) / (den * 2 ^ k)) * 2 ^ k := by
      field_simp
      ring
    rw [e, abs_mul, abs_of_pos hk]
    calc |((roundHalfEven num (den * 2 ^ k) : Nat) : ℚ) - (num : ℚ) / (den * 2 ^ k)| * 2 ^ k
        ≤ 1 / 2 * 2 ^ k := mul_le_mul_of_nonneg_right hr (le_of_lt hk)
      _ = 2 ^ k / 2 := by ring
  | negSucc k =>
    simp only [F64.fin.injEq] at h
    subst h
    have hk : (0 : ℚ) < 2 ^ (k + 1) := by positivity
    have hr := roundHalfEven_near (num * 2 ^ (k + 1)) den hden
    rw [Rat.mkRat_eq_div]
    simp only [zpow_negSucc]
    push_cast at hr ⊢
    have e : ((roundHalfEven (num * 2 ^ (k + 1)) den : Nat) : ℚ) / 2 ^ (k + 1) - (num : ℚ) / den =
        (((roundHalfEven (num * 2 ^ (k + 1)) den : Nat) : ℚ) - (num : ℚ) * 2 ^ (k + 1) / den) /
          2 ^ (k + 1) := by
      field_simp
      ring
    rw [e, abs_div, abs_of_pos hk]
    calc |((roundHalfEven (num * 2 ^ (k + 1)) den : Nat) : ℚ) - (num : ℚ) * 2 ^ (k + 1) / den| /
          2 ^ (k + 1) ≤ 1 / 2 / 2 ^ (k + 1) := div_le_div_of_nonneg_right hr (le_of_lt hk)
      _ = (2 ^ (k + 1))⁻¹ / 2 := by field_simp; ring

theorem decimalValue_eq (ip fp : Str) :
    decimalValue ip fp = ((digitsVal (ip ++ fp) : Nat) : ℚ) / ((10 ^ fp.length : Nat) : ℚ) := by
  unfold decimalValue; push_cast; rfl

/-- Go `kHz * 1000` on a finite `kHz` that is not negative: the binary64
nearest to the exact product. -/
theorem mul_1000_eq (k : ℚ) (hk : 0 ≤ k) :
    F64.mul (.fin k) (.fin 1000) = roundF64 (k.num.toNat * 1000) k.den ∧
    (((k.num.toNat * 1000 : Nat) : ℚ) / ((k.den : Nat) : ℚ)) = 1000 * k := by
  constructor
  · show roundF64 (k.num.toNat * (1000 : ℚ).num.toNat) (k.den * (1000 : ℚ).den) = _
    have e1 : (1000 : ℚ).num.toNat = 1000 := rfl
    have e2 : (1000 : ℚ).den = 1 := rfl
    rw [e1, e2, Nat.mul_one]
  · have hnum : ((k.num.toNat : Nat) : ℚ) = k.num := by
      have : 0 ≤ k.num := Rat.num_nonneg.2 hk
      have h3 : ((k.num.toNat : Int)) = k.num := Int.toNat_of_nonneg this
      exact_mod_cast congrArg (fun z : Int => (z : ℚ)) h3
    push_cast
    rw [hnum]
    have := Rat.num_div_den k
    rw [show (1000 : ℚ) * k = 1000 * ((k.num : ℚ) / (k.den : ℚ)) by rw [this]]
    ring

/-- Function `parseDXFrequency` on a field `ip.fp` of decimal digits. -/
theorem parseDXFrequency_eq (ip fp : Str) (hip : ip ≠ [])
    (h1 : ∀ c ∈ ip, digit c = true) (h2 : ∀ c ∈ fp, digit c = true) :
    parseDXFrequency (ip ++ '.' :: fp) =
      match roundF64 (digitsVal (ip ++ fp)) (10 ^ fp.length) with
      | .fin kHz => .ok (F64.mul (.fin kHz) (.fin 1000))
      | _ => .error "value out of range" := by
  unfold parseDXFrequency ParseFloat
  rw [readDecimal_field ip fp hip h1 h2]
  simp only
  cases roundF64 (digitsVal (ip ++ fp)) (10 ^ fp.length) <;> rfl

/-- The error of two roundings, of `v` and of the thousandfold of the result. -/
theorem double_rounding (v k q : ℚ) (hv : 0 ≤ v)
    (hk : |k - v| ≤ v / 2 ^ 53 + 1 / 2 ^ 1075)
    (hq : |q - 1000 * k| ≤ 1000 * k / 2 ^ 53 + 1 / 2 ^ 1075) :
    |q - 1000 * v| ≤ 1000 * v / 2 ^ 51 + 1 / 2 ^ 1064 := by
  have ea : (1000 : ℚ) * v / 2 ^ 51 = 4000 * (v * (1 / 2 ^ 53)) := by
    rw [show (2 : ℚ) ^ 53 = 2 ^ 51 * 4 by rw [show (53 : Nat) = 51 + 2 by rfl, pow_add]; norm_num]
    field_simp
    ring
  have eb : (1 : ℚ) / 2 ^ 1064 = 2048 * (1 / 2 ^ 1075) := by
    rw [show (2 : ℚ) ^ 1075 = 2 ^ 1064 * 2048 by
      rw [show (1075 : Nat) = 1064 + 11 by rfl, pow_add]; norm_num]
    field_simp
  have e1 : v / 2 ^ 53 = v * (1 / 2 ^ 53) := by ring
  have e2 : 1000 * k / 2 ^ 53 = 1000 * (k * (1 / 2 ^ 53)) := by ring
  rw [ea, eb]
  rw [e1] at hk
  rw [e2] at hq
  have ha0 : (0 : ℚ) < 1 / 2 ^ 53 := by positivity
  have ha1 : (1 : ℚ) / 2 ^ 53 ≤ 1 := by
    rw [div_le_one (by positivity)]
    exact one_le_pow₀ (by norm_num)
  have hb0 : (0 : ℚ) < 1 / 2 ^ 1075 := by positivity
  generalize (1 : ℚ) / 2 ^ 53 = a at *
  generalize (1 : ℚ) / 2 ^ 1075 = b at *
  rw [abs_le] at hk hq ⊢
  have hk1 : k ≤ v + v * a + b := by linarith
  have hka : k * a ≤ (v + v * a + b) * a := mul_le_mul_of_nonneg_right hk1 (le_of_lt ha0)
  have hva : 0 ≤ v * a := mul_nonneg hv (le_of_lt ha0)
  have h3 : v * a * a ≤ v * a := by
    have := mul_le_mul_of_nonneg_left ha1 hva
    linarith
  have h4 : b * a ≤ b := by
    have := mul_le_mul_of_nonneg_left ha1 (le_of_lt hb0)
    linarith
  have hk2 : -(v * a + b) ≤ k - v := hk.1
  have hk0 : v - v * a - b ≤ k := by linarith
  constructor
  · -- q ≥ 1000 k - 1000 k a - b and k ≥ v - v a - b
    have : k * a ≤ v * a + v * a + b := by nlinarith
    nlinarith
  · have : k * a ≤ v * a + v * a + b := by nlinarith
    nlinarith

/-- Claim C10, as amended: for a frequency field `ip.fp` of decimal digits
with the value `v`: when the binary64 nearest to `v` is `+Inf`,
`parseDXFrequency` returns an error; otherwise it returns the binary64 product
of that number and 1000, and that number lies within `v / 2^53 + 2^-1075` of
`v`.  What it returns is never negative (a finite value that is not negative,
or `+Inf`); a finite result lies within `1000 v / 2^51 + 2^-1064` of `1000 v`;
and the result is exactly `1000 v` whenever `v` and `1000 v` are both binary64
numbers. -/
theorem parseDXFrequency_field (ip fp : Str) (hip : ip ≠ [])
    (h1 : ∀ c ∈ ip, digit c = true) (h2 : ∀ c ∈ fp, digit c = true) :
    (roundF64 (digitsVal (ip ++ fp)) (10 ^ fp.length) = .inf →
      parseDXFrequency (ip ++ '.' :: fp) = .error "value out of range") ∧
    (∀ kHz, roundF64 (digitsVal (ip ++ fp)) (10 ^ fp.length) = .fin kHz →
      parseDXFrequency (ip ++ '.' :: fp) = .ok (F64.mul (.fin kHz) (.fin 1000)) ∧
      |kHz - decimalValue ip fp| ≤ decimalValue ip fp / 2 ^ 53 + 1 / 2 ^ 1075) ∧
    (∀ f, parseDXFrequency (ip ++ '.' :: fp) = .ok f → f = .inf ∨ ∃ q, f = .fin q ∧ 0 ≤ q) ∧
    (∀ q, parseDXFrequency (ip ++ '.' :: fp) = .ok (.fin q) →
      |q - 1000 * decimalValue ip fp| ≤ 1000 * decimalValue ip fp / 2 ^ 51 + 1 / 2 ^ 1064) ∧
    (IsBinary64 (decimalValue ip fp) → IsBinary64 (1000 * decimalValue ip fp) →
      parseDXFrequency (ip ++ '.' :: fp) = .ok (.fin (1000 * decimalValue ip fp))) := by
  have hten : 0 < 10 ^ fp.length := by positivity
  have hv := decimalValue_eq ip fp
  have hnn : 0 ≤ decimalValue ip fp := by unfold decimalValue; positivity
  have heq := parseDXFrequency_eq ip fp hip h1 h2
  have hnear : ∀ kHz, roundF64 (digitsVal (ip ++ fp)) (10 ^ fp.length) = .fin kHz →
      |kHz - decimalValue ip fp| ≤ decimalValue ip fp / 2 ^ 53 + 1 / 2 ^ 1075 := by
    intro kHz hk
    rw [hv]
    exact roundF64_near _ _ hten kHz hk
  refine ⟨?_, ?_, fun f h => parseDXFrequency_nonneg _ f h, ?_, ?_⟩
  · intro h
    rw [heq, h]
  · intro kHz hk
    refine ⟨by rw [heq, hk], hnear kHz hk⟩
  · intro q hq
    rw [heq] at hq
    cases hk : roundF64 (digitsVal (ip ++ fp)) (10 ^ fp.length) with
    | fin kHz =>
      rw [hk] at hq
      simp only [Except.ok.injEq] at hq
      have hk0 : 0 ≤ kHz := by
        rcases roundF64_nonneg (digitsVal (ip ++ fp)) (10 ^ fp.length) with h | ⟨q1, h, h0⟩
        · rw [hk] at h; cases h
        · rw [hk] at h; cases h; exact h0
      obtain ⟨em, ev⟩ := mul_1000_eq kHz hk0
      rw [em] at hq
      have h2 := roundF64_near _ _ (Rat.den_pos kHz) q hq
      rw [ev] at h2
      exact double_rounding _ kHz q hnn (hnear kHz hk) h2
    | inf => rw [hk] at hq; cases hq
    | nan => rw [hk] at hq; cases hq
  · intro hb1 hb2
    have hr : roundF64 (digitsVal (ip ++ fp)) (10 ^ fp.length) = .fin (decimalValue ip fp) := by
      rw [hv]; apply roundF64_exact _ _ hten; rw [← hv]; exact hb1
    rw [heq, hr]
    simp only
    obtain ⟨em, ev⟩ := mul_1000_eq _ hnn
    rw [em]
    have := roundF64_exact ((decimalValue ip fp).num.toNat * 1000) (decimalValue ip fp).den
      (Rat.den_pos _) (by rw [ev]; exact hb2)
    rw [this, ev]

/-- Witness of C10 (amended), with the two fields of the claim: "7154.0" gives
exactly 7154000 by the theorem, and "14040.1", which is no binary64 number,
evaluates to 14040100 all the same. -/
theorem parseDXFrequency_field_witness :
    parseDXFrequency "7154.0".toList =
      .ok (.fin (1000 * decimalValue "7154".toList "0".toList)) ∧
    1000 * decimalValue "7154".toList "0".toList = 7154000 ∧
    parseDXFrequency "14040.1".toList = .ok (.fin 14040100) :=
  have hv : decimalValue "7154".toList "0".toList = 7154 := by
    unfold decimalValue
    rw [show digitsVal ("7154".toList ++ "0".toList) = 71540 by decide,
      show "0".toList.length = 1 by decide]
    norm_num
  ⟨(parseDXFrequency_field "7154".toList "0".toList (by decide) (by decide) (by decide)).2.2.2.2
      ⟨7154, 0, by norm_num, by norm_num, by norm_num, by rw [hv]; norm_num⟩
      ⟨7154000, 0, by norm_num, by norm_num, by norm_num, by rw [hv]; norm_num⟩,
    by rw [hv]; norm_num, by decide⟩

/-- Counterexample to C10 as stated: the field "1.001" gives
8804889115230207 / 2^43 Hz, that is 1000.9999999999999, not 1001. -/
theorem parseDXFrequency_1_001 :
    parseDXFrequency "1.001".toList = .ok (.fin (mkRat 8804889115230207 8796093022208)) ∧
    mkRat 8804889115230207 8796093022208 ≠ 1000 * decimalValue "1".toList "001".toList := by
  refine ⟨by decide, ?_⟩
  have hv : decimalValue "1".toList "001".toList = 1001 / 1000 := by
    unfold decimalValue
    rw [show digitsVal ("1".toList ++ "001".toList) = 1001 by decide,
      show "001".toList.length = 3 by decide]
    norm_num
  rw [hv, Rat.mkRat_eq_div]
  norm_num

/-! ## A single spot line -/
theorem dx_eq : dxMessageExpression = .seq (Re.str "dx de ".toList) tailSpotter := rfl

theorem plusRun_none (p : Char → Bool) (k : Cont) (caps : Caps) :
    ∀ (cs : Str) (pos : Nat),
      (∀ a b, cs = a ++ b → a ≠ [] → (∀ c ∈ a, p c = true) →
        k (pos + a.length) b caps = none) →
      plusRun p k pos cs caps = none := by
  intro cs
  induction cs with
  | nil => intro pos _; rfl
  | cons c cs ih =>
    intro pos h
    unfold plusRun
    by_cases hp : p c = true
    · rw [if_pos hp]
      have h1 : plusRun p k (pos + 1) cs caps = none := by
        apply ih
        intro a b hab ha hall
        have := h (c :: a) b (by rw [hab]; rfl) (by simp) (by
          intro x hx
          rcases List.mem_cons.1 hx with rfl | hx
          · exact hp
          · exact hall x hx)
        simpa [Nat.add_assoc, Nat.add_comm 1] using this
      rw [h1]
      have := h [c] cs rfl (by simp) (by simpa using hp)
      simpa using this
    · rw [if_neg hp]

theorem plusRun_split (p : Char → Bool) (k : Cont) (caps : Caps) (r : Nat × Caps) (rest : Str) :
    ∀ (pre : Str) (pos : Nat), pre ≠ [] → (∀ c ∈ pre, p c = true) →
      k (pos + pre.length) rest caps = some r →
      (∀ a b, rest = a ++ b → a ≠ [] → (∀ c ∈ a, p c = true) →
        k (pos + pre.length + a.length) b caps = none) →
      plusRun p k pos (pre ++ rest) caps = some r := by
  intro pre
  induction pre with
  | nil => intro pos h; exact absurd rfl h
  | cons c pre ih =>
    intro pos _ hall hk hfail
    have hc : p c = true := hall c (List.mem_cons_self _ _)
    rw [List.cons_append]
    unfold plusRun
    rw [if_pos hc]
    by_cases hpre : pre = []
    · subst hpre
      have h1 : plusRun p k (pos + 1) rest caps = none := by
        apply plusRun_none
        intro a b hab ha hall2
        have := hfail a b hab ha hall2
        simpa using this
      simp only [List.nil_append, h1]
      simpa using hk
    · have h1 : plusRun p k (pos + 1) (pre ++ rest) caps = some r := by
        apply ih (pos + 1) hpre (fun x hx => hall x (List.mem_cons_of_mem _ hx))
        · simpa [Nat.add_assoc, Nat.add_comm 1] using hk
        · intro a b hab ha hall2
          have := hfail a b hab ha hall2
          simpa [Nat.add_assoc, Nat.add_comm 1] using this
      rw [h1]

theorem plusRun_max (p : Char → Bool) (k : Cont) (caps : Caps) (r : Nat × Caps) (rest : Str)
    (pre : Str) (pos : Nat) (hpre : IsRun p pre) (hrest : NotHead p rest)
    (hk : k (pos + pre.length) rest caps = some r) :
    plusRun p k pos (pre ++ rest) caps = some r := by
  apply plusRun_split p k caps r rest pre pos hpre.1 hpre.2 hk
  intro a b hab ha hall
  exfalso
  cases a with
  | nil => exact ha rfl
  | cons x a =>
    have hx : p x = true := hall x (List.mem_cons_self _ _)
    have : p x = false := hrest x (by rw [hab]; simp)
    rw [hx] at this
    exact Bool.noConfusion this

theorem char_eq_iff (c d : Char) : c = d ↔ c.toNat = d.toNat := by
  constructor
  · intro h; rw [h]
  · intro h
    apply Char.ext
    apply UInt32.ext
    exact h

theorem char_le_iff (c d : Char) : c ≤ d ↔ c.toNat ≤ d.toNat := Iff.rfl

theorem digit_iff (c : Char) : digit c = true ↔ 48 ≤ c.toNat ∧ c.toNat ≤ 57 := by
  simp only [digit, Bool.and_eq_true, decide_eq_true_eq, char_le_iff]
  rfl

theorem lowerAZ_iff (c : Char) : lowerAZ c = true ↔ 97 ≤ c.toNat ∧ c.toNat ≤ 122 := by
  simp only [lowerAZ, Bool.and_eq_true, decide_eq_true_eq, char_le_iff]
  rfl

theorem ws_iff (c : Char) : ws c = true ↔
    c.toNat = 9 ∨ c.toNat = 10 ∨ c.toNat = 12 ∨ c.toNat = 13 ∨ c.toNat = 32 := by
  simp only [ws, Bool.or_eq_true, beq_iff_eq, char_eq_iff]
  have e1 : '\t'.toNat = 9 := rfl
  have e2 : '\n'.toNat = 10 := rfl
  have e3 : (Char.ofNat 12).toNat = 12 := rfl
  have e4 : '\r'.toNat = 13 := rfl
  have e5 : ' '.toNat = 32 := rfl
  rw [e1, e2, e3, e4, e5]
  tauto

theorem dot_iff (c : Char) : dot c = true ↔ c.toNat ≠ 10 := by
  simp only [dot, bne_iff_ne, ne_eq, char_eq_iff]
  rfl

theorem callChar_iff (c : Char) : callChar c = true ↔
    (48 ≤ c.toNat ∧ c.toNat ≤ 57) ∨ (97 ≤ c.toNat ∧ c.toNat ≤ 122) ∨ c.toNat = 47 := by
  simp only [callChar, Bool.or_eq_true, digit_iff, lowerAZ_iff, beq_iff_eq, char_eq_iff]
  have e1 : '/'.toNat = 47 := rfl
  rw [e1]
  tauto

theorem isSpace_iff (c : Char) : isSpace c = true ↔
    ((9 ≤ c.toNat ∧ c.toNat ≤ 13) ∨ c.toNat = 32 ∨ c.toNat = 0x85 ∨ c.toNat = 0xA0 ∨
      c.toNat = 0x1680 ∨ (0x2000 ≤ c.toNat ∧ c.toNat ≤ 0x200A) ∨ c.toNat = 0x2028 ∨
      c.toNat = 0x2029 ∨ c.toNat = 0x202F ∨ c.toNat = 0x205F ∨ c.toNat = 0x3000) := by
  simp only [isSpace, Bool.or_eq_true, Bool.and_eq_true, decide_eq_true_eq, beq_iff_eq]
  tauto

theorem ws_isSpace (c : Char) (h : ws c = true) : isSpace c = true := by
  rw [ws_iff] at h; rw [isSpace_iff]; omega

theorem digit_not_ws (c : Char) (h : digit c = true) : ws c = false := by
  rw [digit_iff] at h
  rw [← Bool.not_eq_true, ws_iff]; omega

theorem digit_not_colon (c : Char) (h : digit c = true) : c ≠ ':' := by
  rw [digit_iff] at h; rw [ne_eq, char_eq_iff]
  have : ':'.toNat = 58 := rfl
  omega

theorem lowerAZ_not_digit (c : Char) (h : lowerAZ c = true) : digit c = false := by
  rw [lowerAZ_iff] at h
  rw [← Bool.not_eq_true, digit_iff]; omega

theorem lowerAZ_not_ws (c : Char) (h : lowerAZ c = true) : ws c = false := by
  rw [lowerAZ_iff] at h
  rw [← Bool.not_eq_true, ws_iff]; omega

theorem callChar_not_ws (c : Char) (h : callChar c = true) : ws c = false := by
  rw [callChar_iff] at h
  rw [← Bool.not_eq_true, ws_iff]; omega

theorem ws_not_callChar (c : Char) (h : ws c = true) : callChar c = false := by
  rw [ws_iff] at h
  rw [← Bool.not_eq_true, callChar_iff]; omega

theorem ws_not_digit (c : Char) (h : ws c = true) : digit c = false := by
  rw [ws_iff] at h
  rw [← Bool.not_eq_true, digit_iff]; omega

/-! ### The stages of the pattern -/
theorem run_tailLocator_some (k : Cont) (pos : Nat) (a b c d : Char) (rest : Str) (caps : Caps)
    (r : Nat × Caps) (ha : lowerAZ a = true) (hb : lowerAZ b = true) (hc : digit c = true)
    (hd : digit d = true)
    (hk : k (pos + 5) rest (caps.set 6 (some (pos, pos + 5))) = some r) :
    tailLocator.run k pos (' ' :: a :: b :: c :: d :: rest) caps = some r := by
  simp [tailLocator, Re.run, Re.times, ha, hb, hc, hd, hk]

theorem run_tailLocator_nil (k : Cont) (pos : Nat) (caps : Caps) :
    tailLocator.run k pos [] caps = k pos [] caps := by
  simp [tailLocator, Re.run]

theorem run_tailTime (k : Cont) (pos : Nat) (h1 h2 h3 h4 : Char) (t : Str) (caps : Caps)
    (d1 : digit h1 = true) (d2 : digit h2 = true) (d3 : digit h3 = true) (d4 : digit h4 = true) :
    tailTime.run k pos (h1 :: h2 :: h3 :: h4 :: 'z' :: t) caps =
      tailLocator.run k (pos + 5) t (caps.set 5 (some (pos, pos + 4))) := by
  simp [tailTime, tailZ, Re.run, Re.times, d1, d2, d3, d4]

theorem run_tailWs4 (k : Cont) (pos : Nat) (w t : Str) (caps : Caps) (r : Nat × Caps)
    (hw : IsRun ws w) (ht : NotHead ws t)
    (hk : tailTime.run k (pos + w.length) t caps = some r) :
    tailWs4.run k pos (w ++ t) caps = some r :=
  plusRun_max ws (fun p1 c1 cp1 => tailTime.run k p1 c1 cp1) caps r t w pos hw ht hk

theorem run_tailComment (k : Cont) (pos : Nat) (pre t : Str) (caps : Caps) (r : Nat × Caps)
    (hpre : IsRun dot pre)
    (hk : tailWs4.run k (pos + pre.length) t (caps.set 4 (some (pos, pos + pre.length))) = some r)
    (hfail : ∀ a b, t = a ++ b → a ≠ [] → (∀ c ∈ a, dot c = true) →
      ∀ p1 caps1, tailWs4.run k p1 b caps1 = none) :
    tailComment.run k pos (pre ++ t) caps = some r :=
  plusRun_split dot (fun p1 c1 cp1 => tailWs4.run k p1 c1 (cp1.set 4 (some (pos, p1)))) caps r t
    pre pos hpre.1 hpre.2 hk (fun a b hab ha hd => hfail a b hab ha hd _ _)

theorem run_tailWs3 (k : Cont) (pos : Nat) (w t : Str) (caps : Caps) (r : Nat × Caps)
    (hw : IsRun ws w) (ht : NotHead ws t)
    (hk : tailComment.run k (pos + w.length) t caps = some r) :
    tailWs3.run k pos (w ++ t) caps = some r :=
  plusRun_max ws (fun p1 c1 cp1 => tailComment.run k p1 c1 cp1) caps r t w pos hw ht hk

theorem run_tailCall (k : Cont) (pos : Nat) (call t : Str) (caps : Caps) (r : Nat × Caps)
    (hcall : IsRun callChar call) (ht : NotHead callChar t)
    (hk : tailWs3.run k (pos + call.length) t (caps.set 3 (some (pos, pos + call.length))) = some r) :
    tailCall.run k pos (call ++ t) caps = some r :=
  plusRun_max callChar (fun p1 c1 cp1 => tailWs3.run k p1 c1 (cp1.set 3 (some (pos, p1)))) caps r t
    call pos hcall ht hk

theorem run_tailWs2 (k : Cont) (pos : Nat) (w t : Str) (caps : Caps) (r : Nat × Caps)
    (hw : IsRun ws w) (ht : NotHead ws t)
    (hk : tailCall.run k (pos + w.length) t caps = some r) :
    tailWs2.run k pos (w ++ t) caps = some r :=
  plusRun_max ws (fun p1 c1 cp1 => tailCall.run k p1 c1 cp1) caps r t w pos hw ht hk

theorem run_tailFreq (k : Cont) (pos : Nat) (ip fp t : Str) (caps : Caps) (r : Nat × Caps)
    (hip : IsRun digit ip) (hfp : IsRun digit fp) (ht : NotHead digit t)
    (hk : tailWs2.run k (pos + ip.length + 1 + fp.length) t
      (caps.set 2 (some (pos, pos + ip.length + 1 + fp.length))) = some r) :
    tailFreq.run k pos (ip ++ '.' :: (fp ++ t)) caps = some r := by
  show plusRun digit (fun p1 c1 cp1 =>
      (Re.seq (.chr '.') (.plus digit)).run
        (fun p2 c2 cp2 => tailWs2.run k p2 c2 (cp2.set 2 (some (pos, p2)))) p1 c1 cp1)
      pos (ip ++ '.' :: (fp ++ t)) caps = some r
  apply plusRun_max digit _ caps r _ ip pos hip
  · intro c hc
    simp only [List.head?_cons, Option.mem_def, Option.some.injEq] at hc
    subst hc
    exact digit_dot
  · show (if '.' = '.' then plusRun digit
        (fun p2 c2 cp2 => tailWs2.run k p2 c2 (cp2.set 2 (some (pos, p2))))
        (pos + ip.length + 1) (fp ++ t) caps else none) = some r
    rw [if_pos rfl]
    exact plusRun_max digit _ caps r t fp _ hfp ht hk

theorem run_tailWs1 (k : Cont) (pos : Nat) (w t : Str) (caps : Caps) (r : Nat × Caps)
    (hw : IsRun ws w) (ht : NotHead ws t)
    (hk : tailFreq.run k (pos + w.length) t caps = some r) :
    tailWs1.run k pos (w ++ t) caps = some r :=
  plusRun_max ws (fun p1 c1 cp1 => tailFreq.run k p1 c1 cp1) caps r t w pos hw ht hk

theorem run_tailColon (k : Cont) (pos : Nat) (t : Str) (caps : Caps) :
    tailColon.run k pos (':' :: t) caps = tailWs1.run k (pos + 1) t caps := by
  simp [tailColon, Re.run]

theorem run_tailColon_none (k : Cont) (pos : Nat) (b : Str) (caps : Caps)
    (h : ∀ c ∈ b, c ≠ ':') : tailColon.run k pos b caps = none := by
  cases b with
  | nil => simp [tailColon, Re.run]
  | cons c b =>
    have := h c (List.mem_cons_self _ _)
    simp [tailColon, Re.run, this]

theorem suffix_of_cons_eq_append {x : Char} {l a b : Str} (h : x :: l = a ++ b) (ha : a ≠ []) :
    b <:+ l := by
  cases a with
  | nil => exact absurd rfl ha
  | cons y a =>
    simp only [List.cons_append, List.cons.injEq] at h
    exact ⟨a, h.2.symm⟩

/-- Whether `p+` followed by `k` matches depends on `k` only through whether
`k` matches. -/
theorem plusRun_isSome (p : Char → Bool) (k k1 : Cont)
    (h : ∀ pos pos1 cs caps caps1, (k pos cs caps).isSome = (k1 pos1 cs caps1).isSome) :
    ∀ (cs : Str) (pos pos1 : Nat) (caps caps1 : Caps),
      (plusRun p k pos cs caps).isSome = (plusRun p k1 pos1 cs caps1).isSome := by
  intro cs
  induction cs with
  | nil => intro pos pos1 caps caps1; rfl
  | cons c cs ih =>
    intro pos pos1 caps caps1
    unfold plusRun
    by_cases hc : p c = true
    · rw [if_pos hc, if_pos hc]
      have h1 := ih (pos + 1) (pos1 + 1) caps caps1
      have h2 := h (pos + 1) (pos1 + 1) cs caps caps1
      cases ha : plusRun p k (pos + 1) cs caps <;> cases hb : plusRun p k1 (pos1 + 1) cs caps1 <;>
        simp_all
    · rw [if_neg hc, if_neg hc]

/-- Whether a pattern matches does not depend on the offset and the slots it
starts with, nor on what the continuation does with them. -/
theorem run_isSome (r : Re) : ∀ (k k1 : Cont),
    (∀ pos pos1 cs caps caps1, (k pos cs caps).isSome = (k1 pos1 cs caps1).isSome) →
    ∀ pos pos1 cs caps caps1, (r.run k pos cs caps).isSome = (r.run k1 pos1 cs caps1).isSome := by
  induction r with
  | eps => intro k k1 h pos pos1 cs caps caps1; exact h _ _ _ _ _
  | chr c =>
    intro k k1 h pos pos1 cs caps caps1
    cases cs with
    | nil => rfl
    | cons d ds =>
      simp only [Re.run]
      split_ifs
      · exact h _ _ _ _ _
      · rfl
  | cls p =>
    intro k k1 h pos pos1 cs caps caps1
    cases cs with
    | nil => rfl
    | cons d ds =>
      simp only [Re.run]
      split_ifs
      · exact h _ _ _ _ _
      · rfl
  | seq a b iha ihb =>
    intro k k1 h pos pos1 cs caps caps1
    simp only [Re.run]
    exact iha _ _ (ihb k k1 h) _ _ _ _ _
  | plus p =>
    intro k k1 h pos pos1 cs caps caps1
    exact plusRun_isSome p k k1 h cs pos pos1 caps caps1
  | opt r ih =>
    intro k k1 h pos pos1 cs caps caps1
    simp only [Re.run]
    have h1 := ih k k1 h pos pos1 cs caps caps1
    have h2 := h pos pos1 cs caps caps1
    cases ha : r.run k pos cs caps with
    | none =>
      cases hb : r.run k1 pos1 cs caps1 with
      | none => exact h2
      | some y => rw [ha, hb] at h1; cases h1
    | some x =>
      cases hb : r.run k1 pos1 cs caps1 with
      | none => rw [ha, hb] at h1; cases h1
      | some y => rfl
  | grp i r ih =>
    intro k k1 h pos pos1 cs caps caps1
    simp only [Re.run]
    exact ih (fun p2 cs2 caps2 => k p2 cs2 (caps2.set i (some (pos, p2))))
      (fun p2 cs2 caps2 => k1 p2 cs2 (caps2.set i (some (pos1, p2))))
      (fun _ _ _ _ _ => h _ _ _ _ _) _ _ _ _ _

/-- Where `restMatches` is false, the pattern from the white space after the
colon on fails, whatever the offset, the slots and the continuation. -/
theorem tailWs1_none (k : Cont) (hk : ∀ pos cs caps, (k pos cs caps).isSome = true)
    (b : Str) (hb : restMatches b = false) (pos : Nat) (caps : Caps) :
    tailWs1.run k pos b caps = none := by
  have := run_isSome tailWs1 k (fun e _ caps => some (e, caps))
    (fun pos pos1 cs caps caps1 => by rw [hk]; rfl) pos 0 b caps (List.replicate 7 none)
  unfold restMatches at hb
  rw [hb] at this
  cases h : tailWs1.run k pos b caps with
  | none => rfl
  | some x => rw [h] at this; cases this

/-- What `colonsBenign` checks, colon by colon. -/
theorem colons_benign (comment rest : Str) (h : colonsBenign comment rest = true) :
    ∀ a b, comment = a ++ ':' :: b → restMatches (b ++ rest) = false := by
  induction comment with
  | nil => intro a b hab; cases a <;> cases hab
  | cons c t ih =>
    intro a b hab
    simp only [colonsBenign, Bool.and_eq_true, Bool.or_eq_true, bne_iff_ne, ne_eq,
      Bool.not_eq_true'] at h
    cases a with
    | nil =>
      simp only [List.nil_append, List.cons.injEq] at hab
      obtain ⟨rfl, rfl⟩ := hab
      rcases h.1 with h1 | h1
      · exact absurd rfl h1
      · exact h1
    | cons x a =>
      simp only [List.cons_append, List.cons.injEq] at hab
      exact ih h.2 a b hab.2

/-- A character that occurs neither in `P` nor in `Z` occurs in `P ++ C ++ Z`
only inside `C`. -/
theorem split_at (P C Z a b : Str) (x : Char) (hP : x ∉ P) (hZ : x ∉ Z)
    (h : P ++ (C ++ Z) = a ++ x :: b) :
    ∃ a1 b1, C = a1 ++ x :: b1 ∧ b = b1 ++ Z ∧ a = P ++ a1 := by
  have key : ∀ m, C ++ Z = m ++ x :: b → ∃ b1, C = m ++ x :: b1 ∧ b = b1 ++ Z := by
    intro m hm
    rcases List.append_eq_append_iff.1 hm with ⟨n, hn1, hn2⟩ | ⟨n, hn1, hn2⟩
    · exfalso; apply hZ; rw [hn2]; simp
    · cases n with
      | nil =>
        exfalso; apply hZ
        simp only [List.nil_append] at hn2
        rw [← hn2]; simp
      | cons y n =>
        simp only [List.cons_append, List.cons.injEq] at hn2
        obtain ⟨rfl, rfl⟩ := hn2
        exact ⟨n, hn1, rfl⟩
  rcases List.append_eq_append_iff.1 h with ⟨m, hm1, hm2⟩ | ⟨m, hm1, hm2⟩
  · obtain ⟨b1, h1, h2⟩ := key m hm2
    exact ⟨m, b1, h1, h2, hm1⟩
  · cases m with
    | nil =>
      simp only [List.nil_append] at hm2
      obtain ⟨b1, h1, h2⟩ := key [] hm2.symm
      exact ⟨[], b1, h1, h2, by simpa using hm1.symm⟩
    | cons y m =>
      simp only [List.cons_append, List.cons.injEq] at hm2
      exfalso; apply hP
      rw [hm1, hm2.1]; simp

theorem run_tailSpotter (k : Cont) (pos : Nat) (spotter t : Str) (caps : Caps) (r : Nat × Caps)
    (hsp : IsRun dot spotter)
    (ht : ∀ a b, t = a ++ ':' :: b → (∀ c ∈ a, dot c = true) →
      ∀ p1 caps1, tailWs1.run k p1 b caps1 = none)
    (hk : tailWs1.run k (pos + spotter.length + 1) t
      (caps.set 1 (some (pos, pos + spotter.length))) = some r) :
    tailSpotter.run k pos (spotter ++ ':' :: t) caps = some r := by
  apply plusRun_split dot (fun p1 c1 cp1 => tailColon.run k p1 c1 (cp1.set 1 (some (pos, p1))))
    caps r (':' :: t) spotter pos hsp.1 hsp.2
  · show tailColon.run k (pos + spotter.length) (':' :: t) _ = some r
    rw [run_tailColon]
    exact hk
  · intro a b hab ha hdot
    cases a with
    | nil => exact absurd rfl ha
    | cons y a =>
      simp only [List.cons_append, List.cons.injEq] at hab
      cases b with
      | nil => simp [tailColon, Re.run]
      | cons c b =>
        by_cases hc : c = ':'
        · subst hc
          rw [run_tailColon]
          exact ht a b hab.2 (fun x hx => hdot x (List.mem_cons_of_mem _ hx)) _ _
        · simp [tailColon, Re.run, hc]

theorem plusRun_notHead (p : Char → Bool) (k : Cont) (pos : Nat) (b : Str) (caps : Caps)
    (h : NotHead p b) : plusRun p k pos b caps = none := by
  cases b with
  | nil => rfl
  | cons c b =>
    have : p c = false := h c (by simp)
    simp [plusRun, this]

theorem run_tailWs4_none (k : Cont) (pos : Nat) (caps : Caps) (h1 h2 h3 h4 : Char)
    (locTail b : Str) (d1 : digit h1 = true) (d2 : digit h2 = true) (d3 : digit h3 = true)
    (d4 : digit h4 = true) (hloc : IsLocatorTail locTail)
    (hb : b <:+ h1 :: h2 :: h3 :: h4 :: 'z' :: locTail) :
    tailWs4.run k pos b caps = none := by
  have hz : ws 'z' = false := by decide
  have key : ∀ (x : Char) (l : Str), ws x = false →
      tailWs4.run k pos (x :: l) caps = none := by
    intro x l hx
    exact plusRun_notHead ws _ pos (x :: l) caps (by intro c hc; simp at hc; subst hc; exact hx)
  have hnil : tailWs4.run k pos [] caps = none := rfl
  simp only [List.suffix_cons_iff] at hb
  rcases hb with rfl | rfl | rfl | rfl | rfl | hb
  · exact key _ _ (digit_not_ws _ d1)
  · exact key _ _ (digit_not_ws _ d2)
  · exact key _ _ (digit_not_ws _ d3)
  · exact key _ _ (digit_not_ws _ d4)
  · exact key _ _ hz
  · rcases hloc with rfl | ⟨a, b', c, d, ha, hb', hc, hd, rfl⟩
    · rw [List.suffix_nil] at hb
      subst hb
      exact hnil
    · simp only [List.suffix_cons_iff, List.suffix_nil] at hb
      rcases hb with rfl | rfl | rfl | rfl | rfl | rfl
      · show plusRun ws (fun p1 c1 cp1 => tailTime.run k p1 c1 cp1) pos [' ', a, b', c, d] caps = none
        have hsp : ws ' ' = true := by decide
        have e1 : plusRun ws (fun p1 c1 cp1 => tailTime.run k p1 c1 cp1) (pos + 1) [a, b', c, d] caps
            = none :=
          plusRun_notHead ws _ _ _ caps (by intro x hx; simp at hx; subst hx; exact lowerAZ_not_ws _ ha)
        have e2 : tailTime.run k (pos + 1) [a, b', c, d] caps = none := by
          simp [tailTime, Re.run, Re.times, lowerAZ_not_digit _ ha]
        unfold plusRun
        rw [if_pos hsp, e1]
        exact e2
      · exact key _ _ (lowerAZ_not_ws _ ha)
      · exact key _ _ (lowerAZ_not_ws _ hb')
      · exact key _ _ (digit_not_ws _ hc)
      · exact key _ _ (digit_not_ws _ hd)
      · exact hnil

theorem run_tailTime_end (pos : Nat) (caps : Caps) (h1 h2 h3 h4 : Char) (locTail : Str)
    (st : Nat)
    (d1 : digit h1 = true) (d2 : digit h2 = true) (d3 : digit h3 = true) (d4 : digit h4 = true)
    (hloc : IsLocatorTail locTail) :
    tailTime.run (fun e _ cp => some (e, cp.set 0 (some (st, e)))) pos
        (h1 :: h2 :: h3 :: h4 :: 'z' :: locTail) caps =
      some (pos + 5 + locTail.length,
        ((if locTail = [] then caps.set 5 (some (pos, pos + 4))
          else (caps.set 5 (some (pos, pos + 4))).set 6 (some (pos + 5, pos + 5 + locTail.length))
          ).set 0 (some (st, pos + 5 + locTail.length)))) := by
  rw [run_tailTime _ _ _ _ _ _ _ _ d1 d2 d3 d4]
  rcases hloc with rfl | ⟨a, b', c, d, ha, hb', hc, hd, rfl⟩
  · rw [run_tailLocator_nil]
    simp
  · rw [run_tailLocator_some _ _ _ _ _ _ _ _ _ ha hb' hc hd rfl]
    simp

theorem notHead_of_run (p q : Char → Bool) (s t : Str) (hs : IsRun q s)
    (hq : ∀ c, q c = true → p c = false) : NotHead p (s ++ t) := by
  obtain ⟨hne, hall⟩ := hs
  cases s with
  | nil => exact absurd rfl hne
  | cons x s =>
    intro c hc
    simp only [List.cons_append, List.head?_cons, Option.mem_def, Option.some.injEq] at hc
    subst hc
    exact hq _ (hall _ (List.mem_cons_self _ _))

theorem notHead_cons (p : Char → Bool) (x : Char) (t : Str) (h : p x = false) :
    NotHead p (x :: t) := by
  intro c hc
  simp only [List.head?_cons, Option.mem_def, Option.some.injEq] at hc
  subst hc
  exact h

theorem slice_mid (A B C : Str) (a b : Nat) (ha : a = A.length) (hb : b = A.length + B.length) :
    slice (A ++ (B ++ C)) a b = B := by
  subst ha hb
  simp [slice]

theorem ws_not_colon (c : Char) (h : ws c = true) : c ≠ ':' := by
  rw [ws_iff] at h; rw [ne_eq, char_eq_iff]
  have : ':'.toNat = 58 := rfl
  omega

theorem callChar_not_colon (c : Char) (h : callChar c = true) : c ≠ ':' := by
  rw [callChar_iff] at h; rw [ne_eq, char_eq_iff]
  have : ':'.toNat = 58 := rfl
  omega

theorem lowerAZ_not_colon (c : Char) (h : lowerAZ c = true) : c ≠ ':' := by
  rw [lowerAZ_iff] at h; rw [ne_eq, char_eq_iff]
  have : ':'.toNat = 58 := rfl
  omega

theorem locatorTail_not_colon (s : Str) (h : IsLocatorTail s) : ∀ c ∈ s, c ≠ ':' := by
  rcases h with rfl | ⟨a, b, c, d, ha, hb, hc, hd, rfl⟩
  · intro c hc; cases hc
  · intro x hx
    simp only [List.mem_cons, List.mem_singleton, List.not_mem_nil, or_false] at hx
    rcases hx with rfl | rfl | rfl | rfl | rfl
    · decide
    · exact lowerAZ_not_colon _ ha
    · exact lowerAZ_not_colon _ hb
    · exact digit_not_colon _ hc
    · exact digit_not_colon _ hd

theorem notHead_append_left (p : Char → Bool) (s t : Str) (hs : s ≠ []) (h : NotHead p s) :
    NotHead p (s ++ t) := by
  cases s with
  | nil => exact absurd rfl hs
  | cons x s => exact h

theorem matchAt_spot (spotter w1 ip fp w2 call w3 g4 w4 : Str) (h1 h2 h3 h4 : Char)
    (locTail : Str)
    (hsp : IsRun dot spotter) (hw1 : IsRun ws w1) (hip : IsRun digit ip) (hfp : IsRun digit fp)
    (hw2 : IsRun ws w2) (hcall : IsRun callChar call) (hw3 : IsRun ws w3)
    (hg4 : IsRun dot g4) (hg4h : NotHead ws g4)
    (hcol : ∀ a b, w1 ++ (ip ++ '.' :: (fp ++ (w2 ++ (call ++ (w3 ++
      (g4 ++ (w4 ++ ([h1, h2, h3, h4] ++ 'z' :: locTail)))))))) = a ++ ':' :: b →
      (∀ c ∈ a, dot c = true) → restMatches b = false)
    (hw4 : IsRun ws w4) (hmax : NotHead dot w4 ∨ ∃ c, w4 = [c])
    (d1 : digit h1 = true) (d2 : digit h2 = true) (d3 : digit h3 = true) (d4 : digit h4 = true)
    (hloc : IsLocatorTail locTail) :
    dxMessageExpression.matchAt 0
        (spotLine spotter w1 ip fp w2 call w3 g4 w4 [h1, h2, h3, h4] locTail) =
      some (6 + spotter.length + 1 + w1.length + ip.length + 1 + fp.length + w2.length +
          call.length + w3.length + g4.length + w4.length + 5 + locTail.length,
        spotCaps spotter.length w1.length ip.length fp.length w2.length call.length w3.length
          g4.length w4.length locTail.length) := by
  unfold Re.matchAt
  rw [numSubexp_dx, dx_eq]
  show tailSpotter.run _ 6 (spotter ++ ':' :: (w1 ++ (ip ++ '.' :: (fp ++ (w2 ++ (call ++ (w3 ++
    (g4 ++ (w4 ++ ([h1, h2, h3, h4] ++ 'z' :: locTail)))))))))) _ = _
  apply run_tailSpotter _ _ _ _ _ _ hsp
  · intro a b hab hdot p1 caps1
    refine tailWs1_none _ ?_ b (hcol a b hab hdot) p1 caps1
    intro _ _ _
    rfl
  apply run_tailWs1 _ _ _ _ _ _ hw1 (notHead_of_run ws digit _ _ hip digit_not_ws)
  apply run_tailFreq _ _ _ _ _ _ _ hip hfp (notHead_of_run digit ws _ _ hw2 ws_not_digit)
  apply run_tailWs2 _ _ _ _ _ _ hw2 (notHead_of_run ws callChar _ _ hcall callChar_not_ws)
  apply run_tailCall _ _ _ _ _ _ hcall (notHead_of_run callChar ws _ _ hw3 ws_not_callChar)
  apply run_tailWs3 _ _ _ _ _ _ hw3 (notHead_append_left ws _ _ hg4.1 hg4h)
  apply run_tailComment _ _ _ _ _ _ hg4
  · apply run_tailWs4 _ _ _ _ _ _ hw4 (notHead_cons ws _ _ (digit_not_ws _ d1))
    show tailTime.run _ _ (h1 :: h2 :: h3 :: h4 :: 'z' :: locTail) _ = _
    rw [run_tailTime_end _ _ _ _ _ _ _ 0 d1 d2 d3 d4 hloc]
    by_cases hl : locTail = []
    · subst hl
      simp [spotCaps, List.replicate, List.set]
    · have hl2 : locTail.length ≠ 0 := by
        intro h0; exact hl (List.length_eq_zero.1 h0)
      simp [spotCaps, List.replicate, List.set, hl, hl2]
  · intro a b hab ha hdot p1 caps1
    rcases hmax with hnl | ⟨c, rfl⟩
    · exfalso
      obtain ⟨hne, _⟩ := hw4
      cases w4 with
      | nil => exact hne rfl
      | cons x w4 =>
        cases a with
        | nil => exact ha rfl
        | cons y a =>
          simp only [List.cons_append, List.cons.injEq] at hab
          have h1' : dot y = true := hdot y (List.mem_cons_self _ _)
          have h2' : dot x = false := hnl x (by simp)
          rw [← hab.1, h2'] at h1'
          exact Bool.noConfusion h1'
    · exact run_tailWs4_none _ _ _ h1 h2 h3 h4 locTail b d1 d2 d3 d4 hloc
        (suffix_of_cons_eq_append hab ha)

theorem spotLine_length (spotter w1 ip fp w2 call w3 g4 w4 hhmm locTail : Str) :
    (spotLine spotter w1 ip fp w2 call w3 g4 w4 hhmm locTail).length =
      6 + spotter.length + 1 + w1.length + ip.length + 1 + fp.length + w2.length +
          call.length + w3.length + g4.length + w4.length + hhmm.length + 1 + locTail.length := by
  simp [spotLine]
  omega

theorem submatch_spot (spotter w1 ip fp w2 call w3 g4 w4 hhmm locTail : Str)
    (hh : hhmm.length = 4) :
    submatch (spotLine spotter w1 ip fp w2 call w3 g4 w4 hhmm locTail)
        (spotCaps spotter.length w1.length ip.length fp.length w2.length call.length w3.length
          g4.length w4.length locTail.length) =
      [spotLine spotter w1 ip fp w2 call w3 g4 w4 hhmm locTail,
        spotter, ip ++ '.' :: fp, call, g4, hhmm, locTail] := by
  have s0 : slice (spotLine spotter w1 ip fp w2 call w3 g4 w4 hhmm locTail) 0
      (6 + spotter.length + 1 + w1.length + ip.length + 1 + fp.length + w2.length +
          call.length + w3.length + g4.length + w4.length + 5 + locTail.length) =
      spotLine spotter w1 ip fp w2 call w3 g4 w4 hhmm locTail := by
    have := spotLine_length spotter w1 ip fp w2 call w3 g4 w4 hhmm locTail
    unfold slice
    rw [List.drop_zero, Nat.sub_zero]
    apply List.take_of_length_le
    omega
  have s1 : slice (spotLine spotter w1 ip fp w2 call w3 g4 w4 hhmm locTail) 6
      (6 + spotter.length) = spotter := by
    have e : spotLine spotter w1 ip fp w2 call w3 g4 w4 hhmm locTail =
        "dx de ".toList ++ (spotter ++ (':' :: (w1 ++ (ip ++ '.' :: (fp ++ (w2 ++ (call ++ (w3 ++
          (g4 ++ (w4 ++ (hhmm ++ 'z' :: locTail)))))))))))  := rfl
    rw [e]
    exact slice_mid _ _ _ _ _ rfl rfl
  have s2 : slice (spotLine spotter w1 ip fp w2 call w3 g4 w4 hhmm locTail)
      (6 + spotter.length + 1 + w1.length)
      (6 + spotter.length + 1 + w1.length + ip.length + 1 + fp.length) = ip ++ '.' :: fp := by
    have e : spotLine spotter w1 ip fp w2 call w3 g4 w4 hhmm locTail =
        ("dx de ".toList ++ spotter ++ [':'] ++ w1) ++ ((ip ++ '.' :: fp) ++ (w2 ++ (call ++ (w3 ++
          (g4 ++ (w4 ++ (hhmm ++ 'z' :: locTail))))))) := by
      simp [spotLine]
    rw [e]
    exact slice_mid _ _ _ _ _ (by simp; omega) (by simp; omega)
  have s3 : slice (spotLine spotter w1 ip fp w2 call w3 g4 w4 hhmm locTail)
      (6 + spotter.length + 1 + w1.length + ip.length + 1 + fp.length + w2.length)
      (6 + spotter.length + 1 + w1.length + ip.length + 1 + fp.length + w2.length + call.length)
      = call := by
    have e : spotLine spotter w1 ip fp w2 call w3 g4 w4 hhmm locTail =
        ("dx de ".toList ++ spotter ++ [':'] ++ w1 ++ ip ++ ['.'] ++ fp ++ w2) ++ (call ++ (w3 ++
          (g4 ++ (w4 ++ (hhmm ++ 'z' :: locTail))))) := by
      simp [spotLine]
    rw [e]
    exact slice_mid _ _ _ _ _ (by simp; omega) (by simp; omega)
  have s4 : slice (spotLine spotter w1 ip fp w2 call w3 g4 w4 hhmm locTail)
      (6 + spotter.length + 1 + w1.length + ip.length + 1 + fp.length + w2.length + call.length
        + w3.length)
      (6 + spotter.length + 1 + w1.length + ip.length + 1 + fp.length + w2.length + call.length
        + w3.length + g4.length) = g4 := by
    have e : spotLine spotter w1 ip fp w2 call w3 g4 w4 hhmm locTail =
        ("dx de ".toList ++ spotter ++ [':'] ++ w1 ++ ip ++ ['.'] ++ fp ++ w2 ++ call ++ w3) ++
          (g4 ++ (w4 ++ (hhmm ++ 'z' :: locTail))) := by
      simp [spotLine]
    rw [e]
    exact slice_mid _ _ _ _ _ (by simp; omega) (by simp; omega)
  have s5 : slice (spotLine spotter w1 ip fp w2 call w3 g4 w4 hhmm locTail)
      (6 + spotter.length + 1 + w1.length + ip.length + 1 + fp.length + w2.length + call.length
        + w3.length + g4.length + w4.length)
      (6 + spotter.length + 1 + w1.length + ip.length + 1 + fp.length + w2.length + call.length
        + w3.length + g4.length + w4.length + 4) = hhmm := by
    have e : spotLine spotter w1 ip fp w2 call w3 g4 w4 hhmm locTail =
        ("dx de ".toList ++ spotter ++ [':'] ++ w1 ++ ip ++ ['.'] ++ fp ++ w2 ++ call ++ w3 ++ g4
          ++ w4) ++ (hhmm ++ ('z' :: locTail)) := by
      simp [spotLine]
    rw [e]
    exact slice_mid _ _ _ _ _ (by simp; omega) (by simp; omega)
  have s6 : slice (spotLine spotter w1 ip fp w2 call w3 g4 w4 hhmm locTail)
      (6 + spotter.length + 1 + w1.length + ip.length + 1 + fp.length + w2.length + call.length
        + w3.length + g4.length + w4.length + 5)
      (6 + spotter.length + 1 + w1.length + ip.length + 1 + fp.length + w2.length + call.length
        + w3.length + g4.length + w4.length + 5 + locTail.length) = locTail := by
    have e : spotLine spotter w1 ip fp w2 call w3 g4 w4 hhmm locTail =
        ("dx de ".toList ++ spotter ++ [':'] ++ w1 ++ ip ++ ['.'] ++ fp ++ w2 ++ call ++ w3 ++ g4
          ++ w4 ++ hhmm ++ ['z']) ++ (locTail ++ []) := by
      simp [spotLine]
    rw [e]
    exact slice_mid _ _ _ _ _ (by simp; omega) (by simp; omega)
  unfold submatch spotCaps
  simp only [List.map_cons, List.map_nil, s0, s1, s2, s3, s4, s5]
  by_cases hl : locTail.length = 0
  · rw [if_pos hl]
    simp only
    rw [List.length_eq_zero.1 hl]
  · rw [if_neg hl]
    simp only [s6]

theorem allMatches_skip_all (re : Re) (s : Str) (prevEnd : Option Nat) :
    ∀ (cs : Str) (pos : Nat), re.matchAt (pos + cs.length) [] = none →
      allMatches re s cs.length prevEnd pos cs = [] := by
  intro cs
  induction cs with
  | nil =>
    intro pos h
    rw [allMatches_nil]
    simp only [List.length_nil, Nat.add_zero] at h
    rw [h]
  | cons c cs ih =>
    intro pos h
    rw [List.length_cons, allMatches_skip]
    apply ih
    rw [← h]
    congr 1
    simp only [List.length_cons]
    omega

theorem findAll_single (re : Re) (s : Str) (caps : Caps) (hs : s ≠ [])
    (hm : re.matchAt 0 s = some (s.length, caps)) (hend : re.matchAt s.length [] = none) :
    FindAllStringSubmatch re s = [submatch s caps] := by
  unfold FindAllStringSubmatch
  cases hs' : s with
  | nil => exact absurd hs' hs
  | cons c cs =>
    rw [hs'] at hm hend
    rw [allMatches_zero, hm]
    simp only [List.length_cons, Nat.add_one_ne_zero, if_false, Nat.sub_zero,
      Nat.add_sub_cancel]
    rw [allMatches_skip_all re _ _ cs (0 + 1) (by
      rw [← hend]; congr 1; simp only [List.length_cons]; omega)]

theorem dx_matchAt_nil (pos : Nat) : dxMessageExpression.matchAt pos [] = none := by
  simp [Re.matchAt, dxMessageExpression, Re.run, Re.str]

theorem digit_not_isSpace (c : Char) (h : digit c = true) : isSpace c = false := by
  rw [digit_iff] at h
  rw [← Bool.not_eq_true, isSpace_iff]; omega

theorem lowerAZ_not_isSpace (c : Char) (h : lowerAZ c = true) : isSpace c = false := by
  rw [lowerAZ_iff] at h
  rw [← Bool.not_eq_true, isSpace_iff]; omega

theorem TrimSpace_locator (a b c d : Char) (ha : lowerAZ a = true) (hd : digit d = true) :
    TrimSpace [' ', a, b, c, d] = [a, b, c, d] := by
  have h1 : isSpace ' ' = true := by decide
  have h2 := lowerAZ_not_isSpace a ha
  have h3 := digit_not_isSpace d hd
  simp [TrimSpace, trimLeft, trimRight, List.dropWhile, h1, h2, h3]

theorem dropWhile_append_all (p : Char → Bool) (s t : Str) (h : ∀ c ∈ s, p c = true) :
    (s ++ t).dropWhile p = t.dropWhile p := by
  induction s with
  | nil => rfl
  | cons x s ih =>
    have hx := h x (List.mem_cons_self _ _)
    simp only [List.cons_append, List.dropWhile_cons, hx, if_true]
    exact ih (fun c hc => h c (List.mem_cons_of_mem _ hc))

theorem dropWhile_append_stop (p : Char → Bool) (s t : Str) (h : ∃ c ∈ s, p c = false) :
    (s ++ t).dropWhile p = s.dropWhile p ++ t := by
  induction s with
  | nil => obtain ⟨c, hc, _⟩ := h; cases hc
  | cons x s ih =>
    by_cases hx : p x = true
    · simp only [List.cons_append, List.dropWhile_cons, hx, if_true]
      apply ih
      obtain ⟨c, hc, hpc⟩ := h
      rcases List.mem_cons.1 hc with rfl | hc
      · rw [hx] at hpc; exact Bool.noConfusion hpc
      · exact ⟨c, hc, hpc⟩
    · simp [List.dropWhile_cons, hx]

theorem trimRight_append_all (s t : Str) (h : ∀ c ∈ t, isSpace c = true) :
    trimRight (s ++ t) = trimRight s := by
  unfold trimRight
  rw [List.reverse_append, dropWhile_append_all isSpace _ _ (by
    intro c hc; exact h c (List.mem_reverse.1 hc))]

theorem trimLeft_all (s : Str) (h : ∀ c ∈ s, isSpace c = true) : trimLeft s = [] := by
  have := dropWhile_append_all isSpace s [] h
  simpa [trimLeft] using this

theorem TrimSpace_pad (a s b : Str) (ha : ∀ c ∈ a, isSpace c = true)
    (hb : ∀ c ∈ b, isSpace c = true) : TrimSpace (a ++ (s ++ b)) = TrimSpace s := by
  unfold TrimSpace
  have h1 : trimLeft (a ++ (s ++ b)) = trimLeft (s ++ b) := dropWhile_append_all isSpace _ _ ha
  rw [h1]
  by_cases hs : ∀ c ∈ s, isSpace c = true
  · rw [trimLeft_all s hs, trimLeft_all (s ++ b) (by
      intro c hc
      rcases List.mem_append.1 hc with h | h
      · exact hs c h
      · exact hb c h)]
  · have hs' : ∃ c ∈ s, isSpace c = false := by
      push_neg at hs
      obtain ⟨c, hc, hn⟩ := hs
      exact ⟨c, hc, by simpa using hn⟩
    have h2 : trimLeft (s ++ b) = trimLeft s ++ b := dropWhile_append_stop isSpace s b hs'
    rw [h2, trimRight_append_all _ _ hb]

theorem extract_single (L : Lib) (clock : Nat → Time)
    (line spotter khz call g4 hhmm locTail : Str) (cs : L.Callsign) (f : F64)
    (hfind : FindAllStringSubmatch dxMessageExpression line =
      [[line, spotter, khz, call, g4, hhmm, locTail]])
    (hparse : L.callsignParse call = some cs) (hf : parseDXFrequency khz = .ok f)
    (hh : hhmm.length = 4) (hd : ∀ c ∈ hhmm, digit c = true) :
    ExtractDXMessages L clock line = .ok
      [{ Call := cs, Frequency := f,
         Time := Truncate (clock 0) (Hour * 24) + (digitsVal (hhmm.take 2) : Int) * Hour
            + (digitsVal (hhmm.drop 2) : Int) * Minute,
         Locator := (L.locatorParse (TrimSpace locTail)).getD L.zeroLocator,
         Text := TrimSpace g4, Spotter := spotter }] := by
  unfold ExtractDXMessages
  rw [hfind]
  have e3 : [line, spotter, khz, call, g4, hhmm, locTail].getD 3 [] = call := rfl
  have e2 : [line, spotter, khz, call, g4, hhmm, locTail].getD 2 [] = khz := rfl
  have e5 : [line, spotter, khz, call, g4, hhmm, locTail].getD 5 [] = hhmm := rfl
  have e6 : [line, spotter, khz, call, g4, hhmm, locTail].getD 6 [] = locTail := rfl
  have e4 : [line, spotter, khz, call, g4, hhmm, locTail].getD 4 [] = g4 := rfl
  have e1 : [line, spotter, khz, call, g4, hhmm, locTail].getD 1 [] = spotter := rfl
  unfold extractLoop
  rw [if_neg (by simp), e3, e2, e5, e6, e4, e1, hparse, hf, parseDXTimestamp_digits _ _ hh hd]
  simp only [extractLoop, List.nil_append, parseDXLocator]
  congr 3
  cases L.locatorParse (TrimSpace locTail) <;> rfl

theorem notHead_dropWhile (p : Char → Bool) (l : Str) : NotHead p (l.dropWhile p) := by
  induction l with
  | nil => intro c hc; cases hc
  | cons x l ih =>
    by_cases hx : p x = true
    · simp only [List.dropWhile_cons, hx, if_true]; exact ih
    · simp only [List.dropWhile_cons, hx]
      intro c hc
      simp only [Bool.false_eq_true, if_false, List.head?_cons, Option.mem_def,
        Option.some.injEq] at hc
      subst hc
      simpa using hx

theorem split_last_run (w4 : Str) (hw4 : IsRun ws w4) :
    ∃ w4a w4b, w4 = w4a ++ w4b ∧ (∀ c ∈ w4a, dot c = true) ∧ (∀ c ∈ w4a, ws c = true) ∧
      IsRun ws w4b ∧ (NotHead dot w4b ∨ ∃ c, w4b = [c]) := by
  obtain ⟨hne, hall⟩ := hw4
  by_cases hd : ∀ c ∈ w4, dot c = true
  · refine ⟨w4.dropLast, [w4.getLast hne], (List.dropLast_append_getLast hne).symm, ?_, ?_, ?_, ?_⟩
    · intro c hc; exact hd c (List.dropLast_subset _ hc)
    · intro c hc; exact hall c (List.dropLast_subset _ hc)
    · refine ⟨by simp, ?_⟩
      intro c hc
      rw [List.mem_singleton] at hc
      subst hc
      exact hall _ (List.getLast_mem hne)
    · exact Or.inr ⟨_, rfl⟩
  · refine ⟨w4.takeWhile dot, w4.dropWhile dot, (List.takeWhile_append_dropWhile _ _).symm,
      ?_, ?_, ?_, ?_⟩
    · intro c hc; exact (List.mem_takeWhile_imp hc)
    · intro c hc; exact hall c (List.takeWhile_subset _ hc)
    · refine ⟨?_, ?_⟩
      · intro h0
        rw [List.dropWhile_eq_nil_iff] at h0
        exact hd h0
      · intro c hc; exact hall c ((List.dropWhile_suffix _).subset hc)
    · exact Or.inl (notHead_dropWhile dot w4)

/-- Claim C7, as amended: a line "dx de " spotter ":" ws kHz ws call ws comment
ws HHMM "z" with an optional " " locator, in which the spotter is not empty and
holds no newline, every ws is a non-empty run of `[\t\n\f\r ]`, kHz is digits
"." digits that `parseDXFrequency` accepts, call is a non-empty string over
`[0-9a-z/]` that the callsign parser accepts, the comment holds no newline and
some character that is not white space, HHMM is four digits and the locator two
letters and two digits, and in which no ":" of the comment is followed by a
text that the pattern matches from the white space after its colon on (which
is asked only when no white space before the comment holds a newline), yields
exactly one record: its spotter is the spotter, its call the parsed call, its
frequency what `parseDXFrequency` gives for kHz, its time the UTC midnight of
the clock reading plus HH hours and MM minutes, its locator what the locator
parser gives for the locator text (the empty locator if it rejects it), its
text the trimmed comment. -/
theorem ExtractDXMessages_spot_line (L : Lib) (clock : Nat → Time)
    (spotter w1 ip fp w2 call w3 comment w4 hhmm loc : Str) (cs : L.Callsign) (f : F64)
    (hsp : IsRun dot spotter)
    (hw1 : IsRun ws w1) (hip : IsRun digit ip) (hfp : IsRun digit fp) (hw2 : IsRun ws w2)
    (hcall : IsRun callChar call) (hvalid : L.callsignParse call = some cs)
    (hw3 : IsRun ws w3)
    (hcom : ∀ c ∈ comment, c ≠ '\n') (hblank : ∃ c ∈ comment, ws c = false)
    (hw4 : IsRun ws w4)
    (hhh : hhmm.length = 4 ∧ ∀ c ∈ hhmm, digit c = true)
    (hloc : loc = [] ∨ (loc.length = 4 ∧ (∀ c ∈ loc.take 2, lowerAZ c = true) ∧
      (∀ c ∈ loc.drop 2, digit c = true)))
    (hcolon : (∀ c ∈ w1 ++ (w2 ++ w3), c ≠ '\n') → ∀ a b, comment = a ++ ':' :: b →
      restMatches (b ++ (w4 ++ (hhmm ++ 'z' :: (if loc = [] then [] else ' ' :: loc)))) = false)
    (hf : parseDXFrequency (ip ++ '.' :: fp) = .ok f) :
    ExtractDXMessages L clock
        (spotLine spotter w1 ip fp w2 call w3 comment w4 hhmm
          (if loc = [] then [] else ' ' :: loc)) = .ok
      [{ Call := cs, Frequency := f,
         Time := Truncate (clock 0) (24 * Hour) + (digitsVal (hhmm.take 2) : Int) * Hour
            + (digitsVal (hhmm.drop 2) : Int) * Minute,
         Locator := (L.locatorParse loc).getD L.zeroLocator,
         Text := TrimSpace comment, Spotter := spotter }] := by
  -- the comment without the blanks before it, which the pattern gives to the run before
  have hcomment : comment = comment.takeWhile ws ++ comment.dropWhile ws :=
    (List.takeWhile_append_dropWhile _ _).symm
  have hcore_ne : comment.dropWhile ws ≠ [] := by
    intro h0
    rw [List.dropWhile_eq_nil_iff] at h0
    obtain ⟨c, hc, hn⟩ := hblank
    rw [h0 c hc] at hn
    exact Bool.noConfusion hn
  have hlead : ∀ c ∈ comment.takeWhile ws, ws c = true := fun c hc => List.mem_takeWhile_imp hc
  have hcore_sub : ∀ c ∈ comment.dropWhile ws, c ∈ comment :=
    fun c hc => (List.dropWhile_suffix _).subset hc
  obtain ⟨w4a, w4b, hw4eq, hw4a_dot, hw4a_ws, hw4b, hmax⟩ := split_last_run w4 hw4
  -- the time and the locator, character by character
  obtain ⟨hlen, hdig⟩ := hhh
  obtain ⟨h1, h2, h3, h4, rfl⟩ : ∃ h1 h2 h3 h4, hhmm = [h1, h2, h3, h4] := by
    match hhmm, hlen with
    | [a, b, c, d], _ => exact ⟨a, b, c, d, rfl⟩
  have d1 : digit h1 = true := hdig h1 (by simp)
  have d2 : digit h2 = true := hdig h2 (by simp)
  have d3 : digit h3 = true := hdig h3 (by simp)
  have d4 : digit h4 = true := hdig h4 (by simp)
  have hlocTail : IsLocatorTail (if loc = [] then [] else ' ' :: loc) ∧
      TrimSpace (if loc = [] then [] else ' ' :: loc) = loc := by
    rcases hloc with rfl | ⟨hl, hl1, hl2⟩
    · exact ⟨Or.inl rfl, rfl⟩
    · obtain ⟨a, b, c, d, rfl⟩ : ∃ a b c d, loc = [a, b, c, d] := by
        match loc, hl with
        | [a, b, c, d], _ => exact ⟨a, b, c, d, rfl⟩
      have ha : lowerAZ a = true := hl1 a (by simp)
      have hb : lowerAZ b = true := hl1 b (by simp)
      have hc : digit c = true := hl2 c (by simp)
      have hd : digit d = true := hl2 d (by simp)
      rw [if_neg (by simp)]
      exact ⟨Or.inr ⟨a, b, c, d, ha, hb, hc, hd, rfl⟩, TrimSpace_locator a b c d ha hd⟩
  generalize (if loc = [] then [] else ' ' :: loc) = locTail at hlocTail hcolon ⊢
  obtain ⟨hlt, htrim⟩ := hlocTail
  -- the line as the pattern reads it
  have hline : spotLine spotter w1 ip fp w2 call w3 comment w4 [h1, h2, h3, h4] locTail =
      spotLine spotter w1 ip fp w2 call (w3 ++ comment.takeWhile ws)
        (comment.dropWhile ws ++ w4a) w4b [h1, h2, h3, h4] locTail := by
    unfold spotLine
    conv_lhs => rw [hcomment, hw4eq]
    simp only [List.append_assoc]
  have hw3' : IsRun ws (w3 ++ comment.takeWhile ws) := by
    refine ⟨by simp [hw3.1], ?_⟩
    intro c hc
    rcases List.mem_append.1 hc with h | h
    · exact hw3.2 c h
    · exact hlead c h
  have hg4 : IsRun dot (comment.dropWhile ws ++ w4a) := by
    refine ⟨by simp [hcore_ne], ?_⟩
    intro c hc
    rcases List.mem_append.1 hc with h | h
    · rw [dot_iff]
      have := hcom c (hcore_sub c h)
      rw [ne_eq, char_eq_iff] at this
      exact this
    · exact hw4a_dot c h
  have hg4h : NotHead ws (comment.dropWhile ws ++ w4a) :=
    notHead_append_left ws _ _ hcore_ne (notHead_dropWhile ws comment)
  -- a colon after the colon of the spotter stands in the comment
  have hcol : ∀ a b, w1 ++ (ip ++ '.' :: (fp ++ (w2 ++ (call ++ ((w3 ++ comment.takeWhile ws) ++
      ((comment.dropWhile ws ++ w4a) ++ (w4b ++ ([h1, h2, h3, h4] ++ 'z' :: locTail)))))))) =
      a ++ ':' :: b → (∀ c ∈ a, dot c = true) → restMatches b = false := by
    intro a b hab hdot
    have hT : w1 ++ (ip ++ '.' :: (fp ++ (w2 ++ (call ++ ((w3 ++ comment.takeWhile ws) ++
        ((comment.dropWhile ws ++ w4a) ++ (w4b ++ ([h1, h2, h3, h4] ++ 'z' :: locTail)))))))) =
        (w1 ++ (ip ++ '.' :: (fp ++ (w2 ++ (call ++ w3))))) ++
          (comment ++ (w4 ++ ([h1, h2, h3, h4] ++ 'z' :: locTail))) := by
      conv_rhs => rw [hcomment, hw4eq]
      simp only [List.append_assoc, List.cons_append]
    rw [hT] at hab
    have hP : ':' ∉ w1 ++ (ip ++ '.' :: (fp ++ (w2 ++ (call ++ w3)))) := by
      intro hc
      simp only [List.mem_append, List.mem_cons] at hc
      rcases hc with hc | hc | hc | hc | hc | hc | hc
      · exact ws_not_colon _ (hw1.2 _ hc) rfl
      · exact digit_not_colon _ (hip.2 _ hc) rfl
      · revert hc; decide
      · exact digit_not_colon _ (hfp.2 _ hc) rfl
      · exact ws_not_colon _ (hw2.2 _ hc) rfl
      · exact callChar_not_colon _ (hcall.2 _ hc) rfl
      · exact ws_not_colon _ (hw3.2 _ hc) rfl
    have hZ : ':' ∉ w4 ++ ([h1, h2, h3, h4] ++ 'z' :: locTail) := by
      intro hc
      simp only [List.mem_append, List.mem_cons, List.mem_singleton, List.not_mem_nil,
        or_false] at hc
      rcases hc with hc | (hc | hc | hc | hc) | hc | hc
      · exact ws_not_colon _ (hw4.2 _ hc) rfl
      · exact digit_not_colon _ d1 hc.symm
      · exact digit_not_colon _ d2 hc.symm
      · exact digit_not_colon _ d3 hc.symm
      · exact digit_not_colon _ d4 hc.symm
      · revert hc; decide
      · exact locatorTail_not_colon _ hlt _ hc rfl
    obtain ⟨a1, b1, hc1, hb1, ha1⟩ := split_at _ comment _ a b ':' hP hZ hab
    rw [hb1]
    refine hcolon ?_ a1 b1 hc1
    intro c hc
    have hca : c ∈ a := by
      rw [ha1]
      rcases List.mem_append.1 hc with h | h
      · simp [h]
      · rcases List.mem_append.1 h with h | h
        · simp [h]
        · simp [h]
    have := hdot c hca
    rw [dot_iff] at this
    rw [ne_eq, char_eq_iff]
    exact this
  have hm := matchAt_spot spotter w1 ip fp w2 call (w3 ++ comment.takeWhile ws)
    (comment.dropWhile ws ++ w4a) w4b h1 h2 h3 h4 locTail hsp hw1 hip hfp hw2 hcall hw3' hg4 hg4h
    hcol hw4b hmax d1 d2 d3 d4 hlt
  have hlenline := spotLine_length spotter w1 ip fp w2 call (w3 ++ comment.takeWhile ws)
    (comment.dropWhile ws ++ w4a) w4b [h1, h2, h3, h4] locTail
  have hm' : dxMessageExpression.matchAt 0
      (spotLine spotter w1 ip fp w2 call (w3 ++ comment.takeWhile ws)
        (comment.dropWhile ws ++ w4a) w4b [h1, h2, h3, h4] locTail) =
      some ((spotLine spotter w1 ip fp w2 call (w3 ++ comment.takeWhile ws)
        (comment.dropWhile ws ++ w4a) w4b [h1, h2, h3, h4] locTail).length,
        spotCaps spotter.length w1.length ip.length fp.length w2.length call.length
          (w3 ++ comment.takeWhile ws).length (comment.dropWhile ws ++ w4a).length w4b.length
          locTail.length) := by
    rw [hm, hlenline]; rfl
  have hne : spotLine spotter w1 ip fp w2 call (w3 ++ comment.takeWhile ws)
        (comment.dropWhile ws ++ w4a) w4b [h1, h2, h3, h4] locTail ≠ [] := by
    simp [spotLine]
  have hfind := findAll_single dxMessageExpression _ _ hne hm' (dx_matchAt_nil _)
  rw [submatch_spot spotter w1 ip fp w2 call (w3 ++ comment.takeWhile ws)
        (comment.dropWhile ws ++ w4a) w4b [h1, h2, h3, h4] locTail rfl] at hfind
  rw [hline]
  rw [extract_single L clock _ _ _ _ _ _ _ cs f hfind hvalid hf rfl hdig, htrim, mul_comm Hour 24]
  have htext : TrimSpace (comment.dropWhile ws ++ w4a) = TrimSpace comment := by
    have e1 := TrimSpace_pad [] (comment.dropWhile ws) w4a (by simp)
      (fun c hc => ws_isSpace c (hw4a_ws c hc))
    have e2 := TrimSpace_pad (comment.takeWhile ws) (comment.dropWhile ws) [] 
      (fun c hc => ws_isSpace c (hlead c hc)) (by simp)
    rw [List.nil_append] at e1
    rw [List.append_nil, ← hcomment] at e2
    rw [e1, e2]
  rw [htext]

/-- Witness of C7 (amended): the line of the claim, read at 19:44:12 UTC of day
738608, gives spotter "rx7k", call "rk7r", 7154000 Hz, 16:50 of that day,
locator "kn75" and text "cq"; and a line whose comment "sked: 12:30 utc" holds
colons gives the record of the claim as well. -/
theorem ExtractDXMessages_spot_line_witness :
    ExtractDXMessages sampleLib
        (fun _ => 738608 * (24 * Hour) + 19 * Hour + 44 * Minute + 12000000000)
        "dx de rx7k:       7154.0  rk7r         cq                             1650z kn75".toList
      = .ok
      [{ Call := "rk7r".toList, Frequency := .fin 7154000,
         Time := 738608 * (24 * Hour) + 16 * Hour + 50 * Minute,
         Locator := "kn75".toList, Text := "cq".toList, Spotter := "rx7k".toList }] ∧
    ExtractDXMessages sampleLib (fun _ => 0)
        "dx de rx7k: 7154.0 rk7r sked: 12:30 utc 1650z".toList
      = .ok
      [{ Call := "rk7r".toList, Frequency := .fin 7154000,
         Time := 16 * Hour + 50 * Minute,
         Locator := [], Text := "sked: 12:30 utc".toList, Spotter := "rx7k".toList }] :=
  ⟨ExtractDXMessages_spot_line sampleLib
    (fun _ => 738608 * (24 * Hour) + 19 * Hour + 44 * Minute + 12000000000)
    "rx7k".toList "       ".toList "7154".toList "0".toList "  ".toList "rk7r".toList
    "         ".toList "cq".toList "                             ".toList "1650".toList
    "kn75".toList "rk7r".toList (.fin 7154000)
    ⟨by decide, by decide⟩ ⟨by decide, by decide⟩ ⟨by decide, by decide⟩ ⟨by decide, by decide⟩
    ⟨by decide, by decide⟩ ⟨by decide, by decide⟩ rfl ⟨by decide, by decide⟩
    (by decide) (by decide) ⟨by decide, by decide⟩ ⟨by decide, by decide⟩
    (Or.inr ⟨by decide, by decide, by decide⟩) (fun _ => colons_benign _ _ (by decide))
    (by decide),
   ExtractDXMessages_spot_line sampleLib (fun _ => 0)
    "rx7k".toList " ".toList "7154".toList "0".toList " ".toList "rk7r".toList
    " ".toList "sked: 12:30 utc".toList " ".toList "1650".toList
    [] "rk7r".toList (.fin 7154000)
    ⟨by decide, by decide⟩ ⟨by decide, by decide⟩ ⟨by decide, by decide⟩ ⟨by decide, by decide⟩
    ⟨by decide, by decide⟩ ⟨by decide, by decide⟩ rfl ⟨by decide, by decide⟩
    (by decide) (by decide) ⟨by decide, by decide⟩ ⟨by decide, by decide⟩
    (Or.inl rfl) (fun _ => colons_benign _ _ (by decide)) (by decide)⟩

/-- Counterexample to C7 as stated: the line
"dx de rx7k: 2048.2 rk7r cq 1650z" has the form of the claim, and its one
record has the spotter, call, time and text of the claim, but its frequency is
8796952015667199 / 2^32 Hz, that is 2048199.9999999998, and not 1000 times
2048.2. -/
theorem ExtractDXMessages_spot_line_rounded :
    "dx de rx7k: 2048.2 rk7r cq 1650z".toList =
      spotLine "rx7k".toList " ".toList "2048".toList "2".toList " ".toList "rk7r".toList
        " ".toList "cq".toList " ".toList "1650".toList [] ∧
    recordFields (ExtractDXMessages sampleLib (fun _ => 0)
        "dx de rx7k: 2048.2 rk7r cq 1650z".toList) =
      [⟨"rk7r".toList, .fin (mkRat 8796952015667199 4294967296), 16 * Hour + 50 * Minute, [],
        "cq".toList, "rx7k".toList⟩] ∧
    mkRat 8796952015667199 4294967296 ≠ 1000 * decimalValue "2048".toList "2".toList := by
  refine ⟨by decide, by decide, ?_⟩
  have hv : decimalValue "2048".toList "2".toList = 20482 / 10 := by
    unfold decimalValue
    rw [show digitsVal ("2048".toList ++ "2".toList) = 20482 by decide,
      show "2".toList.length = 1 by decide]
    norm_num
  rw [hv, Rat.mkRat_eq_div]
  norm_num

/-- A comment that the amended C7 leaves out: in the line below, which has the
form of the claim with spotter "rx7k", 7154.0 kHz, call "rk7r" and comment
"heard: 14040.1 sv1rrv cq", the colon of the comment is followed by a text
that the rest of the pattern matches, and the one record returned has the
spotter "rx7k: 7154.0 rk7r heard", the call "sv1rrv" and 14040100 Hz. -/
theorem ExtractDXMessages_greedy_spotter :
    "dx de rx7k: 7154.0 rk7r heard: 14040.1 sv1rrv cq 1650z".toList =
      spotLine "rx7k".toList " ".toList "7154".toList "0".toList " ".toList "rk7r".toList
        " ".toList "heard: 14040.1 sv1rrv cq".toList " ".toList "1650".toList [] ∧
    restMatches " 14040.1 sv1rrv cq 1650z".toList = true ∧
    (match ExtractDXMessages sampleLib (fun _ => 0)
        "dx de rx7k: 7154.0 rk7r heard: 14040.1 sv1rrv cq 1650z".toList with
      | .ok ms => ms.map (fun m => (m.Spotter, m.Call, m.Frequency, m.Text))
      | .error _ => []) =
      [("rx7k: 7154.0 rk7r heard".toList, "sv1rrv".toList, F64.fin 14040100, "cq".toList)] := by
  decide

/-! ## The tests of `parse_test.go` on the embedding -/

/-- The case "dxspider" of `TestExtractDXMessages`, read at the zero time. -/
theorem test_dxspider :
    recordFields (ExtractDXMessages sampleLib (fun _ => 0)
      "dx de rx7k:       7154.0  rk7r         cq                             1650z kn75\x07\x07\r\ndx de sv1smx:    14090.0  vk9nt        tks  qso 73\\' f/h              1650z\x07\x07".toList) =
    [⟨"rk7r".toList, .fin 7154000, 16 * Hour + 50 * Minute, "kn75".toList, "cq".toList, "rx7k".toList⟩,
     ⟨"vk9nt".toList, .fin 14090000, 16 * Hour + 50 * Minute, [], "tks  qso 73\\' f/h".toList, "sv1smx".toList⟩] := by
  decide

/-- The case "cwskimmer" of `TestExtractDXMessages`. -/
theorem test_cwskimmer :
    recordFields (ExtractDXMessages sampleLib (fun _ => 0)
      "dx de dl8las-#:  14040.1  sv1rrv         20 db  18 wpm  cq            1711z".toList) =
    [⟨"sv1rrv".toList, .fin 14040100, 17 * Hour + 11 * Minute, [], "20 db  18 wpm  cq".toList, "dl8las-#".toList⟩] := by
  decide

/-- The case "arc6" of `TestExtractDXMessages`: four lines, four records. -/
theorem test_arc6 :
    recordFields (ExtractDXMessages sampleLib (fun _ => 0)
      "dx de dm5gg-#:    7003.0  4x0aaw       cw 8 db 28 wpm cq              1801z\r\ndx de sq7bfc-13: 24902.0  pj2/k5pi     tnx qso 73                     1801z\r\ndx de dm5gg-#:    7010.0  uv2iz        cw 17 db 18 wpm cq             1801z\r\ndx de dm5gg-#:   24895.0  ve3qam       cw 10 db 30 wpm cq             1801z".toList) =
    [⟨"4x0aaw".toList, .fin 7003000, 18 * Hour + 1 * Minute, [], "cw 8 db 28 wpm cq".toList, "dm5gg-#".toList⟩,
     ⟨"pj2/k5pi".toList, .fin 24902000, 18 * Hour + 1 * Minute, [], "tnx qso 73".toList, "sq7bfc-13".toList⟩,
     ⟨"uv2iz".toList, .fin 7010000, 18 * Hour + 1 * Minute, [], "cw 17 db 18 wpm cq".toList, "dm5gg-#".toList⟩,
     ⟨"ve3qam".toList, .fin 24895000, 18 * Hour + 1 * Minute, [], "cw 10 db 30 wpm cq".toList, "dm5gg-#".toList⟩] := by
  decide

/-! ## The locator of a spot -/

theorem spotRecord_some (L : Lib) (now : Time) (m : List Str) (call : L.Callsign) (f : F64)
    (t : Time) (hc : L.callsignParse (m.getD 3 []) = some call)
    (hf : parseDXFrequency (m.getD 2 []) = .ok f)
    (ht : parseDXTimestamp now (m.getD 5 []) = .ok t) :
    spotRecord L now m = some
      { Call := call, Frequency := f, Time := t,
        Locator := (parseDXLocator L (m.getD 6 [])).getD L.zeroLocator,
        Text := TrimSpace (m.getD 4 []), Spotter := m.getD 1 [] } := by
  simp only [spotRecord, hc, hf, ht]

theorem extract_eq (L : Lib) (clock : Nat → Time) (s : Str) :
    ExtractDXMessages L clock s =
      .ok (((FindAllStringSubmatch dxMessageExpression s).enum).filterMap
        (fun im => spotRecord L (clock im.1) im.2)) := by
  have := extractLoop_eq L clock _ 0 [] (findAll_length s)
  simpa [ExtractDXMessages, List.enum] using this

/-- Claim C11: a structural match whose callsign, frequency and time fields
parse yields a record of the result whatever its locator group holds; the
record's locator is the zero locator when the group is missing (given that the
locator library yields no locator for the empty text) and when the locator
parser rejects it, and the parsed locator otherwise; the other five fields are
taken from the other groups alone. -/
theorem ExtractDXMessages_locator_optional (L : Lib) (clock : Nat → Time) (s : Str)
    (i : Nat) (m : List Str)
    (hm : (i, m) ∈ (FindAllStringSubmatch dxMessageExpression s).enum)
    (call : L.Callsign) (f : F64) (t : Time)
    (hc : L.callsignParse (m.getD 3 []) = some call)
    (hf : parseDXFrequency (m.getD 2 []) = .ok f)
    (ht : parseDXTimestamp (clock i) (m.getD 5 []) = .ok t)
    (hlib : (L.locatorParse []).getD L.zeroLocator = L.zeroLocator) :
    ∃ records loc, ExtractDXMessages L clock s = .ok records ∧
      ({ Call := call, Frequency := f, Time := t, Locator := loc,
         Text := TrimSpace (m.getD 4 []), Spotter := m.getD 1 [] } : DXMessage L) ∈ records ∧
      (m.getD 6 [] = [] → loc = L.zeroLocator) ∧
      (parseDXLocator L (m.getD 6 []) = none → loc = L.zeroLocator) ∧
      (∀ l, parseDXLocator L (m.getD 6 []) = some l → loc = l) := by
  refine ⟨_, (parseDXLocator L (m.getD 6 [])).getD L.zeroLocator, extract_eq L clock s, ?_, ?_, ?_, ?_⟩
  · rw [List.mem_filterMap]
    exact ⟨(i, m), hm, spotRecord_some L (clock i) m call f t hc hf ht⟩
  · intro h6
    rw [h6]
    exact hlib
  · intro h; rw [h]; rfl
  · intro l h; rw [h]; rfl

/-- Witness of C11: the second line of the test "dxspider", which has no
locator. -/
theorem ExtractDXMessages_locator_optional_witness :
    ∃ records loc, ExtractDXMessages sampleLib (fun _ => 0)
        "dx de sv1smx:    14090.0  vk9nt        tks  qso 73\\' f/h              1650z".toList
          = .ok records ∧
      ({ Call := "vk9nt".toList, Frequency := .fin 14090000, Time := 16 * Hour + 50 * Minute,
         Locator := loc, Text := "tks  qso 73\\' f/h".toList, Spotter := "sv1smx".toList }
          : DXMessage sampleLib) ∈ records ∧
      loc = sampleLib.zeroLocator := by
  obtain ⟨records, loc, h1, h2, h3, _, _⟩ := ExtractDXMessages_locator_optional sampleLib
    (fun _ => 0)
    "dx de sv1smx:    14090.0  vk9nt        tks  qso 73\\' f/h              1650z".toList 0
    ["dx de sv1smx:    14090.0  vk9nt        tks  qso 73\\' f/h              1650z".toList,
      "sv1smx".toList, "14090.0".toList, "vk9nt".toList,
      "tks  qso 73\\' f/h             ".toList, "1650".toList, []]
    (by decide) "vk9nt".toList (.fin 14090000) (16 * Hour + 50 * Minute) rfl (by decide)
    (by decide) rfl
  exact ⟨records, loc, h1, h2, h3 rfl⟩

/-! ## The registry of observers -/

theorem Notify_all (ls : List Listener) : ∀ (c : Client),
    (ls.foldl Notify c).listeners = c.listeners ++ ls := by
  induction ls with
  | nil => intro c; simp
  | cons l ls ih => intro c; simp [List.foldl_cons, ih, Notify]

theorem emitDX_eq (L : Lib) (m : DXMessage L) (ls : List Listener) :
    emitDX L m ls = (ls.filter (fun l => l.isDXListener)).map (fun l => ⟨l, .DX m⟩) := by
  induction ls with
  | nil => rfl
  | cons l ls ih => by_cases h : l.isDXListener = true <;> simp [emitDX, h, ih]

theorem emitConnected_eq (L : Lib) (b : Bool) (ls : List Listener) :
    emitConnected L b ls =
      (ls.filter (fun l => l.isConnectionListener)).map (fun l => ⟨l, .Connected b⟩) := by
  induction ls with
  | nil => rfl
  | cons l ls ih => by_cases h : l.isConnectionListener = true <;> simp [emitConnected, h, ih]

theorem emitWWV_eq (L : Lib) (ls : List Listener) :
    emitWWV L ls = (ls.filter (fun l => l.isWWVListener)).map (fun l => ⟨l, .WWV⟩) := by
  induction ls with
  | nil => rfl
  | cons l ls ih => by_cases h : l.isWWVListener = true <;> simp [emitWWV, h, ih]

theorem emitText_eq (L : Lib) (ls : List Listener) :
    emitText L ls = (ls.filter (fun l => l.isTextListener)).map (fun l => ⟨l, .Text⟩) := by
  induction ls with
  | nil => rfl
  | cons l ls ih => by_cases h : l.isTextListener = true <;> simp [emitText, h, ih]

theorem count_filter_map (L : Lib) (p : Listener → Bool) (n : Notification L)
    (ls : List Listener) (l : Listener) :
    (((ls.filter p).map (fun x => (⟨x, n⟩ : Invocation L))).filter
      (fun i => decide (i.listener = l))).length = if p l then ls.count l else 0 := by
  induction ls with
  | nil => simp
  | cons x ls ih =>
    by_cases hx : p x = true
    · by_cases hxl : x = l
      · subst hxl
        simp only [List.filter_cons, hx, if_true, List.map_cons, decide_True, List.length_cons,
          ih, List.count_cons_self]
      · have : ¬ (l = x) := fun h => hxl h.symm
        simp only [List.filter_cons, hx, if_true, List.map_cons, hxl, decide_False, ih,
          Bool.false_eq_true, if_false]
        rw [List.count_cons_of_ne this]
    · by_cases hxl : x = l
      · subst hxl
        simp only [List.filter_cons, hx, ih, Bool.false_eq_true, if_false]
      · have : ¬ (l = x) := fun h => hxl h.symm
        simp only [List.filter_cons, hx, ih, Bool.false_eq_true, if_false]
        rw [List.count_cons_of_ne this]

/-- Claim C12: after `Notify(l1)`, ..., `Notify(ln)` the registry is the old one
followed by `l1 .. ln`; `emitDX(m)` invokes `DX(m)` on exactly those of its
handles that implement `DXListener`, in registration order and once per
registration, so that a handle is invoked as often as it is registered, and
never when it lacks the interface; likewise `emitConnected`, `emitWWV` and
`emitText` with their interfaces. -/
theorem emit_after_Notify (L : Lib) (c : Client) (ls : List Listener) (m : DXMessage L)
    (connected : Bool) :
    (ls.foldl Notify c).listeners = c.listeners ++ ls ∧
    (emitDX L m (ls.foldl Notify c).listeners =
        ((c.listeners ++ ls).filter (fun l => l.isDXListener)).map (fun l => ⟨l, .DX m⟩) ∧
      emitConnected L connected (ls.foldl Notify c).listeners =
        ((c.listeners ++ ls).filter (fun l => l.isConnectionListener)).map
          (fun l => ⟨l, .Connected connected⟩) ∧
      emitWWV L (ls.foldl Notify c).listeners =
        ((c.listeners ++ ls).filter (fun l => l.isWWVListener)).map (fun l => ⟨l, .WWV⟩) ∧
      emitText L (ls.foldl Notify c).listeners =
        ((c.listeners ++ ls).filter (fun l => l.isTextListener)).map (fun l => ⟨l, .Text⟩)) ∧
    (∀ l : Listener,
      ((emitDX L m (ls.foldl Notify c).listeners).filter
          (fun i => decide (i.listener = l))).length =
        (if l.isDXListener then (c.listeners ++ ls).count l else 0) ∧
      ((emitConnected L connected (ls.foldl Notify c).listeners).filter
          (fun i => decide (i.listener = l))).length =
        (if l.isConnectionListener then (c.listeners ++ ls).count l else 0) ∧
      ((emitWWV L (ls.foldl Notify c).listeners).filter
          (fun i => decide (i.listener = l))).length =
        (if l.isWWVListener then (c.listeners ++ ls).count l else 0) ∧
      ((emitText L (ls.foldl Notify c).listeners).filter
          (fun i => decide (i.listener = l))).length =
        (if l.isTextListener then (c.listeners ++ ls).count l else 0)) := by
  rw [Notify_all, emitDX_eq, emitConnected_eq, emitWWV_eq, emitText_eq]
  refine ⟨rfl, ⟨rfl, rfl, rfl, rfl⟩, fun l => ⟨?_, ?_, ?_, ?_⟩⟩
  · exact count_filter_map L (fun l => l.isDXListener) (.DX m) _ l
  · exact count_filter_map L (fun l => l.isConnectionListener) (.Connected connected) _ l
  · exact count_filter_map L (fun l => l.isWWVListener) .WWV _ l
  · exact count_filter_map L (fun l => l.isTextListener) .Text _ l


/-! ## Texts without a spot -/

theorem run_str_inv (lit : Str) : ∀ (k : Cont) (pos : Nat) (cs : Str) (caps : Caps)
    (r : Nat × Caps), (Re.str lit).run k pos cs caps = some r →
    ∃ rest, cs = lit ++ rest ∧ k (pos + lit.length) rest caps = some r := by
  induction lit with
  | nil => intro k pos cs caps r h; exact ⟨cs, rfl, h⟩
  | cons c lit ih =>
    intro k pos cs caps r h
    cases cs with
    | nil => simp [Re.str, Re.run] at h
    | cons d ds =>
      simp only [Re.str, Re.run] at h
      split_ifs at h with hd
      obtain ⟨rest, hrest, hk⟩ := ih k (pos + 1) ds caps r h
      refine ⟨rest, by rw [hd, hrest]; rfl, ?_⟩
      rw [← hk]
      congr 1
      simp only [List.length_cons]
      omega

theorem dx_matchAt_literal (pos : Nat) (cs : Str) (r : Nat × Caps)
    (h : dxMessageExpression.matchAt pos cs = some r) : "dx de ".toList <+: cs := by
  unfold Re.matchAt at h
  rw [dx_eq] at h
  obtain ⟨rest, hrest, _⟩ := run_str_inv _ _ _ _ _ _ h
  exact ⟨rest, hrest.symm⟩

theorem allMatches_eq_nil (re : Re) (s : Str) : ∀ (cs : Str) (skip : Nat) (prevEnd : Option Nat)
    (pos : Nat), (∀ p cs1, cs1 <:+ cs → re.matchAt p cs1 = none) →
    allMatches re s skip prevEnd pos cs = [] := by
  intro cs
  induction cs with
  | nil =>
    intro skip prevEnd pos h
    rw [allMatches_nil, h pos [] (List.suffix_refl _)]
  | cons c cs ih =>
    intro skip prevEnd pos h
    have hcs : ∀ p cs1, cs1 <:+ cs → re.matchAt p cs1 = none :=
      fun p cs1 h1 => h p cs1 (h1.trans (List.suffix_cons _ _))
    cases skip with
    | succ n => rw [allMatches_skip]; exact ih _ _ _ hcs
    | zero =>
      rw [allMatches_zero, h pos (c :: cs) (List.suffix_refl _)]
      exact ih _ _ _ hcs

/-- Claim C20: a text that does not contain the lower-case literal "dx de "
yields the empty list of records and no error. -/
theorem ExtractDXMessages_case_sensitive (L : Lib) (clock : Nat → Time) (s : Str)
    (h : ¬ "dx de ".toList <:+: s) : ExtractDXMessages L clock s = .ok [] := by
  have hnone : FindAllStringSubmatch dxMessageExpression s = [] := by
    unfold FindAllStringSubmatch
    apply allMatches_eq_nil
    intro p cs1 hsuf
    cases hm : dxMessageExpression.matchAt p cs1 with
    | none => rfl
    | some r =>
      exfalso
      apply h
      exact (dx_matchAt_literal p cs1 r hm).isInfix.trans hsuf.isInfix
  unfold ExtractDXMessages
  rw [hnone]
  rfl

/-- Witness of C20: the raw line of the claim gives no record, its lower-cased
form gives one. -/
theorem ExtractDXMessages_case_sensitive_witness :
    ExtractDXMessages sampleLib (fun _ => 0) "DX de RX7K:  7154.0  RK7R  cq  1650Z".toList
      = .ok [] ∧
    (recordFields (ExtractDXMessages sampleLib (fun _ => 0)
      "dx de rx7k:  7154.0  rk7r  cq  1650z".toList)).length = 1 :=
  ⟨ExtractDXMessages_case_sensitive sampleLib (fun _ => 0)
    "DX de RX7K:  7154.0  RK7R  cq  1650Z".toList (by decide), by decide⟩

/-! ## The spotter of a record -/

theorem plusRun_inv (p : Char → Bool) (k : Cont) (caps : Caps) (r : Nat × Caps)
    (P : Prop) : ∀ (cs : Str) (pos : Nat),
    plusRun p k pos cs caps = some r →
    (∀ j, 1 ≤ j → j ≤ cs.length → (∀ c ∈ cs.take j, p c = true) →
      k (pos + j) (cs.drop j) caps = some r → P) → P := by
  intro cs
  induction cs with
  | nil => intro pos h; simp [plusRun] at h
  | cons c cs ih =>
    intro pos h hP
    unfold plusRun at h
    split_ifs at h with hc
    cases hrec : plusRun p k (pos + 1) cs caps with
    | some r1 =>
      rw [hrec] at h
      simp only [Option.some.injEq] at h
      subst h
      apply ih (pos + 1) hrec
      intro j hj1 hj2 hall hk
      apply hP (j + 1) (by omega) (by simp; omega)
      · intro x hx
        simp only [List.take_succ_cons, List.mem_cons] at hx
        rcases hx with rfl | hx
        · exact hc
        · exact hall x hx
      · rw [← hk]
        simp only [List.drop_succ_cons]
        congr 1
        omega
    | none =>
      rw [hrec] at h
      apply hP 1 (le_refl _) (by simp)
      · intro x hx
        simp only [List.take_succ_cons, List.take_zero, List.mem_singleton] at hx
        subst hx
        exact hc
      · simpa using h

theorem plusRun_keeps (i : Nat) (p : Char → Bool) (k : Cont) (hk : KeepsSlot i k) :
    KeepsSlot i (plusRun p k) := by
  intro pos cs caps r h
  exact plusRun_inv p k caps r _ cs pos h (fun j _ _ _ hkj => hk _ _ _ _ hkj)

theorem run_keeps (i : Nat) (re : Re) : ∀ (k : Cont), i ∉ re.groups → KeepsSlot i k →
    KeepsSlot i (re.run k) := by
  induction re with
  | eps => intro k _ hk pos cs caps r h; exact hk _ _ _ _ h
  | chr c =>
    intro k _ hk pos cs caps r h
    cases cs with
    | nil => simp [Re.run] at h
    | cons d ds =>
      simp only [Re.run] at h
      split_ifs at h
      exact hk _ _ _ _ h
  | cls p =>
    intro k _ hk pos cs caps r h
    cases cs with
    | nil => simp [Re.run] at h
    | cons d ds =>
      simp only [Re.run] at h
      split_ifs at h
      exact hk _ _ _ _ h
  | seq a b iha ihb =>
    intro k hi hk pos cs caps r h
    simp only [Re.groups, List.mem_append, not_or] at hi
    simp only [Re.run] at h
    exact iha _ hi.1 (ihb k hi.2 hk) _ _ _ _ h
  | plus p =>
    intro k _ hk pos cs caps r h
    simp only [Re.run] at h
    exact plusRun_keeps i p k hk _ _ _ _ h
  | opt r0 ih =>
    intro k hi hk pos cs caps r h
    simp only [Re.run] at h
    cases hrec : r0.run k pos cs caps with
    | some r1 =>
      rw [hrec] at h
      simp only [Option.some.injEq] at h
      subst h
      exact ih k hi hk _ _ _ _ hrec
    | none =>
      rw [hrec] at h
      exact hk _ _ _ _ h
  | grp j r0 ih =>
    intro k hi hk pos cs caps r h
    simp only [Re.groups, List.mem_cons, not_or] at hi
    simp only [Re.run] at h
    have hk2 : KeepsSlot i (fun pos1 cs1 caps1 => k pos1 cs1 (caps1.set j (some (pos, pos1)))) := by
      intro pos1 cs1 caps1 r1 h1
      have := hk _ _ _ _ h1
      rw [this]
      simp only [List.get?_eq_getElem?]
      exact List.getElem?_set_ne (fun hji => hi.1 hji.symm)
    exact ih _ hi.2 hk2 _ _ _ _ h

theorem run_tailColon_inv (k : Cont) (pos : Nat) (b : Str) (caps : Caps) (r : Nat × Caps)
    (h : tailColon.run k pos b caps = some r) : ∃ t, b = ':' :: t := by
  cases b with
  | nil => simp [tailColon, Re.run] at h
  | cons c b =>
    by_cases hc : c = ':'
    · exact ⟨b, by rw [hc]⟩
    · simp [tailColon, Re.run, hc] at h

theorem dx_matchAt_spotter (pos : Nat) (cs : Str) (e : Nat) (caps : Caps)
    (h : dxMessageExpression.matchAt pos cs = some (e, caps)) :
    ∃ rest j post, cs = "dx de ".toList ++ rest ∧ 1 ≤ j ∧ j ≤ rest.length ∧
      (∀ c ∈ rest.take j, dot c = true) ∧ rest.drop j = ':' :: post ∧
      caps.get? 1 = some (some (pos + 6, pos + 6 + j)) := by
  unfold Re.matchAt at h
  rw [numSubexp_dx, dx_eq] at h
  obtain ⟨rest, hrest, hk⟩ := run_str_inv _ _ _ _ _ _ h
  refine ⟨rest, ?_⟩
  have hk' : plusRun dot (fun p1 c1 cp1 => tailColon.run
      (fun e x caps => some (e, caps.set 0 (some (pos, e)))) p1 c1
      (cp1.set 1 (some (pos + 6, p1)))) (pos + 6) rest (List.replicate (6 + 1) none) =
      some (e, caps) := hk
  apply plusRun_inv dot _ _ _ _ rest (pos + 6) hk'
  intro j hj1 hj2 hall hkj
  obtain ⟨post, hpost⟩ := run_tailColon_inv _ _ _ _ _ hkj
  refine ⟨j, post, hrest, hj1, hj2, hall, hpost, ?_⟩
  have hkeep : KeepsSlot 1 (fun e x caps => some (e, List.set caps 0 (some (pos, e)))) := by
    intro p1 c1 cp1 r1 h1
    simp only [Option.some.injEq] at h1
    subst h1
    simp only [List.get?_eq_getElem?]
    exact List.getElem?_set_ne (by decide)
  have := run_keeps 1 tailColon _ (by decide) hkeep _ _ _ _ hkj
  simp only at this
  rw [this]
  simp [List.replicate]

theorem drop_succ_of_drop_eq_cons (s : Str) (pos : Nat) (c : Char) (cs : Str)
    (h : s.drop pos = c :: cs) : s.drop (pos + 1) = cs := by
  rw [← List.tail_drop, h]
  rfl

theorem allMatches_mem (re : Re) (s : Str) : ∀ (cs : Str) (skip : Nat) (prevEnd : Option Nat)
    (pos : Nat), s.drop pos = cs → ∀ m ∈ allMatches re s skip prevEnd pos cs,
      ∃ p e caps, re.matchAt p (s.drop p) = some (e, caps) ∧ m = submatch s caps := by
  intro cs
  induction cs with
  | nil =>
    intro skip prevEnd pos hcs m hm
    rw [allMatches_nil] at hm
    cases hrec : re.matchAt pos [] with
    | none => rw [hrec] at hm; simp at hm
    | some r =>
      obtain ⟨e, caps⟩ := r
      rw [hrec] at hm
      simp only at hm
      split_ifs at hm
      · simp at hm
      · simp only [List.mem_singleton] at hm
        exact ⟨pos, e, caps, by rw [hcs]; exact hrec, hm⟩
  | cons c cs ih =>
    intro skip prevEnd pos hcs m hm
    have hnext := drop_succ_of_drop_eq_cons s pos c cs hcs
    cases skip with
    | succ n =>
      rw [allMatches_skip] at hm
      exact ih _ _ _ hnext m hm
    | zero =>
      rw [allMatches_zero] at hm
      cases hrec : re.matchAt pos (c :: cs) with
      | none => rw [hrec] at hm; exact ih _ _ _ hnext m hm
      | some r =>
        obtain ⟨e, caps⟩ := r
        rw [hrec] at hm
        simp only at hm
        have hhere : ∃ p e caps1, re.matchAt p (s.drop p) = some (e, caps1) ∧
            submatch s caps = submatch s caps1 := ⟨pos, e, caps, by rw [hcs]; exact hrec, rfl⟩
        split_ifs at hm
        · exact ih _ _ _ hnext m hm
        · rcases List.mem_cons.1 hm with h | h
          · rw [h]; exact hhere
          · exact ih _ _ _ hnext m h
        · rcases List.mem_cons.1 hm with h | h
          · rw [h]; exact hhere
          · exact ih _ _ _ hnext m h

theorem submatch_getD (s : Str) (caps : Caps) (i a b : Nat)
    (h : caps.get? i = some (some (a, b))) : (submatch s caps).getD i [] = slice s a b := by
  unfold submatch
  rw [List.getD_eq_getElem?_getD, List.getElem?_map]
  rw [List.get?_eq_getElem?] at h
  rw [h]
  rfl

theorem findAll_spotter (s : Str) (m : List Str)
    (hm : m ∈ FindAllStringSubmatch dxMessageExpression s) :
    m.getD 1 [] ≠ [] ∧ (∀ c ∈ m.getD 1 [], c ≠ '\n') ∧
    ∃ pre post, s = pre ++ ("dx de ".toList ++ (m.getD 1 [] ++ ':' :: post)) := by
  obtain ⟨p, e, caps, hmatch, rfl⟩ := allMatches_mem dxMessageExpression s s 0 none 0 rfl m hm
  obtain ⟨rest, j, post, hrest, hj1, hj2, hall, hpost, hcap⟩ :=
    dx_matchAt_spotter p (s.drop p) e caps hmatch
  have hslice : slice s (p + 6) (p + 6 + j) = rest.take j := by
    unfold slice
    have : s.drop (p + 6) = rest := by
      rw [← List.drop_drop, hrest]
      rfl
    rw [this]
    congr 1
    omega
  rw [submatch_getD s caps 1 _ _ hcap, hslice]
  refine ⟨?_, ?_, ?_⟩
  · intro h0
    have := congrArg List.length h0
    simp only [List.length_take, List.length_nil] at this
    omega
  · intro c hc
    have := hall c hc
    rw [dot_iff] at this
    rw [ne_eq, char_eq_iff]
    exact this
  · refine ⟨s.take p, post, ?_⟩
    rw [← hpost, List.take_append_drop, ← hrest, List.take_append_drop]


theorem spotRecord_spotter (L : Lib) (now : Time) (m : List Str) (r : DXMessage L)
    (h : spotRecord L now m = some r) : r.Spotter = m.getD 1 [] := by
  unfold spotRecord at h
  split at h
  · simp only [Option.some.injEq] at h
    rw [← h]
  · cases h

theorem mem_of_mem_enum {α : Type} (l : List α) (i : Nat) (a : α) (h : (i, a) ∈ l.enum) :
    a ∈ l := by
  obtain ⟨hlt, hx⟩ := List.mem_enum h
  rw [hx]
  exact List.getElem_mem _

/-- What the pattern does give for the spotter of every record returned: a
non-empty run of characters other than newline that stands in the text between
a "dx de " and a ":".  Nothing keeps a ":" or a whole spot out of it. -/
theorem ExtractDXMessages_spotter (L : Lib) (clock : Nat → Time) (s : Str)
    (records : List (DXMessage L)) (h : ExtractDXMessages L clock s = .ok records) :
    ∀ r ∈ records, r.Spotter ≠ [] ∧ (∀ c ∈ r.Spotter, c ≠ '\n') ∧
      ∃ pre post, s = pre ++ ("dx de ".toList ++ (r.Spotter ++ ':' :: post)) := by
  intro r hr
  rw [extract_eq] at h
  simp only [Except.ok.injEq] at h
  rw [← h, List.mem_filterMap] at hr
  obtain ⟨⟨i, m⟩, him, hrec⟩ := hr
  rw [spotRecord_spotter L _ m r hrec]
  exact findAll_spotter s m (mem_of_mem_enum _ i m him)

/-- The line of the test "cwskimmer" and the spotter of its one record, as an
instance of `ExtractDXMessages_spotter`. -/
theorem ExtractDXMessages_spotter_witness :
    ExtractDXMessages sampleLib (fun _ => 0)
      "dx de dl8las-#:  14040.1  sv1rrv         20 db  18 wpm  cq            1711z".toList =
      .ok [{ Call := "sv1rrv".toList, Frequency := .fin 14040100,
             Time := 17 * Hour + 11 * Minute, Locator := [],
             Text := "20 db  18 wpm  cq".toList, Spotter := "dl8las-#".toList }] ∧
    ("dl8las-#".toList ≠ [] ∧ (∀ c ∈ "dl8las-#".toList, c ≠ '\n') ∧
      ∃ pre post,
        "dx de dl8las-#:  14040.1  sv1rrv         20 db  18 wpm  cq            1711z".toList =
          pre ++ ("dx de ".toList ++ ("dl8las-#".toList ++ ':' :: post))) :=
  ⟨rfl, ExtractDXMessages_spotter sampleLib (fun _ => 0)
    "dx de dl8las-#:  14040.1  sv1rrv         20 db  18 wpm  cq            1711z".toList
    [{ Call := "sv1rrv".toList, Frequency := .fin 14040100,
       Time := 17 * Hour + 11 * Minute, Locator := [],
       Text := "20 db  18 wpm  cq".toList, Spotter := "dl8las-#".toList }] rfl
    { Call := "sv1rrv".toList, Frequency := .fin 14040100,
      Time := 17 * Hour + 11 * Minute, Locator := [],
      Text := "20 db  18 wpm  cq".toList, Spotter := "dl8las-#".toList }
    (List.mem_singleton_self _)⟩

/-- Evaluation for C19: two spots with the line end "\r\n" between them give
two records with the spotters "rx7k" and "sv1smx".  The same two spots with a
bare "\r" between them, or with nothing between them, give one record: the
first spot is lost, and the spotter of the record holds two colons and the
whole first spot. -/
theorem ExtractDXMessages_merged_spots :
    recordFields (ExtractDXMessages sampleLib (fun _ => 0)
      "dx de rx7k: 7154.0 rk7r cq 1650z\r\ndx de sv1smx: 14090.0 vk9nt tks 1650z".toList) =
      [⟨"rk7r".toList, .fin 7154000, 16 * Hour + 50 * Minute, [], "cq".toList, "rx7k".toList⟩,
       ⟨"vk9nt".toList, .fin 14090000, 16 * Hour + 50 * Minute, [], "tks".toList,
        "sv1smx".toList⟩] ∧
    recordFields (ExtractDXMessages sampleLib (fun _ => 0)
      "dx de rx7k: 7154.0 rk7r cq 1650z\rdx de sv1smx: 14090.0 vk9nt tks 1650z".toList) =
      [⟨"vk9nt".toList, .fin 14090000, 16 * Hour + 50 * Minute, [], "tks".toList,
        "rx7k: 7154.0 rk7r cq 1650z\rdx de sv1smx".toList⟩] ∧
    recordFields (ExtractDXMessages sampleLib (fun _ => 0)
      "dx de rx7k: 7154.0 rk7r cq 1650zdx de sv1smx: 14090.0 vk9nt tks 1650z".toList) =
      [⟨"vk9nt".toList, .fin 14090000, 16 * Hour + 50 * Minute, [], "tks".toList,
        "rx7k: 7154.0 rk7r cq 1650zdx de sv1smx".toList⟩] ∧
    ':' ∈ "rx7k: 7154.0 rk7r cq 1650z\rdx de sv1smx".toList := by
  decide

/-! ## The life cycle -/

theorem set_true_of_getD (chans : List Bool) (ch : Nat) (h : chans.getD ch false = true) :
    chans.set ch true = chans := by
  induction chans generalizing ch with
  | nil => rfl
  | cons b chans ih =>
    cases ch with
    | zero =>
      simp only [List.getD_cons_zero] at h
      rw [h]; rfl
    | succ n =>
      simp only [List.getD_cons_succ] at h
      simp only [List.set_cons_succ, ih n h]

theorem getD_set_true (chans : List Bool) (ch : Nat) (h : ch < chans.length) :
    (chans.set ch true).getD ch false = true := by
  simp [List.getD_eq_getElem?_getD, List.getElem?_set, h]

theorem Disconnect_eq_fired (s : Session) : Disconnect s = .ok s.fired := by
  obtain ⟨client, closed, chans, dc⟩ := s
  cases dc with
  | none => cases closed <;> rfl
  | some ch =>
    cases hcl : chans.getD ch false with
    | true =>
      have e : Session.fired ⟨client, closed, chans, some ch⟩ = ⟨client, true, chans, some ch⟩ := by
        simp only [Session.fired, set_true_of_getD chans ch hcl]
      rw [e]
      cases closed <;>
        simp only [Disconnect, Session.closeClosed, Session.isClosed, hcl, if_true,
          Bool.false_eq_true, if_false]
    | false =>
      cases closed <;>
        simp only [Disconnect, Session.closeClosed, Session.closeChan, Session.isClosed, hcl,
          if_true, Bool.false_eq_true, if_false, Session.fired]

theorem fired_fired (s : Session) (hwf : s.WF) : s.fired.fired = s.fired := by
  obtain ⟨client, closed, chans, dc⟩ := s
  cases dc with
  | none => rfl
  | some ch =>
    have hlt : ch < chans.length := hwf ch rfl
    simp only [Session.fired, set_true_of_getD _ ch (getD_set_true chans ch hlt)]

/-- Claim C13: in every state of a client (channel `closed` open or closed;
`disconnectChan` nil, open or closed) `Disconnect()` returns without a panic,
so it closes no closed channel; afterwards `closed` is closed, `disconnectChan`
is the same channel as before and is closed if there is one, `Connected()` is
false and the login fields are as before; and a second `Disconnect()` returns
without a panic and leaves that state as it is.  The hypothesis says that the
channel in `disconnectChan`, if any, is one that was made. -/
theorem Disconnect_idempotent (s : Session) (hwf : s.WF) :
    Disconnect s = .ok s.fired ∧
    s.fired.closed = true ∧
    s.fired.disconnectChan = s.disconnectChan ∧
    (∀ ch, s.disconnectChan = some ch → s.fired.isClosed ch = true) ∧
    Connected s.fired = false ∧
    s.fired.client = s.client ∧
    Disconnect s.fired = .ok s.fired := by
  refine ⟨Disconnect_eq_fired s, rfl, rfl, ?_, ?_, rfl, ?_⟩
  · intro ch hch
    have hlt := hwf ch hch
    simp only [Session.fired, Session.isClosed, hch]
    exact getD_set_true _ _ hlt
  · obtain ⟨client, closed, chans, dc⟩ := s
    cases dc with
    | none => rfl
    | some ch =>
      have hlt : ch < chans.length := hwf ch rfl
      simp only [Connected, Session.fired, Session.isClosed, getD_set_true chans ch hlt, if_true]
  · rw [Disconnect_eq_fired, fired_fired s hwf]

/-- Witness of C13: a client before any connection (`disconnectChan` nil), and
a client with an open connection. -/
theorem Disconnect_idempotent_witness :
    Disconnect (newClient "dl1abc".toList "secret".toList) =
      .ok (newClient "dl1abc".toList "secret".toList).fired ∧
    Disconnect (newClient "dl1abc".toList "secret".toList).fired =
      .ok (newClient "dl1abc".toList "secret".toList).fired ∧
    Disconnect ⟨⟨"dl1abc".toList, "secret".toList, true, []⟩, false, [false], some 0⟩ =
      .ok ⟨⟨"dl1abc".toList, "secret".toList, true, []⟩, true, [true], some 0⟩ ∧
    Disconnect ⟨⟨"dl1abc".toList, "secret".toList, true, []⟩, true, [true], some 0⟩ =
      .ok ⟨⟨"dl1abc".toList, "secret".toList, true, []⟩, true, [true], some 0⟩ :=
  have h := Disconnect_idempotent (newClient "dl1abc".toList "secret".toList)
    (by intro ch hch; cases hch)
  have k := Disconnect_idempotent
    ⟨⟨"dl1abc".toList, "secret".toList, true, []⟩, false, [false], some 0⟩
    (by intro ch hch; cases hch; decide)
  ⟨h.1, h.2.2.2.2.2.2, k.1, k.2.2.2.2.2.2⟩

theorem Disconnect_WF (s s1 : Session) (hwf : s.WF) (h : Disconnect s = .ok s1) : s1.WF := by
  rw [Disconnect_eq_fired] at h
  cases h
  intro ch hch
  have := hwf ch hch
  simp only [Session.fired]
  split
  · exact this
  · rw [List.length_set]; exact this

theorem connect_WF (L : Lib) (s : Session) (dial : Bool) (hwf : s.WF) :
    (connect L s dial).session.WF := by
  unfold connect
  split_ifs
  · exact hwf
  · exact hwf
  · intro ch hch
    cases hch
    simp

theorem connect_closed (L : Lib) (s : Session) (dial : Bool) :
    (connect L s dial).session.closed = s.closed := by
  unfold connect
  split_ifs <;> rfl

theorem closeChan_closed (s s1 : Session) (ch : Nat) (h : s.closeChan ch = .ok s1) :
    s1.closed = s.closed ∧ s1.disconnectChan = s.disconnectChan ∧
      s1.chans.length = s.chans.length := by
  unfold Session.closeChan at h
  split_ifs at h
  cases h
  exact ⟨rfl, rfl, List.length_set _ _ _⟩

/-- The part of the invariant that holds: no step of the system opens channel
`closed` again, and every step keeps the state well formed. -/
theorem step_closed (L : Lib) (clock : Nat → Time) (sys sys1 : System) (a : Action)
    (h : sys.step L clock a = some (.ok sys1)) :
    (sys.session.closed = true → sys1.session.closed = true) ∧
    (sys.session.WF → sys1.session.WF) := by
  cases a with
  | disconnect =>
    simp only [System.step, Disconnect_eq_fired, Option.some.injEq, Except.ok.injEq] at h
    subst h
    exact ⟨fun _ => rfl, fun hwf => Disconnect_WF _ _ hwf (Disconnect_eq_fired _)⟩
  | loopSelect i =>
    simp only [System.step] at h
    split at h
    · split at h
      · split_ifs at h <;> cases h <;> exact ⟨id, id⟩
      · cases h; exact ⟨id, id⟩
    · cases h
  | loopRead i text =>
    simp only [System.step] at h
    split at h
    · split at h
      · split at h
        · cases h
        · split at h
          · cases h
          · rename_i s hs
            cases h
            obtain ⟨h1, h2, h3⟩ := closeChan_closed _ _ _ hs
            refine ⟨fun hc => by simpa [h1] using hc, fun hwf ch hch => ?_⟩
            simp only at hch ⊢
            rw [h3]; exact hwf ch (h2 ▸ hch)
      · cases h; exact ⟨id, id⟩
    · cases h
  | supConnect dial =>
    simp only [System.step] at h
    split at h
    · cases h
      exact ⟨fun hc => by simpa [connect_closed] using hc, fun hwf => connect_WF _ _ _ hwf⟩
    · cases h
  | supDisconnected =>
    simp only [System.step] at h
    split at h
    · split at h
      · split_ifs at h; cases h; exact ⟨id, id⟩
      · cases h
    · cases h
  | supClosed =>
    simp only [System.step] at h
    split at h
    · split_ifs at h; cases h; exact ⟨id, id⟩
    · split_ifs at h; cases h; exact ⟨id, id⟩
    · cases h
  | supTimer =>
    simp only [System.step] at h
    split at h
    · cases h; exact ⟨id, id⟩
    · cases h

/-- Evaluation for C14: a client whose first connection ended (its channel is
closed) with `loggedIn = true`.  The next `connect()` with a dial that succeeds
returns no error and `Connected()` is true, but `loggedIn` is still true, and
the prompt "login: " of the new connection gets no reply. -/
theorem connect_keeps_loggedIn :
    (connect sampleLib ⟨⟨"dl1abc".toList, "secret".toList, true, []⟩, false, [true], some 0⟩
      true).failed = false ∧
    Connected (connect sampleLib
      ⟨⟨"dl1abc".toList, "secret".toList, true, []⟩, false, [true], some 0⟩ true).session
      = true ∧
    (connect sampleLib ⟨⟨"dl1abc".toList, "secret".toList, true, []⟩, false, [true], some 0⟩
      true).session.client.loggedIn = true ∧
    (handleIncomingText sampleLib (fun _ => 0)
      (connect sampleLib ⟨⟨"dl1abc".toList, "secret".toList, true, []⟩, false, [true], some 0⟩
        true).session.client "login: ".toList).response = [] := by
  decide

/-- Method `connect` leaves the fields of the login automaton as they are, for
every client and whether the dial succeeds or not. -/
theorem connect_client (L : Lib) (s : Session) (dial : Bool) :
    (connect L s dial).session.client = s.client := by
  unfold connect
  split_ifs <;> rfl

/-- Evaluation for C15: a client of `KeepOpen` whose first dial fails and whose
retry timer has fired; then `Disconnect()` closes `closed` (one dial so far,
`Connected()` false); then the goroutine of `KeepOpen` calls `connect()`, the
dial succeeds: a second dial after `closed` was closed, and `Connected()` is
true.  The same when `Disconnect()` is called before the first `connect()`. -/
theorem KeepOpen_dials_after_Disconnect :
    observe (System.run sampleLib (fun _ => 0) (KeepOpen "dl1abc".toList "secret".toList)
      [.supConnect false, .supTimer, .disconnect]) = some (.ok (true, false, 1)) ∧
    observe (System.run sampleLib (fun _ => 0) (KeepOpen "dl1abc".toList "secret".toList)
      [.supConnect false, .supTimer, .disconnect, .supConnect true]) =
        some (.ok (true, true, 2)) ∧
    observe (System.run sampleLib (fun _ => 0) (KeepOpen "dl1abc".toList "secret".toList)
      [.disconnect, .supConnect true, .supClosed]) = some (.ok (true, true, 1)) := by
  decide

/-- Evaluation for C16: a client of `Open` whose loop has passed its `select`
and waits in `reader.read()`; `Disconnect()` closes `disconnectChan`; then the
read fails, and the loop closes `disconnectChan` a second time: a panic. -/
theorem readWriteLoop_closes_twice :
    observe (System.run sampleLib (fun _ => 0) (Open sampleLib "dl1abc".toList "secret".toList)
      [.loopSelect 0, .disconnect]) = some (.ok (true, false, 1)) ∧
    observe (System.run sampleLib (fun _ => 0) (Open sampleLib "dl1abc".toList "secret".toList)
      [.loopSelect 0, .disconnect, .loopRead 0 none]) =
        some (.error "close of closed channel") := by
  decide

/-- The steps of `WhenDisconnected(f)` one by one: on a client whose
`disconnectChan` is nil it calls `f` once itself and starts no goroutine.  On a client with a channel in
`disconnectChan` it calls `f` not at all itself and starts one goroutine,
which first takes the channel from the field; from then on it calls `f` in its
next step in every state in which that channel is closed (so at once when the
channel was closed already), and has no step at all in a state in which that
channel is open.  No step of the goroutine calls `f` more than once, a step
that calls `f` is one of a goroutine waiting on a closed channel and ends it,
and an ended goroutine has no further step. -/
theorem WhenDisconnected_spec (s : Session) :
    (s.disconnectChan = none → WhenDisconnected s = ⟨1, none⟩) ∧
    (∀ ch, s.disconnectChan = some ch →
      WhenDisconnected s = ⟨0, some .fresh⟩ ∧
      Waiter.fresh.step s = some (.blocked (some ch), 0) ∧
      (∀ s1 : Session, s1.isClosed ch = true →
        (Waiter.blocked (some ch)).step s1 = some (.done, 1)) ∧
      (∀ s1 : Session, s1.isClosed ch = false → (Waiter.blocked (some ch)).step s1 = none)) ∧
    (∀ (s1 : Session) (w w1 : Waiter) (n : Nat), w.step s1 = some (w1, n) →
      n ≤ 1 ∧ (n = 1 → w1 = .done ∧ ∃ ch, w = .blocked (some ch) ∧ s1.isClosed ch = true)) ∧
    (∀ s1 : Session, Waiter.done.step s1 = none) := by
  refine ⟨?_, ?_, ?_, fun _ => rfl⟩
  · intro h; simp only [WhenDisconnected, h]
  · intro ch h
    refine ⟨by simp only [WhenDisconnected, h], by simp only [Waiter.step, h], ?_, ?_⟩
    · intro s1 h1; simp only [Waiter.step, h1, if_true]
    · intro s1 h1; simp only [Waiter.step, h1, Bool.false_eq_true, if_false]
  · intro s1 w w1 n hstep
    cases w with
    | fresh =>
      simp only [Waiter.step, Option.some.injEq, Prod.mk.injEq] at hstep
      obtain ⟨_, rfl⟩ := hstep
      exact ⟨by omega, by intro h; cases h⟩
    | blocked ch =>
      cases ch with
      | none => simp [Waiter.step] at hstep
      | some ch =>
        simp only [Waiter.step] at hstep
        split_ifs at hstep with hc
        simp only [Option.some.injEq, Prod.mk.injEq] at hstep
        obtain ⟨rfl, rfl⟩ := hstep
        exact ⟨le_refl _, fun _ => ⟨rfl, ch, rfl, hc⟩⟩
    | done => simp [Waiter.step] at hstep

/-! ## The reader -/

/-- The loop of `read` over chunks without an error appends them to the string
accumulated. -/
theorem readLoop_chunks (chunks : List Bytes) (o : ReadOutcome) (rest : List ReadOutcome) :
    ∀ (result : Bytes), readLoop (chunks.map (fun d => ⟨d, none⟩) ++ o :: rest) result =
      readLoop (o :: rest) (result ++ chunks.flatten) := by
  induction chunks with
  | nil => intro result; simp
  | cons d chunks ih =>
    intro result
    have hstep : readLoop (⟨d, none⟩ :: (chunks.map (fun d => ⟨d, none⟩) ++ o :: rest)) result =
        readLoop (chunks.map (fun d => ⟨d, none⟩) ++ o :: rest) (result ++ d) := rfl
    rw [List.map_cons, List.cons_append, hstep, ih, List.flatten_cons, List.append_assoc]

/-- Claim C17: with the connection as the list of the outcomes of `conn.Read`
(bytes without an error, a deadline error, or another error such as EOF),
`read()` returns, when the first outcome with an error is a deadline error, the
concatenation in order of the chunks before it and no error (the empty string
for no chunks); when it is any other error, the empty string and that error,
whatever was accumulated.  The outcomes after it are left for the next call. -/
theorem connReader_read_spec (chunks : List Bytes) (last : Bytes) (rest : List ReadOutcome) :
    connReader_read (chunks.map (fun d => ⟨d, none⟩) ++ ⟨last, some .deadlineExceeded⟩ :: rest) =
      some (⟨chunks.flatten, none⟩, rest) ∧
    (∀ err, err ≠ ReadError.deadlineExceeded →
      connReader_read (chunks.map (fun d => ⟨d, none⟩) ++ ⟨last, some err⟩ :: rest) =
        some (⟨[], some err⟩, rest)) := by
  unfold connReader_read
  constructor
  · rw [readLoop_chunks]
    simp [readLoop]
  · intro err herr
    rw [readLoop_chunks]
    cases err with
    | deadlineExceeded => exact absurd rfl herr
    | eof => simp [readLoop]
    | other msg => simp [readLoop]

/-- Witness of C17: "lo" and "gin:" before a timeout; a timeout at once; "lo"
before an EOF. -/
theorem connReader_read_spec_witness :
    connReader_read [⟨[108, 111], none⟩, ⟨[103, 105, 110, 58], none⟩,
        ⟨[], some .deadlineExceeded⟩] = some (⟨[108, 111, 103, 105, 110, 58], none⟩, []) ∧
    connReader_read [⟨[], some .deadlineExceeded⟩] = some (⟨[], none⟩, []) ∧
    connReader_read [⟨[108, 111], none⟩, ⟨[], some .eof⟩] = some (⟨[], some .eof⟩, []) :=
  ⟨(connReader_read_spec [[108, 111], [103, 105, 110, 58]] [] []).1,
   (connReader_read_spec [] [] []).1,
   (connReader_read_spec [[108, 111]] [] []).2 .eof (by decide)⟩

/-! ## The callback of `WhenDisconnected` -/

/-- Closing a channel leaves the closed channels closed. -/
theorem getD_set_of_getD (chans : List Bool) (ch i : Nat) (h : chans.getD i false = true) :
    (chans.set ch true).getD i false = true := by
  simp only [List.getD_eq_getElem?_getD, List.getElem?_set] at h ⊢
  split_ifs with h1 h2
  · rfl
  · subst h1
    simp only [List.getElem?_eq_none (Nat.le_of_not_lt h2), Option.getD_none] at h
    cases h
  · exact h

/-- Closing a channel leaves the other channels as they are. -/
theorem getD_set_ne (chans : List Bool) (ch i : Nat) (h : i ≠ ch) :
    (chans.set ch true).getD i false = chans.getD i false := by
  simp only [List.getD_eq_getElem?_getD, List.getElem?_set]
  rw [if_neg (fun e => h e.symm)]

/-- Making a channel leaves the closed channels closed. -/
theorem getD_append_of_getD (chans : List Bool) (i : Nat) (h : chans.getD i false = true) :
    (chans ++ [false]).getD i false = true := by
  have hlt : i < chans.length := by
    by_contra hge
    simp only [List.getD_eq_getElem?_getD, List.getElem?_eq_none (Nat.le_of_not_lt hge),
      Option.getD_none] at h
    cases h
  simp only [List.getD_eq_getElem?_getD] at h ⊢
  rw [List.getElem?_append_left hlt]
  exact h

/-- Closing the channel in `disconnectChan` keeps the state sound, opens no
channel and makes none. -/
theorem set_sound (s : Session) (ch : Nat) (hch : s.disconnectChan = some ch) (hs : s.Sound) :
    Session.Sound { s with chans := s.chans.set ch true } ∧
    (∀ i, s.isClosed i = true → Session.isClosed { s with chans := s.chans.set ch true } i = true) ∧
    s.chans.length ≤ ({ s with chans := s.chans.set ch true } : Session).chans.length := by
  obtain ⟨hwf, hoth⟩ := hs
  refine ⟨⟨?_, ?_⟩, ?_, ?_⟩
  · intro c hc
    simp only [List.length_set]
    exact hwf c hc
  · intro i hi hne
    simp only [List.length_set] at hi
    have hic : i ≠ ch := by
      intro e; apply hne; simp only; rw [hch, e]
    simp only [Session.isClosed, getD_set_ne _ _ _ hic]
    exact hoth i hi (by simpa using hne)
  · intro i hi
    exact getD_set_of_getD _ _ _ hi
  · simp only [List.length_set, le_refl]

/-- Method `Disconnect` keeps the state sound and opens no channel. -/
theorem fired_sound (s : Session) (hs : s.Sound) :
    s.fired.Sound ∧ (∀ i, s.isClosed i = true → s.fired.isClosed i = true) ∧
    s.chans.length ≤ s.fired.chans.length := by
  cases hd : s.disconnectChan with
  | none =>
    have e : s.fired = { s with closed := true } := by
      simp only [Session.fired, hd]
    rw [e]
    exact ⟨hs, fun i hi => hi, le_refl _⟩
  | some ch =>
    have e : s.fired = { ({ s with chans := s.chans.set ch true } : Session) with closed := true } := by
      simp only [Session.fired, hd]
    rw [e]
    exact set_sound s ch hd hs

/-- Method `connect` keeps the state sound and opens no channel: it makes a new
channel only when the one in `disconnectChan` is closed or nil. -/
theorem connect_sound (L : Lib) (s : Session) (dial : Bool) (hs : s.Sound) :
    (connect L s dial).session.Sound ∧
    (∀ i, s.isClosed i = true → (connect L s dial).session.isClosed i = true) ∧
    s.chans.length ≤ (connect L s dial).session.chans.length := by
  unfold connect
  split_ifs with h1 h2
  · exact ⟨hs, fun i hi => hi, le_refl _⟩
  · exact ⟨hs, fun i hi => hi, le_refl _⟩
  · obtain ⟨hwf, hoth⟩ := hs
    refine ⟨⟨?_, ?_⟩, ?_, ?_⟩
    · intro c hc
      simp only [Option.some.injEq] at hc
      subst hc
      simp
    · intro i hi hne
      simp only [List.length_append, List.length_singleton] at hi
      have hil : i ≠ s.chans.length := by
        intro e; apply hne; simp only; rw [e]
      have hlt : i < s.chans.length := by omega
      apply getD_append_of_getD
      by_cases hc : s.disconnectChan = some i
      · simp only [Connected, hc] at h1
        by_contra hcl
        apply h1
        simp only [Session.isClosed] at hcl ⊢
        rw [if_neg hcl]
      · exact hoth i hlt hc
    · intro i hi
      exact getD_append_of_getD _ _ hi
    · simp

/-- Every step of the system keeps the state sound, opens no channel again and
forgets none. -/
theorem step_sound (L : Lib) (clock : Nat → Time) (sys sys1 : System) (a : Action)
    (h : sys.step L clock a = some (.ok sys1)) (hs : sys.session.Sound) :
    sys1.session.Sound ∧
    (∀ i, sys.session.isClosed i = true → sys1.session.isClosed i = true) ∧
    sys.session.chans.length ≤ sys1.session.chans.length := by
  cases a with
  | disconnect =>
    simp only [System.step, Disconnect_eq_fired, Option.some.injEq, Except.ok.injEq] at h
    subst h
    exact fired_sound _ hs
  | loopSelect i =>
    simp only [System.step] at h
    split at h
    · split at h
      · split_ifs at h <;> cases h <;> exact ⟨hs, fun i hi => hi, le_refl _⟩
      · cases h; exact ⟨hs, fun i hi => hi, le_refl _⟩
    · cases h
  | loopRead i text =>
    simp only [System.step] at h
    split at h
    · split at h
      · split at h
        · cases h
        · rename_i ch hch
          split at h
          · cases h
          · rename_i s hcl
            cases h
            unfold Session.closeChan at hcl
            split_ifs at hcl
            cases hcl
            exact set_sound _ ch hch hs
      · cases h; exact ⟨hs, fun i hi => hi, le_refl _⟩
    · cases h
  | supConnect dial =>
    simp only [System.step] at h
    split at h
    · cases h
      exact connect_sound L _ dial hs
    · cases h
  | supDisconnected =>
    simp only [System.step] at h
    split at h
    · split at h
      · split_ifs at h; cases h; exact ⟨hs, fun i hi => hi, le_refl _⟩
      · cases h
    · cases h
  | supClosed =>
    simp only [System.step] at h
    split at h
    · split_ifs at h; cases h; exact ⟨hs, fun i hi => hi, le_refl _⟩
    · split_ifs at h; cases h; exact ⟨hs, fun i hi => hi, le_refl _⟩
    · cases h
  | supTimer =>
    simp only [System.step] at h
    split at h
    · cases h; exact ⟨hs, fun i hi => hi, le_refl _⟩
    · cases h


/-- Every step after the call of `WhenDisconnected(f)` keeps `Watch.Inv`. -/
theorem Watch.step_inv (L : Lib) (clock : Nat → Time) (cur : Option Nat) (w w1 : Watch)
    (a : WatchAction) (h : w.step L clock a = some (.ok w1)) (hi : w.Inv cur) : w1.Inv cur := by
  obtain ⟨hs, hreg, hcur⟩ := hi
  cases a with
  | env a =>
    simp only [Watch.step] at h
    split at h
    · cases h
    · cases h
    · rename_i sys1 hstep
      simp only [Option.some.injEq, Except.ok.injEq] at h
      subst h
      obtain ⟨hs1, hmono, hlen⟩ := step_sound L clock _ _ a hstep hs
      refine ⟨hs1, hreg, ?_⟩
      cases cur with
      | none => exact hcur
      | some ch =>
        obtain ⟨hlt, hw⟩ := hcur
        refine ⟨lt_of_lt_of_le hlt hlen, ?_⟩
        simp only at hw ⊢
        cases hwt : w.waiter with
        | none => rw [hwt] at hw; exact hw
        | some g =>
          rw [hwt] at hw
          cases g with
          | fresh => exact hw
          | blocked c =>
            cases c with
            | none => exact hw
            | some c =>
              refine ⟨hw.1, ?_⟩
              rcases hw.2 with e | e
              · exact Or.inl e
              · exact Or.inr (hmono _ e)
          | done => exact ⟨hw.1, hmono _ hw.2⟩
  | register =>
    simp only [Watch.step, hreg, if_true] at h
    cases h
  | wake =>
    simp only [Watch.step] at h
    split at h
    · cases h
    · rename_i g hwt
      split at h
      · cases h
      · rename_i g1 n hstep
        simp only [Option.some.injEq, Except.ok.injEq] at h
        subst h
        refine ⟨hs, hreg, ?_⟩
        cases cur with
        | none =>
          rw [hwt] at hcur
          cases hcur.1
        | some ch =>
          obtain ⟨hlt, hw⟩ := hcur
          refine ⟨hlt, ?_⟩
          rw [hwt] at hw
          simp only at hw ⊢
          cases g with
          | fresh =>
            simp only [Waiter.step, Option.some.injEq, Prod.mk.injEq] at hstep
            obtain ⟨rfl, rfl⟩ := hstep
            simp only at hw
            cases hd : w.sys.session.disconnectChan with
            | none => simpa using hw
            | some c =>
              refine ⟨by simpa using hw, ?_⟩
              by_cases e : c = ch
              · exact Or.inl e
              · refine Or.inr (hs.2 ch hlt ?_)
                rw [hd]
                intro e2
                exact e (Option.some.inj e2)
          | blocked c =>
            cases c with
            | none => simp [Waiter.step] at hstep
            | some c =>
              simp only [Waiter.step] at hstep
              split_ifs at hstep with hc
              simp only [Option.some.injEq, Prod.mk.injEq] at hstep
              obtain ⟨rfl, rfl⟩ := hstep
              simp only at hw ⊢
              refine ⟨by omega, ?_⟩
              rcases hw.2 with e | e
              · rw [← e]; exact hc
              · exact e
          | done => simp [Waiter.step] at hstep

/-- Every run after the call of `WhenDisconnected(f)` keeps `Watch.Inv`. -/
theorem Watch.run_inv (L : Lib) (clock : Nat → Time) (cur : Option Nat) :
    ∀ (acts : List WatchAction) (w w1 : Watch), Watch.run L clock w acts = some (.ok w1) →
      w.Inv cur → w1.Inv cur := by
  intro acts
  induction acts with
  | nil =>
    intro w w1 h hi
    simp only [Watch.run, Option.some.injEq, Except.ok.injEq] at h
    subst h
    exact hi
  | cons a acts ih =>
    intro w w1 h hi
    simp only [Watch.run] at h
    split at h
    · cases h
    · cases h
    · rename_i w2 hstep
      exact ih w2 w1 h (Watch.step_inv L clock cur w w2 a hstep hi)

/-- The call of `WhenDisconnected(f)` establishes `Watch.Inv`. -/
theorem Watch.register_inv (L : Lib) (clock : Nat → Time) (sys : System)
    (hs : sys.session.Sound) :
    ∃ w1, (Watch.init sys).step L clock .register = some (.ok w1) ∧
      w1.Inv sys.session.disconnectChan := by
  refine ⟨_, rfl, hs, rfl, ?_⟩
  cases hd : sys.session.disconnectChan with
  | none => simp [Watch.init, WhenDisconnected, hd]
  | some ch =>
    refine ⟨hs.1 ch hd, ?_⟩
    simp [Watch.init, WhenDisconnected, hd]

/-- What does hold of `WhenDisconnected(f)` in every run of a client that
starts with the call, from a sound state: `f` is called at most once; when
`disconnectChan` is nil at the call, `f` has been called once whatever follows;
and when it holds a channel, `f` is not called before that channel is
closed. -/
theorem WhenDisconnected_runs (L : Lib) (clock : Nat → Time) (sys : System)
    (acts : List WatchAction) (w : Watch) (hs : sys.session.Sound)
    (h : Watch.run L clock (Watch.init sys) (.register :: acts) = some (.ok w)) :
    w.calls ≤ 1 ∧
    (sys.session.disconnectChan = none → w.calls = 1) ∧
    (∀ ch, sys.session.disconnectChan = some ch → w.calls = 1 →
      w.sys.session.isClosed ch = true) := by
  obtain ⟨w1, hreg, hi1⟩ := Watch.register_inv L clock sys hs
  simp only [Watch.run, hreg] at h
  obtain ⟨_, _, hcur⟩ := Watch.run_inv L clock _ acts w1 w h hi1
  cases hd : sys.session.disconnectChan with
  | none =>
    rw [hd] at hcur
    simp only at hcur
    exact ⟨by omega, fun _ => hcur.2, fun ch hch => by cases hch⟩
  | some ch =>
    rw [hd] at hcur
    obtain ⟨_, hw⟩ := hcur
    have key : w.calls ≤ 1 ∧ (w.calls = 1 → w.sys.session.isClosed ch = true) := by
      cases hwt : w.waiter with
      | none => rw [hwt] at hw; exact absurd hw id
      | some g =>
        rw [hwt] at hw
        cases g with
        | fresh => simp only at hw; exact ⟨by omega, fun e => by omega⟩
        | blocked c =>
          cases c with
          | none => simp only at hw; exact ⟨by omega, fun e => by omega⟩
          | some c => simp only at hw; exact ⟨by omega, fun e => by omega⟩
        | done => simp only at hw; exact ⟨by omega, fun _ => hw.2⟩
    refine ⟨key.1, ?_, ?_⟩
    · intro e; cases e
    · intro c hc
      cases hc
      exact key.2

/-- With a closed channel in `disconnectChan` and no step of the client in
between, the goroutine of `WhenDisconnected(f)` calls `f` in its second
step. -/
theorem WhenDisconnected_fired (L : Lib) (clock : Nat → Time) (sys : System) (ch : Nat)
    (hch : sys.session.disconnectChan = some ch) (hcl : sys.session.isClosed ch = true) :
    ∃ w, Watch.run L clock (Watch.init sys) [.register, .wake, .wake] = some (.ok w) ∧
      w.calls = 1 ∧ w.waiter = some .done ∧ w.sys = sys := by
  refine ⟨⟨sys, true, some .done, 1⟩, ?_, rfl, rfl, rfl⟩
  simp [Watch.run, Watch.step, Watch.init, WhenDisconnected, Waiter.step, hch, hcl]

/-- The states of `KeepOpen` and `Open` at their return are sound. -/
theorem KeepOpen_sound (L : Lib) (username password : Str) :
    (KeepOpen username password).session.Sound ∧ (Open L username password).session.Sound := by
  constructor
  · refine And.intro ?_ ?_
    · intro ch hch; cases hch
    · intro i hi _
      simp [KeepOpen, newClient] at hi
  · refine And.intro ?_ ?_
    · intro ch hch
      simp only [Open, connect, Connected, newClient, Option.some.injEq] at hch ⊢
      simp at hch
      subst hch
      simp
    · intro i hi hne
      exfalso
      simp only [Open, connect, Connected, newClient] at hi hne
      simp at hi hne
      omega

/-- Every state that a run of the system reaches from a sound state is
sound. -/
theorem run_sound (L : Lib) (clock : Nat → Time) :
    ∀ (acts : List Action) (sys sys1 : System), System.run L clock sys acts = some (.ok sys1) →
      sys.session.Sound → sys1.session.Sound := by
  intro acts
  induction acts with
  | nil =>
    intro sys sys1 h hs
    simp only [System.run, Option.some.injEq, Except.ok.injEq] at h
    subst h
    exact hs
  | cons a acts ih =>
    intro sys sys1 h hs
    simp only [System.run] at h
    split at h
    · cases h
    · cases h
    · rename_i sys2 hstep
      exact ih sys2 sys1 h (step_sound L clock sys sys2 a hstep hs).1

/-- Evaluation for C18: a client of `KeepOpen` whose first connection was lost
(its channel is closed, `Connected()` is false) and whose retry timer has
fired.  Now `WhenDisconnected(f)` is called: it starts a goroutine and calls
`f` not itself.  If the goroutine runs next, it calls `f` in its second step.
But if the goroutine of `KeepOpen` connects again before the goroutine of the
call has run, that goroutine takes the channel of the new connection from the
field and waits on it: `f` is not called, the goroutine has no further step
while the new connection is up, and `f` is called only when the new connection
has ended. -/
theorem WhenDisconnected_waits_for_next_connection :
    observeCalls (Watch.run sampleLib (fun _ => 0)
      (Watch.init (KeepOpen "dl1abc".toList "secret".toList))
      [.env (.supConnect true), .env (.loopSelect 0), .env (.loopRead 0 none),
       .env .supDisconnected, .env .supTimer, .register]) =
        some (.ok ⟨0, some .fresh, false⟩) ∧
    observeCalls (Watch.run sampleLib (fun _ => 0)
      (Watch.init (KeepOpen "dl1abc".toList "secret".toList))
      [.env (.supConnect true), .env (.loopSelect 0), .env (.loopRead 0 none),
       .env .supDisconnected, .env .supTimer, .register, .wake, .wake]) =
        some (.ok ⟨1, some .done, false⟩) ∧
    observeCalls (Watch.run sampleLib (fun _ => 0)
      (Watch.init (KeepOpen "dl1abc".toList "secret".toList))
      [.env (.supConnect true), .env (.loopSelect 0), .env (.loopRead 0 none),
       .env .supDisconnected, .env .supTimer, .register, .env (.supConnect true), .wake]) =
        some (.ok ⟨0, some (.blocked (some 1)), true⟩) ∧
    observeCalls (Watch.run sampleLib (fun _ => 0)
      (Watch.init (KeepOpen "dl1abc".toList "secret".toList))
      [.env (.supConnect true), .env (.loopSelect 0), .env (.loopRead 0 none),
       .env .supDisconnected, .env .supTimer, .register, .env (.supConnect true), .wake,
       .wake]) = none ∧
    observeCalls (Watch.run sampleLib (fun _ => 0)
      (Watch.init (KeepOpen "dl1abc".toList "secret".toList))
      [.env (.supConnect true), .env (.loopSelect 0), .env (.loopRead 0 none),
       .env .supDisconnected, .env .supTimer, .register, .env (.supConnect true), .wake,
       .env (.loopSelect 1), .env (.loopRead 1 none), .wake]) =
        some (.ok ⟨1, some .done, false⟩) := by
  decide

/-! ## Comments that move the spotter -/

/-- Greedy `p+` ends at or after every place where a run of `p` ends and the
continuation matches. -/
theorem plusRun_longest (p : Char → Bool) (k : Cont) (caps : Caps) :
    ∀ (cs : Str) (pos j : Nat), 1 ≤ j → j ≤ cs.length → (∀ c ∈ cs.take j, p c = true) →
      (k (pos + j) (cs.drop j) caps).isSome = true →
      ∃ r j1, j ≤ j1 ∧ j1 ≤ cs.length ∧ plusRun p k pos cs caps = some r ∧
        k (pos + j1) (cs.drop j1) caps = some r := by
  intro cs
  induction cs with
  | nil => intro pos j h1 h2; simp at h2; omega
  | cons c cs ih =>
    intro pos j h1 h2 hall hk
    have hc : p c = true := by
      apply hall
      obtain ⟨n, rfl⟩ : ∃ n, j = n + 1 := ⟨j - 1, by omega⟩
      simp
    unfold plusRun
    rw [if_pos hc]
    by_cases hj : j = 1
    · subst hj
      cases hrec : plusRun p k (pos + 1) cs caps with
      | some r =>
        apply plusRun_inv p k caps r _ cs (pos + 1) hrec
        intro j2 hj1 hj2 _ hk2
        refine ⟨r, j2 + 1, by omega, by simp; omega, rfl, ?_⟩
        rw [← hk2]
        simp only [List.drop_succ_cons]
        congr 1
        omega
      | none =>
        simp only [List.drop_succ_cons, List.drop_zero] at hk
        cases hk1 : k (pos + 1) cs caps with
        | none => rw [hk1] at hk; cases hk
        | some r => exact ⟨r, 1, le_refl _, by simp, rfl, by simpa using hk1⟩
    · obtain ⟨n, rfl⟩ : ∃ n, j = n + 1 := ⟨j - 1, by omega⟩
      have hn : 1 ≤ n := by omega
      simp only [List.length_cons] at h2
      obtain ⟨r, j1, hj1, hj2, hrun, hk1⟩ := ih (pos + 1) n hn (by omega)
        (fun x hx => hall x (by simp only [List.take_succ_cons, List.mem_cons]; exact Or.inr hx))
        (by
          simp only [List.drop_succ_cons] at hk
          rw [← hk]; congr 2; omega)
      refine ⟨r, j1 + 1, by omega, by simp; omega, by rw [hrun], ?_⟩
      rw [← hk1]
      simp only [List.drop_succ_cons]
      congr 1
      omega

/-- When a colon after the colon of the spotter is followed by a text that the
rest of the pattern matches, and no newline stands before it, the spotter group
of the match at the start of the line reaches at least to that colon. -/
theorem matchAt_moves (spotter a b : Str) (hsp : ∀ c ∈ spotter, dot c = true)
    (ha : ∀ c ∈ a, dot c = true) (hb : restMatches b = true) :
    ∃ e caps j, dxMessageExpression.matchAt 0
        ("dx de ".toList ++ (spotter ++ ':' :: (a ++ ':' :: b))) = some (e, caps) ∧
      spotter.length + 1 + a.length ≤ j ∧
      j ≤ (spotter ++ ':' :: (a ++ ':' :: b)).length ∧
      caps.get? 1 = some (some (6, 6 + j)) := by
  unfold Re.matchAt
  rw [numSubexp_dx, dx_eq]
  have hkend : ∀ pos cs caps,
      ((fun (e : Nat) (_ : Str) (caps : Caps) =>
        some (e, caps.set 0 (some (0, e)))) pos cs caps).isSome = true := fun _ _ _ => rfl
  have hsplit : spotter ++ ':' :: (a ++ ':' :: b) = (spotter ++ ':' :: a) ++ ':' :: b := by
    simp
  have hlen : (spotter ++ ':' :: a).length = spotter.length + 1 + a.length := by
    simp; omega
  obtain ⟨r, j1, hj1, hj2, hrun, hk1⟩ := plusRun_longest dot
    (fun p1 c1 cp1 => tailColon.run (fun e _ caps => some (e, caps.set 0 (some (0, e)))) p1 c1
      (cp1.set 1 (some (6, p1)))) (List.replicate (6 + 1) none)
    (spotter ++ ':' :: (a ++ ':' :: b)) 6 (spotter.length + 1 + a.length) (by omega)
    (by simp; omega)
    (by
      intro c hc
      rw [hsplit, ← hlen, List.take_left'  rfl] at hc
      simp only [List.mem_append, List.mem_cons] at hc
      rcases hc with h | rfl | h
      · exact hsp c h
      · decide
      · exact ha c h)
    (by
      rw [hsplit, ← hlen, List.drop_left' rfl]
      simp only
      rw [run_tailColon]
      have := run_isSome tailWs1 (fun e _ caps => some (e, caps.set 0 (some (0, e))))
        (fun e _ caps => some (e, caps)) (fun _ _ _ _ _ => rfl)
        (6 + (spotter ++ ':' :: a).length + 1) 0 b
        ((List.replicate (6 + 1) none).set 1 (some (6, 6 + (spotter ++ ':' :: a).length)))
        (List.replicate 7 none)
      rw [this]
      exact hb)
  obtain ⟨e, caps⟩ := r
  refine ⟨e, caps, j1, hrun, hj1, hj2, ?_⟩
  have hkeep : KeepsSlot 1 (fun (e : Nat) (_ : Str) (caps : Caps) =>
      some (e, List.set caps 0 (some (0, e)))) := by
    intro p1 c1 cp1 r1 h1
    simp only [Option.some.injEq] at h1
    subst h1
    simp only [List.get?_eq_getElem?]
    exact List.getElem?_set_ne (by decide)
  have := run_keeps 1 tailColon _ (by decide) hkeep _ _ _ _ hk1
  simp only at this
  rw [this]
  simp [List.replicate]

/-- A match at the start of the text is the first that
`FindAllStringSubmatch` returns. -/
theorem findAll_head (re : Re) (s : Str) (e : Nat) (caps : Caps) (hs : s ≠ [])
    (hm : re.matchAt 0 s = some (e, caps)) :
    ∃ ms, FindAllStringSubmatch re s = submatch s caps :: ms := by
  unfold FindAllStringSubmatch
  cases hs1 : s with
  | nil => exact absurd hs1 hs
  | cons c cs =>
    rw [hs1] at hm
    rw [allMatches_zero, hm]
    simp only
    split_ifs with h1 h2
    · cases h2
    · exact ⟨_, rfl⟩
    · exact ⟨_, rfl⟩


/-- The converse of the condition on the comment in C7 (amended): in a line of
the form of the claim in which no white space before the comment holds a
newline, a ":" of the comment that is followed by a text that the rest of the
pattern matches makes the spotter of the first match longer than the
spotter. -/
theorem spot_line_spotter_moves (spotter w1 ip fp w2 call w3 comment w4 hhmm locTail a b : Str)
    (hsp : IsRun dot spotter) (hip : IsRun digit ip) (hfp : IsRun digit fp)
    (hcall : IsRun callChar call)
    (hcom : ∀ c ∈ comment, c ≠ '\n') (hnl : ∀ c ∈ w1 ++ (w2 ++ w3), c ≠ '\n')
    (hab : comment = a ++ ':' :: b)
    (hrest : restMatches (b ++ (w4 ++ (hhmm ++ 'z' :: locTail))) = true) :
    ∃ m ms, FindAllStringSubmatch dxMessageExpression
        (spotLine spotter w1 ip fp w2 call w3 comment w4 hhmm locTail) = m :: ms ∧
      spotter.length < (m.getD 1 []).length := by
  have hdot : ∀ c : Char, c ≠ '\n' → dot c = true := by
    intro c hc
    rw [dot_iff]
    rw [ne_eq, char_eq_iff] at hc
    exact hc
  have hdig : ∀ c : Char, digit c = true → dot c = true := by
    intro c hc
    rw [digit_iff] at hc
    rw [dot_iff]; omega
  have hcc : ∀ c : Char, callChar c = true → dot c = true := by
    intro c hc
    rw [callChar_iff] at hc
    rw [dot_iff]; omega
  have hline : spotLine spotter w1 ip fp w2 call w3 comment w4 hhmm locTail =
      "dx de ".toList ++ (spotter ++ ':' :: ((w1 ++ (ip ++ '.' :: (fp ++ (w2 ++ (call ++
        (w3 ++ a)))))) ++ ':' :: (b ++ (w4 ++ (hhmm ++ 'z' :: locTail))))) := by
    unfold spotLine
    rw [hab]
    simp only [List.append_assoc, List.cons_append]
  have hpre : ∀ c ∈ w1 ++ (ip ++ '.' :: (fp ++ (w2 ++ (call ++ (w3 ++ a))))), dot c = true := by
    intro c hc
    simp only [List.mem_append, List.mem_cons] at hc
    rcases hc with h | h | h | h | h | h | h | h
    · exact hdot c (hnl c (by simp [h]))
    · exact hdig c (hip.2 c h)
    · rw [h]; decide
    · exact hdig c (hfp.2 c h)
    · exact hdot c (hnl c (by simp [h]))
    · exact hcc c (hcall.2 c h)
    · exact hdot c (hnl c (by simp [h]))
    · exact hdot c (hcom c (by rw [hab]; simp [h]))
  obtain ⟨e, caps, j, hm, hj1, hj2, hcap⟩ := matchAt_moves spotter _ _ hsp.2 hpre hrest
  rw [← hline] at hm
  obtain ⟨ms, hfind⟩ := findAll_head dxMessageExpression _ e caps (by simp [spotLine]) hm
  refine ⟨_, ms, hfind, ?_⟩
  rw [submatch_getD _ caps 1 _ _ hcap, hline]
  unfold slice
  have : ("dx de ".toList ++ (spotter ++ ':' :: ((w1 ++ (ip ++ '.' :: (fp ++ (w2 ++ (call ++
        (w3 ++ a)))))) ++ ':' :: (b ++ (w4 ++ (hhmm ++ 'z' :: locTail)))))).drop 6 =
      spotter ++ ':' :: ((w1 ++ (ip ++ '.' :: (fp ++ (w2 ++ (call ++
        (w3 ++ a)))))) ++ ':' :: (b ++ (w4 ++ (hhmm ++ 'z' :: locTail)))) := rfl
  rw [this, List.length_take]
  omega

end Clusterix
